import Mathlib

/-!
# Vic2ToHoI4 converter: a shallow embedding of `HoI4State` and `HoI4World`

The definitions below are translated from
`Vic2ToHoI4/Source/HOI4World/HoI4State.cpp` and
`Vic2ToHoI4/Source/HOI4World/HoI4World.cpp`.

Conventions of the embedding

* C++ `int` and `long` values are `Int`; the quantities involved (factory
  counts, province numbers, map coordinates, populations) stay far away from
  the range where a signed operation would overflow, which C++ leaves
  undefined.
* C++ `double` values are exact rationals (`ℚ`).
* `std::set<T>` and `std::map<K, V>` are lists that hold the elements in the
  ascending order in which the container iterates.
* Integer division is `Int.tdiv` (rounds toward zero, as C++ does) and
  `static_cast<int>` of a `double` is `truncToInt`.
-/

namespace Vic2ToHoI4

/-! ## Numeric helpers -/

/-- The conversion `static_cast<int>(x)` of a `double`: the fractional part is
discarded, so the value is rounded toward zero. -/
def truncToInt (q : ℚ) : Int :=
  if 0 ≤ q then ⌊q⌋ else ⌈q⌉

/-! ## `std::map<int, string>` -/

/-- The member `std::map<int, string>::insert`: the entries stay in ascending
key order and an entry whose key is already present is left as it is. -/
def mapInsert (k : Int) (v : String) : List (Int × String) → List (Int × String)
  | [] => [(k, v)]
  | (k', v') :: rest =>
      if k < k' then (k, v) :: (k', v') :: rest
      else if k = k' then (k', v') :: rest
      else (k', v') :: mapInsert k v rest

/-! ## The source state and the target state -/

/-- The part of `Vic2State` that `HoI4State` reads through its getters. -/
structure Vic2State where
  /-- Value of `getPopulation()`. -/
  population : Int
  /-- Value of `getEmployedWorkers()`. -/
  employedWorkers : Int
  /-- Value of `getAverageRailLevel()`. -/
  averageRailLevel : Int
  /-- Value of `getProvinceNums()`. -/
  provinceNums : List Int
  /-- Value of `isPartialState()`. -/
  partialState : Bool
  deriving DecidableEq, Repr

/-- The data members of `HoI4State`. -/
structure HoI4State where
  sourceState : Vic2State
  ID : Int
  /-- A `std::set<int>`, ascending. -/
  provinces : List Int
  ownerTag : String
  /-- A `std::set<string>`, ascending. -/
  cores : List String
  capitalState : Bool
  manpower : Int
  civFactories : Int
  milFactories : Int
  dockyards : Int
  category : String
  infrastructure : Int
  navalLevel : Int
  navalLocation : Int
  airbaseLevel : Int
  /-- A `std::map<string, double>`, ascending by resource name. -/
  resources : List (String × ℚ)
  victoryPointPosition : Int
  victoryPointValue : Int
  deriving DecidableEq, Repr

/-- The constructor `HoI4State::HoI4State(_sourceState, _ID, _ownerTag)`. The
core set is not assigned in the body and starts empty. -/
def HoI4State.new (sourceState : Vic2State) (ID : Int) (ownerTag : String) : HoI4State :=
  { sourceState := sourceState
    ID := ID
    provinces := []
    ownerTag := ownerTag
    cores := []
    capitalState := false
    manpower := 0
    civFactories := 0
    milFactories := 0
    dockyards := 0
    category := "pastoral"
    infrastructure := 0
    navalLevel := 0
    navalLocation := 0
    airbaseLevel := 0
    resources := []
    victoryPointPosition := 0
    victoryPointValue := 0 }

/-! ## Industry conversion of a state -/

/-- The method `HoI4State::constrainFactoryNumbers(double rawFactories)`. -/
def HoI4State.constrainFactoryNumbers (s : HoI4State) (rawFactories : ℚ) : Int :=
  let factories : Int := truncToInt rawFactories
  let upperLimit : Int := if s.capitalState then 11 else 12
  if factories < 0 then 0
  else if factories > upperLimit then upperLimit
  else factories

/-- The pairs that `HoI4State::getStateCategories()` inserts, in the order of
the `insert` statements of the source. -/
def stateCategoryInsertions : List (Int × String) :=
  [(12, "megalopolis"), (10, "metropolis"), (8, "large_city"), (6, "city"),
   (5, "large_town"), (4, "town"), (2, "rural"), (1, "pastoral"), (0, "enclave")]

/-- The method `HoI4State::getStateCategories()`: the nine insertions into an
empty `std::map<int, string>`. -/
def getStateCategories : List (Int × String) :=
  stateCategoryInsertions.foldl
    (fun stateCategories entry => mapInsert entry.1 entry.2 stateCategories) []

/-- The local `stateSlots` of `determineCategory`, after the adjustment by the
factory count. The argument `factories` is the count after the capital
increment. -/
def stateSlots (population factories : Int) : Int :=
  let stateSlots := Int.tdiv population 120000
  if factories ≥ stateSlots then factories + 2 else stateSlots

/-- The method `HoI4State::determineCategory(int factories)`. The loop visits
the categories in ascending threshold order and overwrites `category` at each
threshold that `stateSlots` reaches. -/
def HoI4State.determineCategory (s : HoI4State) (factories : Int) : HoI4State :=
  let factories := if s.capitalState then factories + 1 else factories
  let population := s.sourceState.population
  let stateSlots := stateSlots population factories
  { s with
    category :=
      getStateCategories.foldl
        (fun category possibleCategory =>
          if stateSlots ≥ possibleCategory.1 then possibleCategory.2 else category)
        s.category }

/-- The method `HoI4State::setInfrastructure(int factories)`. -/
def HoI4State.setInfrastructure (s : HoI4State) (factories : Int) : HoI4State :=
  let infrastructure := s.sourceState.averageRailLevel
  let infrastructure := if factories > 4 then infrastructure + 1 else infrastructure
  let infrastructure := if factories > 6 then infrastructure + 1 else infrastructure
  let infrastructure := if factories > 10 then infrastructure + 1 else infrastructure
  { s with infrastructure := infrastructure }

/-! ## Naval base and victory points -/

/-- The method `HoI4State::setNavalBase(int level, int location)`. -/
def HoI4State.setNavalBase (s : HoI4State) (level location : Int) : HoI4State :=
  if location ∈ s.provinces then
    { s with navalLevel := level, navalLocation := location }
  else s

/-- The method `HoI4State::assignVP(int location)`. -/
def HoI4State.assignVP (s : HoI4State) (location : Int) : HoI4State :=
  let victoryPointValue : Int := 1
  let victoryPointValue :=
    if s.ownerTag ∈ s.cores then victoryPointValue + 2 else victoryPointValue
  { s with victoryPointPosition := location, victoryPointValue := victoryPointValue }

/-! ## Output of a state -/

/-- The method `HoI4State::output`, as the list of the lines sent to the
stream: every element is one line, ended in the source by `endl`. The file
is taken to have been opened. An `int` is rendered by `toString`, which gives
the decimal digits with a leading minus sign as `operator<<` does; the
rendering of a `double` by the stream is the argument `showDouble`. -/
def HoI4State.output (showDouble : ℚ → String) (s : HoI4State) : List String :=
  let out : List String := []
  let out := out ++ ["state=\x7b"]
  let out := out ++ ["\tid=" ++ toString s.ID]
  let out := out ++ ["\tname= \"STATE_" ++ toString s.ID ++ "\""]
  let out := out ++ ["\tmanpower = " ++ toString s.manpower]
  let out := out ++ [""]
  let out :=
    if s.resources.length > 0 then
      let out := out ++ ["\tresources=\x7b"]
      let out :=
        s.resources.foldl
          (fun out resource =>
            out ++ ["\t\t" ++ resource.1 ++ " = " ++ showDouble resource.2])
          out
      out ++ ["\t\x7d"]
    else out
  let out := out ++ ["\tstate_category = " ++ s.category]
  let out := out ++ [""]
  let out := out ++ ["\thistory=\x7b"]
  let out := out ++ ["\t\towner = " ++ s.ownerTag]
  let out :=
    if s.victoryPointValue > 0 ∧ s.victoryPointPosition ≠ 0 then
      let out := out ++ ["\t\tvictory_points = \x7b"]
      let out :=
        out ++ ["\t\t\t" ++ toString s.victoryPointPosition ++ " "
                  ++ toString s.victoryPointValue]
      out ++ ["\t\t\x7d"]
    else out
  let out := out ++ ["\t\tbuildings = \x7b"]
  let out := out ++ ["\t\t\tinfrastructure = " ++ toString s.infrastructure]
  let out := out ++ ["\t\t\tindustrial_complex = " ++ toString s.civFactories]
  let out := out ++ ["\t\t\tarms_factory = " ++ toString s.milFactories]
  let out :=
    if s.dockyards > 0 then out ++ ["\t\t\tdockyard = " ++ toString s.dockyards]
    else out
  let out :=
    if s.navalLevel > 0 ∧ s.navalLocation > 0 then
      let out := out ++ ["\t\t\t" ++ toString s.navalLocation ++ " = \x7b"]
      let out := out ++ ["\t\t\t\tnaval_base = " ++ toString s.navalLevel]
      out ++ ["\t\t\t\x7d"]
    else out
  let out := out ++ ["\t\t\tair_base = " ++ toString s.airbaseLevel]
  let out := out ++ ["\t\t\x7d"]
  let out := s.cores.foldl (fun out core => out ++ ["\t\tadd_core_of = " ++ core]) out
  let out := out ++ ["\t\x7d"]
  let out := out ++ [""]
  let out := out ++ ["\tprovinces=\x7b"]
  let line := "\t\t"
  let line := s.provinces.foldl (fun line provnum => line ++ toString provnum ++ " ") line
  let out := out ++ [line]
  let out := out ++ ["\t\x7d"]
  let out := out ++ ["\x7d"]
  out

/-! ## `std::map<string, T>` -/

/-- A `std::map<string, T>`: the entries in ascending key order. -/
abbrev StrMap (α : Type) := List (String × α)

/-- The member `insert` of `std::map<string, T>`: the entries stay in
ascending key order and an entry whose key is already present is left as it
is. -/
def StrMap.insert {α : Type} (k : String) (v : α) : StrMap α → StrMap α
  | [] => [(k, v)]
  | (k', v') :: rest =>
      if k < k' then (k, v) :: (k', v') :: rest
      else if k = k' then (k', v') :: rest
      else (k', v') :: StrMap.insert k v rest

/-- The member `find` of `std::map<string, T>`; `none` stands for `end()`. -/
def StrMap.find {α : Type} (k : String) : StrMap α → Option α
  | [] => none
  | (k', v') :: rest => if k = k' then some v' else StrMap.find k rest

/-! ## Industry equalisation between countries -/

/-- The two settings of `Configuration` that the industry conversion reads. -/
structure Configuration where
  /-- Value of `getIndustrialShapeFactor()`. -/
  industrialShapeFactor : ℚ
  /-- Value of `getIcFactor()`. -/
  icFactor : ℚ

/-- The member `landedCountries` of `HoI4World`, a
`map<string, HoI4Country*>`: each tag is paired with
`getSourceCountry()->getEmployedWorkers()` of its country, the one datum the
industry equalisation reads from a country. -/
abbrev LandedCountries := StrMap Int

/-- The method `HoI4World::getIndustrialWorkersPerCountry`. -/
def getIndustrialWorkersPerCountry (landedCountries : LandedCountries) : StrMap ℚ :=
  landedCountries.foldl
    (fun industrialWorkersPerCountry country =>
      let employedWorkers : Int := country.2
      if employedWorkers > 0 then
        StrMap.insert country.1 (employedWorkers : ℚ) industrialWorkersPerCountry
      else industrialWorkersPerCountry)
    []

/-- The method `HoI4World::getTotalWorldWorkers`. -/
def getTotalWorldWorkers (industrialWorkersPerCountry : StrMap ℚ) : ℚ :=
  industrialWorkersPerCountry.foldl
    (fun totalWorldWorkers countryWorkers => totalWorldWorkers + countryWorkers.2)
    0

/-- The method `HoI4World::adjustWorkers`. The second loop reads
`workersDelta.find(...)->second`; the key was inserted by the first loop, and
the absent case, which the source does not handle, reads as 0 here. -/
def adjustWorkers (config : Configuration) (industrialWorkersPerCountry : StrMap ℚ)
    (totalWorldWorkers : ℚ) : StrMap ℚ :=
  let meanWorkersPerCountry : ℚ := totalWorldWorkers / industrialWorkersPerCountry.length
  let workersDelta : StrMap ℚ :=
    industrialWorkersPerCountry.foldl
      (fun workersDelta countryWorkers =>
        let delta := countryWorkers.2 - meanWorkersPerCountry
        StrMap.insert countryWorkers.1 delta workersDelta)
      []
  industrialWorkersPerCountry.foldl
    (fun adjustedWorkers countryWorkers =>
      let delta := (StrMap.find countryWorkers.1 workersDelta).getD 0
      let newWorkers := countryWorkers.2 - config.industrialShapeFactor * delta
      StrMap.insert countryWorkers.1 newWorkers adjustedWorkers)
    []

/-- The method `HoI4World::getWorldwideWorkerFactoryRatio`. The difference
`1189 - landedCountries.size()` is computed in the unsigned type `size_t`,
taken as 64 bits wide, hence the reduction modulo `2 ^ 64`. -/
def getWorldwideWorkerFactoryRatio (config : Configuration)
    (landedCountries : LandedCountries) (workersInCountries : StrMap ℚ)
    (totalWorldWorkers : ℚ) : ℚ :=
  let baseIndustry : ℚ :=
    workersInCountries.foldl
      (fun baseIndustry countryWorkers => baseIndustry + countryWorkers.2 * (19 / 1000000))
      0
  let deltaIndustry : ℚ :=
    baseIndustry - (((1189 - (landedCountries.length : Int)) % 2 ^ 64 : Int) : ℚ)
  let newIndustry : ℚ := baseIndustry - config.icFactor * deltaIndustry
  let acutalWorkerFactoryRatio : ℚ := newIndustry / totalWorldWorkers
  acutalWorkerFactoryRatio

/-- The method `HoI4World::calculateFactoryWorkerRatios`. The source reads
`adjustedWorkers->second` before it tests `actualWorkers > 0`; for a country
without workers the iterator is `end()` and the product is never used, which
reads as 0 here. -/
def calculateFactoryWorkerRatios (config : Configuration)
    (landedCountries : LandedCountries) : StrMap ℚ :=
  let industrialWorkersPerCountry := getIndustrialWorkersPerCountry landedCountries
  let totalWorldWorkers := getTotalWorldWorkers industrialWorkersPerCountry
  let adjustedWorkersPerCountry :=
    adjustWorkers config industrialWorkersPerCountry totalWorldWorkers
  let acutalWorkerFactoryRatio :=
    getWorldwideWorkerFactoryRatio config landedCountries adjustedWorkersPerCountry
      totalWorldWorkers
  landedCountries.foldl
    (fun factoryWorkerRatios country =>
      let adjustedWorkers := (StrMap.find country.1 adjustedWorkersPerCountry).getD 0
      let factories : ℚ := adjustedWorkers * acutalWorkerFactoryRatio
      let actualWorkers : Int := country.2
      if actualWorkers > 0 then
        StrMap.insert country.1 (factories / actualWorkers) factoryWorkerRatios
      else factoryWorkerRatios)
    []

/-! ## Distances on the map -/

/-- The local `xDistance` of `getDistanceBetweenPoints`, after the wrap at
the map width 5250. -/
def xDistance (point1 point2 : Int × Int) : Int :=
  let xDistance := |point2.1 - point1.1|
  if xDistance > 2625 then 5250 - xDistance else xDistance

/-- The local `yDistance` of `getDistanceBetweenPoints`. -/
def yDistance (point1 point2 : Int × Int) : Int :=
  point2.2 - point1.2

/-- The radicand of `HoI4World::getDistanceBetweenPoints`: the method returns
`sqrt(pow(xDistance, 2) + pow(yDistance, 2))`, and this is the argument handed
to `sqrt`, so the square of the value returned. -/
def getDistanceBetweenPointsSquared (point1 point2 : Int × Int) : Int :=
  xDistance point1 point2 ^ 2 + yDistance point1 point2 ^ 2

/-! ## Diplomacy -/

/-- The part of `HoI4Relations` that `convertDiplomacy` reads. -/
structure HoI4Relations where
  /-- Value of `getRelations()`. -/
  relations : Int
  /-- Value of `getGuarantee()`. -/
  guarantee : Bool
  /-- Value of `getSphereLeader()`. -/
  sphereLeader : Bool
  deriving DecidableEq, Repr

/-- The record `HoI4Agreement`. A date is kept as the text it is built from.
A field that the source leaves unassigned holds the `default` value. -/
structure HoI4Agreement where
  type : String := ""
  country1 : String := ""
  country2 : String := ""
  value : Int := 0
  start_date : String := ""
  deriving DecidableEq, Repr

/-- The body of the inner loop of the part `Relations and guarantees` of
`HoI4World::convertDiplomacy`, for the entry `country` of the country map and
one entry `relationItr` of its relations: the agreements handed to
`diplomacy.addAgreement`, in order. Both branches of the tag comparison are
kept as the source has them. -/
def relationAgreements (country : String) (relationItr : String × HoI4Relations) :
    List HoI4Agreement :=
  let HoI4a : HoI4Agreement := {}
  let HoI4a :=
    if country < relationItr.1 then
      let HoI4a := { HoI4a with country1 := country }
      { HoI4a with country2 := relationItr.1 }
    else
      let HoI4a := { HoI4a with country2 := relationItr.1 }
      { HoI4a with country1 := country }
  let HoI4a := { HoI4a with value := relationItr.2.relations }
  let HoI4a := { HoI4a with start_date := "1930.1.1" }
  let HoI4a := { HoI4a with type := "relation" }
  let added := [HoI4a]
  let added :=
    if relationItr.2.guarantee then
      added ++ [{ country1 := country, country2 := relationItr.1,
                  start_date := "1930.1.1", type := "guarantee" }]
    else added
  let added :=
    if relationItr.2.sphereLeader then
      added ++ [{ country1 := country, country2 := relationItr.1,
                  start_date := "1930.1.1", type := "sphere" }]
    else added
  added

/-- The part `Relations and guarantees` of `HoI4World::convertDiplomacy`: the
agreements handed to `diplomacy.addAgreement`, in order. The country map is
given as the tags with the relations map of each country. -/
def convertDiplomacyRelations (countries : StrMap (StrMap HoI4Relations)) :
    List HoI4Agreement :=
  countries.foldl
    (fun added country =>
      country.2.foldl
        (fun added relationItr => added ++ relationAgreements country.1 relationItr)
        added)
    []

/-! ## Factions and the strength of countries -/

/-- The class `HoI4Faction`: a leader and the member list. A country is
referred to by its tag, the key of the country map, where the source holds a
`HoI4Country*`. -/
structure HoI4Faction where
  leader : String
  members : List String
  deriving DecidableEq, Repr

/-- The method `HoI4World::findFaction`. -/
def findFaction (Factions : List HoI4Faction) (CheckingCountry : String) : HoI4Faction :=
  match Factions.find? (fun faction => decide (CheckingCountry ∈ faction.members)) with
  | some faction => faction
  | none => { leader := CheckingCountry, members := [CheckingCountry] }

/-- The method `HoI4World::GetFactionStrength(HoI4Faction*, int years)`. The
argument `strengthOverTime` is `HoI4Country::getStrengthOverTime`, whose
definition lies outside the files at hand. -/
def GetFactionStrength (strengthOverTime : String → ℚ → ℚ) (Faction : HoI4Faction)
    (years : Int) : ℚ :=
  Faction.members.foldl
    (fun strength country => strength + strengthOverTime country (years : ℚ))
    0

/-- The chain of comparisons in `GetFactionStrengthWithDistance` that turns
the distance held in `distanceMulti` into the multiplier. -/
def distanceMultiplier (distanceMulti : ℚ) : ℚ :=
  if distanceMulti < 300 then 1
  else if distanceMulti < 500 then 9 / 10
  else if distanceMulti < 750 then 8 / 10
  else if distanceMulti < 1000 then 7 / 10
  else if distanceMulti < 1500 then 5 / 10
  else if distanceMulti < 2000 then 3 / 10
  else 2 / 10

/-- The method `HoI4World::GetFactionStrengthWithDistance`. The argument
`getDistanceBetweenCountries` is the value of the method of that name. -/
def GetFactionStrengthWithDistance (strengthOverTime : String → ℚ → ℚ)
    (getDistanceBetweenCountries : String → String → ℚ)
    (HomeCountry : String) (Faction : List String) (time : ℚ) : ℚ :=
  Faction.foldl
    (fun strength country =>
      let distanceMulti : ℚ :=
        if country = HomeCountry then 1
        else getDistanceBetweenCountries HomeCountry country
      let distanceMulti := distanceMultiplier distanceMulti
      strength + strengthOverTime country time * distanceMulti)
    0

/-- The method `HoI4World::HowToTakeLand`, its return value `type`. The text
`s` that the source assembles next to it is a local that is dropped on
return. The argument `moreAllies` is the value of
`GetMorePossibleAllies(AttackingCountry)`, and `strengthOverTime` is
`HoI4Country::getStrengthOverTime` as in `GetFactionStrength`. -/
def HowToTakeLand (Factions : List HoI4Faction) (strengthOverTime : String → ℚ → ℚ)
    (getDistanceBetweenCountries : String → String → ℚ) (moreAllies : List String)
    (TargetCountry AttackingCountry : String) (time : ℚ) : String :=
  let type := ""
  if TargetCountry ≠ AttackingCountry then
    let targetFaction := findFaction Factions TargetCountry
    let myFaction := findFaction Factions AttackingCountry
    let myFactionDisStrength :=
      GetFactionStrengthWithDistance strengthOverTime getDistanceBetweenCountries
        AttackingCountry myFaction.members time
    let enemyFactionDisStrength :=
      GetFactionStrengthWithDistance strengthOverTime getDistanceBetweenCountries
        TargetCountry targetFaction.members time
    if strengthOverTime AttackingCountry time
        ≥ GetFactionStrength strengthOverTime targetFaction (truncToInt time) then
      "noactionneeded"
    else if myFactionDisStrength ≥ enemyFactionDisStrength then
      "factionneeded"
    else
      let type := "morealliesneeded"
      let _myFactionDisStrength :=
        GetFactionStrengthWithDistance strengthOverTime getDistanceBetweenCountries
          AttackingCountry myFaction.members time
        + GetFactionStrengthWithDistance strengthOverTime getDistanceBetweenCountries
            AttackingCountry moreAllies time
      if GetFactionStrengthWithDistance strengthOverTime getDistanceBetweenCountries
            AttackingCountry myFaction.members time
          ≥ GetFactionStrengthWithDistance strengthOverTime getDistanceBetweenCountries
              TargetCountry targetFaction.members time then
        type
      else
        "coup"
  else type

/-! ## Conversion of the countries -/

/-- The part of a `V2Country` that `convertCountries` reads. -/
structure V2Country where
  /-- Value of `getName("english")`. -/
  name : String
  /-- Ideology of the party that `getRulingParty` returns; `none` stands for
  the `NULL` result. -/
  rulingParty : Option String
  deriving DecidableEq, Repr

/-- The part of a `HoI4Country` that the faction and alliance code reads. -/
structure HoI4Country where
  /-- Value of `getTag()`. -/
  tag : String
  /-- Value of `getGovernment()`. -/
  government : String
  /-- Value of `getAllies()`, a `std::set<string>`. -/
  allies : List String
  /-- Value of `getRelations()`, a `std::map<string, HoI4Relations*>`; the
  key of an entry is the value of `getTag()` of its record. -/
  relations : StrMap HoI4Relations
  /-- Value of `getProvinceCount()`. -/
  provinceCount : Nat
  /-- Value of `getCapitalProv()`. -/
  capitalProv : Int
  deriving DecidableEq, Repr

/-- The loop of `HoI4World::convertCountries` over the source countries, from
the country map `countries` on. The result `none` stands for the `exit(-1)`
that follows an unresolved ruling party. The arguments `getHoI4Tag`, the
method of `CountryMapper`, and `initFromV2Country`, which fills the country
created for a target tag from the source country and the ideology of its
ruling party, lie outside the files at hand. -/
def convertCountries (getHoI4Tag : String → String)
    (initFromV2Country : String → V2Country → String → HoI4Country) :
    List (String × V2Country) → StrMap HoI4Country → Option (StrMap HoI4Country)
  | [], countries => some countries
  | sourceItr :: rest, countries =>
      if sourceItr.1 = "REB" then
        convertCountries getHoI4Tag initFromV2Country rest countries
      else
        let HoI4Tag := getHoI4Tag sourceItr.1
        if HoI4Tag ≠ "" then
          match sourceItr.2.rulingParty with
          | none => none
          | some ideology =>
              let destCountry := initFromV2Country HoI4Tag sourceItr.2 ideology
              convertCountries getHoI4Tag initFromV2Country rest
                (StrMap.insert HoI4Tag destCountry countries)
        else
          convertCountries getHoI4Tag initFromV2Country rest countries

/-! ## Compatible governments -/

/-- The disjuncts of the condition of `CreateFactions` that compare the two
government types with literals, in the order of the source. -/
def factionGovernmentTable (yourgovernment allygovernment : String) : Bool :=
  (yourgovernment == "absolute_monarchy"
      && (allygovernment == "fascism" || allygovernment == "democratic"
          || allygovernment == "prussian_constitutionalism"
          || allygovernment == "hms_government"))
  || (yourgovernment == "democratic"
      && (allygovernment == "hms_government" || allygovernment == "absolute_monarchy"
          || allygovernment == "prussian_constitutionalism"))
  || (yourgovernment == "prussian_constitutionalism"
      && (allygovernment == "hms_government" || allygovernment == "absolute_monarchy"
          || allygovernment == "democratic" || allygovernment == "fascism"))
  || (yourgovernment == "hms_government"
      && (allygovernment == "democratic" || allygovernment == "absolute_monarchy"
          || allygovernment == "prussian_constitutionalism"))
  || (yourgovernment == "communism" && (allygovernment == "syndicalism"))
  || (yourgovernment == "syndicalism"
      && (allygovernment == "communism" || allygovernment == "fascism"))
  || (yourgovernment == "fascism"
      && (allygovernment == "syndicalism" || allygovernment == "absolute_monarchy"
          || allygovernment == "prussian_constitutionalism"))

/-- The government disjuncts of the condition of `CreateFactions`: the
equality of the two government types and the table, without the disjunct on
the sphere leader. -/
def factionGovernmentMatch (yourgovernment allygovernment : String) : Bool :=
  allygovernment == yourgovernment || factionGovernmentTable yourgovernment allygovernment

/-- The condition under the comment `possible government matches` in
`GetMorePossibleAllies`. -/
def possibleGovernmentMatch (yourgovernment allygovernment : String) : Bool :=
  allygovernment == yourgovernment
  || (yourgovernment == "absolute_monarchy"
      && (allygovernment == "fascism" || allygovernment == "democratic"
          || allygovernment == "prussian_constitutionalism"
          || allygovernment == "hms_government"))
  || (yourgovernment == "democratic"
      && (allygovernment == "hms_government" || allygovernment == "absolute_monarchy"
          || allygovernment == "prussian_constitutionalism"))
  || (yourgovernment == "prussian_constitutionalism"
      && (allygovernment == "hms_government" || allygovernment == "absolute_monarchy"
          || allygovernment == "democratic" || allygovernment == "fascism"))
  || (yourgovernment == "hms_government"
      && (allygovernment == "democratic" || allygovernment == "absolute_monarchy"
          || allygovernment == "prussian_constitutionalism"))
  || (yourgovernment == "communism" && (allygovernment == "syndicalism"))
  || (yourgovernment == "syndicalism"
      && (allygovernment == "communism" || allygovernment == "fascism"))
  || (yourgovernment == "fascism"
      && (allygovernment == "syndicalism" || allygovernment == "absolute_monarchy"
          || allygovernment == "prussian_constitutionalism"
          || allygovernment == "hms_government"))

/-! ## Creation of the factions -/

/-- The method `HoI4World::returnIfSphere`; `GreatCountries` is the value of
`returnGreatCountries(sourceWorld)`. The first great power that has a relation
flagged as sphere leader toward a country of the country map with the tag of
`posLeaderCountry` gives its tag; the empty text is returned when there is
none. The parameter `leadercountry` of the source is not read. -/
def returnIfSphere (countries : StrMap HoI4Country) (GreatCountries : List HoI4Country)
    (posLeaderCountry : HoI4Country) : String :=
  match GreatCountries.find? (fun country =>
      country.relations.any (fun relation =>
        relation.2.sphereLeader
        && (match StrMap.find relation.1 countries with
            | some spheredcountry => posLeaderCountry.tag == spheredcountry.tag
            | none => false))) with
  | some country => country.tag
  | none => ""

/-- The test that `CreateFactions` makes on one ally found in the country map:
the condition on the governments and the sphere, and inside it the value of
`canally`. -/
def allyJoinsFaction (countries : StrMap HoI4Country) (GreatCountries : List HoI4Country)
    (country allycountry : HoI4Country) : Bool :=
  let yourgovernment := country.government
  let allygovernment := allycountry.government
  let sphere := returnIfSphere countries GreatCountries allycountry
  if allygovernment == yourgovernment || sphere == country.tag
      || factionGovernmentTable yourgovernment allygovernment then
    let canally :=
      if sphere ≠ "" then
        if sphere = country.tag then true else false
      else true
    canally
  else false

/-- The state of the loops of `CreateFactions`: the vectors `Faction`,
`usedCountries` and `alreadyAllied`. -/
structure FactionLoopState where
  Faction : List String
  usedCountries : List String
  alreadyAllied : List String
  deriving DecidableEq, Repr

/-- The loop over the allies in `CreateFactions` for the great power
`country`. -/
def addAlliesToFaction (countries : StrMap HoI4Country) (GreatCountries : List HoI4Country)
    (country : HoI4Country) (state : FactionLoopState) : FactionLoopState :=
  country.allies.foldl
    (fun state ally =>
      match StrMap.find ally countries with
      | some allycountry =>
          if allyJoinsFaction countries GreatCountries country allycountry then
            { Faction := state.Faction ++ [allycountry.tag]
              usedCountries := state.usedCountries ++ [allycountry.tag]
              alreadyAllied := state.alreadyAllied ++ [allycountry.tag] }
          else state
      | none => state)
    state

/-- The state of the outer loop of `CreateFactions`. -/
structure CreateFactionsState where
  Factions2 : List HoI4Faction
  usedCountries : List String
  alreadyAllied : List String
  deriving DecidableEq, Repr

/-- The body of the outer loop of `CreateFactions` for one great power. -/
def createFactionOf (countries : StrMap HoI4Country) (GreatCountries : List HoI4Country)
    (state : CreateFactionsState) (country : HoI4Country) : CreateFactionsState :=
  if country.tag ∉ state.usedCountries ∧ country.tag ∉ state.alreadyAllied then
    let Faction := [country.tag]
    let usedCountries := state.usedCountries ++ [country.tag]
    let inner :=
      addAlliesToFaction countries GreatCountries country
        { Faction := Faction, usedCountries := usedCountries,
          alreadyAllied := state.alreadyAllied }
    { Factions2 :=
        state.Factions2 ++ [{ leader := inner.Faction.headD country.tag,
                              members := inner.Faction }]
      usedCountries := inner.usedCountries
      alreadyAllied := inner.alreadyAllied }
  else state

/-- The method `HoI4World::CreateFactions`, its return value `Factions2`;
`GreatCountries` is the value of `returnGreatCountries(sourceWorld)`. A member
of a faction is held by its tag. -/
def CreateFactions (countries : StrMap HoI4Country) (GreatCountries : List HoI4Country) :
    List HoI4Faction :=
  (GreatCountries.foldl (createFactionOf countries GreatCountries)
    { Factions2 := [], usedCountries := [], alreadyAllied := [] }).Factions2

/-! ## The search for more allies -/

/-- The first loop of `GetMorePossibleAllies`: the countries of the country
map, in its order, that have a province, lie at a distance of at most 500 and
are not among the allies of `CountryThatWantsAllies`. -/
def CountriesWithin500Miles (countries : StrMap HoI4Country)
    (getDistanceBetweenCountries : String → String → ℚ)
    (CountryThatWantsAllies : HoI4Country) : List HoI4Country :=
  let currentAllies := CountryThatWantsAllies.allies
  countries.foldl
    (fun CountriesWithin500Miles country =>
      if country.2.provinceCount ≠ 0 then
        let country2 := country.2
        if getDistanceBetweenCountries CountryThatWantsAllies.tag country2.tag ≤ 500 then
          if country2.tag ∉ currentAllies then CountriesWithin500Miles ++ [country2]
          else CountriesWithin500Miles
        else CountriesWithin500Miles
      else CountriesWithin500Miles)
    []

/-- The second loop of `GetMorePossibleAllies`, from the state made of
`maxcountries` and `newPossibleAllies`. The result `none` stands for the read
through the `NULL` pointer that `getRelations(tag)` gives when
`CountryThatWantsAllies` has no relations record for the tag. -/
def pickPossibleAllies (Factions : List HoI4Faction) (CountryThatWantsAllies : HoI4Country) :
    List HoI4Country → Nat × List String → Option (Nat × List String)
  | [], state => some state
  | candidate :: rest, (maxcountries, newPossibleAllies) =>
      let yourgovernment := CountryThatWantsAllies.government
      let allygovernment := candidate.government
      if possibleGovernmentMatch yourgovernment allygovernment then
        if maxcountries < 2 then
          match StrMap.find candidate.tag CountryThatWantsAllies.relations with
          | none => none
          | some relationswithposally =>
              if relationswithposally.relations ≥ -50
                  ∧ (findFaction Factions candidate.tag).members.length ≤ 1 then
                let state : Nat × List String := (maxcountries, newPossibleAllies)
                let state :=
                  if relationswithposally.relations ≥ -50
                      ∧ relationswithposally.relations < 0 then
                    (state.1 + 1, state.2 ++ [candidate.tag])
                  else state
                let state :=
                  if relationswithposally.relations ≥ 0 then
                    (state.1 + 1, state.2 ++ [candidate.tag])
                  else state
                pickPossibleAllies Factions CountryThatWantsAllies rest state
              else
                pickPossibleAllies Factions CountryThatWantsAllies rest
                  (maxcountries, newPossibleAllies)
        else
          pickPossibleAllies Factions CountryThatWantsAllies rest
            (maxcountries, newPossibleAllies)
      else
        pickPossibleAllies Factions CountryThatWantsAllies rest
          (maxcountries, newPossibleAllies)

/-- The method `HoI4World::GetMorePossibleAllies`; a country returned is held
by its tag. -/
def GetMorePossibleAllies (countries : StrMap HoI4Country) (Factions : List HoI4Faction)
    (getDistanceBetweenCountries : String → String → ℚ)
    (CountryThatWantsAllies : HoI4Country) : Option (List String) :=
  (pickPossibleAllies Factions CountryThatWantsAllies
    (CountriesWithin500Miles countries getDistanceBetweenCountries CountryThatWantsAllies)
    (0, [])).map Prod.snd

/-! ## The distance between two countries -/

/-- The method `HoI4World::bothCountriesHaveCapitals`, on the values of
`getCapitalProv()` of the two countries. -/
def bothCountriesHaveCapitals (capitalProv1 capitalProv2 : Int) : Bool :=
  decide (capitalProv1 ≠ 0) && decide (capitalProv2 ≠ 0)

/-- The method `HoI4World::getDistanceBetweenCountries`. The arguments are the
value of `getCapitalProv()` of each country, the value of `getCapitalPosition`
for each country, which is read from the states and from the file of
positions, and `sqrt`, the value that the square root of the mathematics
library gives for a whole number. -/
def getDistanceBetweenCountries (sqrt : Int → ℚ) (getCapitalProv : String → Int)
    (getCapitalPosition : String → Int × Int) (country1 country2 : String) : ℚ :=
  if ¬ bothCountriesHaveCapitals (getCapitalProv country1) (getCapitalProv country2) then
    100000
  else
    let country1Position := getCapitalPosition country1
    let country2Position := getCapitalPosition country2
    sqrt (getDistanceBetweenPointsSquared country1Position country2Position)

/-! ## Neutrality and unowned cores -/

/-- The part of a `HoI4Province` that `convertDiplomacy` reads. -/
structure HoI4Province where
  /-- Value of `getOwner()`. -/
  owner : String
  /-- Value of `getCores()`. -/
  cores : List String
  deriving DecidableEq, Repr

/-- The test and the call inside the two loops of the part
`decrease neutrality for countries with unowned cores` of
`HoI4World::convertDiplomacy`, for one core of one province. The state is
the map `hasLoweredNeutrality` with the calls of `lowerNeutrality` made so
far, each as the tag of the country and the amount. -/
def lowerNeutralityForCore (countries : List String) (province : Int × HoI4Province)
    (state : StrMap String × List (String × ℚ)) (core : String) :
    StrMap String × List (String × ℚ) :=
  if province.2.owner ≠ core then
    match StrMap.find core state.1 with
    | none =>
        if core ∈ countries then
          (StrMap.insert core core state.1, state.2 ++ [(core, 20)])
        else state
    | some _ => state
  else state

/-- The part `decrease neutrality for countries with unowned cores` of
`HoI4World::convertDiplomacy`: the calls of `lowerNeutrality`, in order, each
as the tag of the country and the amount. The argument `countries` holds the
keys of the country map. -/
def lowerNeutralityCalls (countries : List String) (provinces : List (Int × HoI4Province)) :
    List (String × ℚ) :=
  (provinces.foldl
    (fun state province =>
      province.2.cores.foldl (lowerNeutralityForCore countries province) state)
    (([], []) : StrMap String × List (String × ℚ))).2

/-! ## Supply zones -/

/-- The member `find` of a `std::map<int, T>`; `none` stands for `end()`. -/
def IntMap.find {α : Type} (k : Int) : List (Int × α) → Option α
  | [] => none
  | (k', v') :: rest => if k = k' then some v' else IntMap.find k rest

/-- The inner loop of `HoI4World::convertSupplyZones` over the provinces of
one state: the supply zone on which `addState` is called, or `none` when the
loop ends without a call. The loop stops at the first province that the map
sends to a supply zone present in `supplyZones`. -/
def supplyZoneOfState (provinceToSupplyZoneMap : List (Int × Int)) (supplyZones : List Int) :
    List Int → Option Int
  | [] => none
  | province :: rest =>
      match IntMap.find province provinceToSupplyZoneMap with
      | some zone =>
          if zone ∈ supplyZones then some zone
          else supplyZoneOfState provinceToSupplyZoneMap supplyZones rest
      | none => supplyZoneOfState provinceToSupplyZoneMap supplyZones rest

/-- The method `HoI4World::convertSupplyZones`: the calls of `addState`, each
as the pair of the supply zone and the state added to it, in order. A state is
given by its key in the state map and its provinces; `supplyZones` holds the
keys of the map of that name. -/
def convertSupplyZones (provinceToSupplyZoneMap : List (Int × Int)) (supplyZones : List Int)
    (states : List (Int × List Int)) : List (Int × Int) :=
  states.foldl
    (fun calls state =>
      match supplyZoneOfState provinceToSupplyZoneMap supplyZones state.2 with
      | some zone => calls ++ [(zone, state.1)]
      | none => calls)
    []

/-- The number of provinces of a state that the province-to-supply-zone map
sends to the zone. -/
def provincesInZone (provinceToSupplyZoneMap : List (Int × Int)) (provinces : List Int)
    (zone : Int) : Nat :=
  (provinces.filter
    (fun province => IntMap.find province provinceToSupplyZoneMap == some zone)).length

/-- A strength for the worked example of the pool of allies: FRA and ITA have
the strength 10 and every other country 5, at every time. -/
def poolStrength (country : String) (_years : ℚ) : ℚ :=
  if country = "FRA" then 10 else if country = "ITA" then 10 else 5

/-- A table of capitals for the worked example of the distance: ITA has no
capital. -/
def exampleCapitalProv (country : String) : Int :=
  if country = "ITA" then 0 else 1

/-- The positions of the capitals in the worked example of the distance: all
at the origin. -/
def exampleCapitalPosition (_country : String) : Int × Int :=
  (0, 0)

/-- A stand-in for the square root in the worked example of the distance,
where no root is taken. -/
def exampleSqrt (n : Int) : ℚ :=
  n

/-- A tag mapping for the worked example of the conversion of the countries:
PRU maps to GER and no other tag has a mapping. -/
def exampleGetHoI4Tag (tag : String) : String :=
  if tag = "PRU" then "GER" else ""

/-- A stand-in for `initFromV2Country` in the worked example: the country
keeps the target tag and takes the ideology as its government. -/
def exampleInitFromV2Country (HoI4Tag : String) (_source : V2Country) (ideology : String) :
    HoI4Country :=
  { tag := HoI4Tag, government := ideology, allies := [], relations := [],
    provinceCount := 0, capitalProv := 0 }

/-- What the loops of the neutrality part keep true: the map
`hasLoweredNeutrality` holds the tags called so far, no tag was called twice,
and every call has the amount 20. -/
def NeutralityInvariant (state : StrMap String × List (String × ℚ)) : Prop :=
  (∀ c, (StrMap.find c state.1).isSome = true ↔ c ∈ state.2.map Prod.fst)
  ∧ (state.2.map Prod.fst).Nodup
  ∧ ∀ call ∈ state.2, call.2 = 20

/-- The tags that the loop over the allies of a great power adds: those of
the allies found in the country map that pass the test, in the order of the
allies. -/
def joiningAllies (countries : StrMap HoI4Country) (GreatCountries : List HoI4Country)
    (country : HoI4Country) (allies : List String) : List String :=
  ((allies.filterMap (fun ally => StrMap.find ally countries)).filter
    (allyJoinsFaction countries GreatCountries country)).map (fun allycountry => allycountry.tag)

/-- What the outer loop of `CreateFactions` keeps true: every member of a
faction made so far is in `usedCountries`, and no leader of a later faction is
a member of an earlier one. -/
def FactionsInvariant (state : CreateFactionsState) : Prop :=
  (∀ faction ∈ state.Factions2, ∀ member ∈ faction.members, member ∈ state.usedCountries)
  ∧ state.Factions2.Pairwise (fun earlier later => later.leader ∉ earlier.members)

/-- A country of the worked examples of the factions, without relations. -/
def exampleCountry (tag government : String) (allies : List String) : HoI4Country :=
  { tag := tag, government := government, allies := allies, relations := [],
    provinceCount := 1, capitalProv := 1 }

/-- The great power of the counterexample of C15: GER is fascist, allied with
HUN and the sphere leader of HUN. -/
def sphereExampleLeader : HoI4Country :=
  { tag := "GER", government := "fascism", allies := ["HUN"],
    relations := [("HUN", { relations := 100, guarantee := false, sphereLeader := true })],
    provinceCount := 1, capitalProv := 1 }

/-- The country map of the counterexample of C15: GER and the communist
HUN. -/
def sphereExampleCountries : StrMap HoI4Country :=
  [("GER", sphereExampleLeader), ("HUN", exampleCountry "HUN" "communism" [])]

/-- The test of the second loop of `GetMorePossibleAllies` on a candidate
that has a relations record: compatible government, a relation of at least
-50, and a faction of at most one member. -/
def acceptsAlly (Factions : List HoI4Faction) (CountryThatWantsAllies candidate : HoI4Country) :
    Bool :=
  possibleGovernmentMatch CountryThatWantsAllies.government candidate.government
  && (match StrMap.find candidate.tag CountryThatWantsAllies.relations with
      | some relationswithposally =>
          decide (relationswithposally.relations ≥ -50)
          && decide ((findFaction Factions candidate.tag).members.length ≤ 1)
      | none => false)

/-- The requester of the worked example of `GetMorePossibleAllies`: the
fascist GER, allied with ITA, with a relations record toward AUS, HUN and
ROM. -/
def allyExampleRequester : HoI4Country :=
  { tag := "GER", government := "fascism", allies := ["ITA"],
    relations :=
      [("AUS", { relations := 10, guarantee := false, sphereLeader := false }),
       ("GER", { relations := 0, guarantee := false, sphereLeader := false }),
       ("HUN", { relations := -20, guarantee := false, sphereLeader := false }),
       ("ROM", { relations := 30, guarantee := false, sphereLeader := false })],
    provinceCount := 1, capitalProv := 1 }

/-- The country map of the worked example of `GetMorePossibleAllies`: AUS,
HUN and ROM are fascist and own a province, ITA is the ally of GER, and the
fascist SWI owns no province. -/
def allyExampleCountries : StrMap HoI4Country :=
  [("AUS", exampleCountry "AUS" "fascism" []),
   ("HUN", exampleCountry "HUN" "fascism" []),
   ("ITA", exampleCountry "ITA" "fascism" ["GER"]),
   ("ROM", exampleCountry "ROM" "fascism" []),
   ("SWI", { tag := "SWI", government := "fascism", allies := [], relations := [],
             provinceCount := 0, capitalProv := 0 })]

/-- The method `HoI4State::amICoastal`; `coastalProvinces` is the value of
`coastalProvincesMapper::getCoastalProvinces()`. -/
def HoI4State.amICoastal (s : HoI4State) (coastalProvinces : List (Int × Int)) : Bool :=
  s.provinces.any (fun province => (IntMap.find province coastalProvinces).isSome)

/-- The body of the loop of `setIndustry` in a coastal state, for the draw
`randomNum`. -/
def HoI4State.placeCoastalFactory (s : HoI4State) (randomNum : Int) : HoI4State :=
  if randomNum > 76 then { s with milFactories := s.milFactories + 1 }
  else if randomNum > 19 then { s with civFactories := s.civFactories + 1 }
  else { s with dockyards := s.dockyards + 1 }

/-- The body of the loop of `setIndustry` in a state that is not coastal, for
the draw `randomNum`. -/
def HoI4State.placeInlandFactory (s : HoI4State) (randomNum : Int) : HoI4State :=
  if randomNum > 70 then { s with milFactories := s.milFactories + 1 }
  else { s with civFactories := s.civFactories + 1 }

/-- The method `HoI4State::setIndustry(int factories)`. The argument
`randomNumbers` gives the values that the successive calls of
`numberDistributor(randomnessEngine)` return, the call for `i = 0` first; the
loop runs for `i` from 0 below `factories`. -/
def HoI4State.setIndustry (s : HoI4State) (coastalProvinces : List (Int × Int))
    (randomNumbers : Nat → Int) (factories : Int) : HoI4State :=
  if s.amICoastal coastalProvinces then
    (List.range factories.toNat).foldl
      (fun s i => s.placeCoastalFactory (randomNumbers i)) s
  else
    (List.range factories.toNat).foldl
      (fun s i => s.placeInlandFactory (randomNumbers i)) s

/-- The part of a `V2Agreement` that `convertDiplomacy` reads. -/
structure V2Agreement where
  type : String
  country1 : String
  country2 : String
  start_date : String
  deriving DecidableEq, Repr

/-- The first loop of `HoI4World::convertDiplomacy`, over the agreements of
the source world: the agreements handed to `diplomacy.addAgreement`, in
order. The argument `getHoI4Tag` is the method of `CountryMapper` and
`countries` holds the keys of the country map. The entries that the loop adds
to the allies of the two countries of an alliance are left out. -/
def convertDiplomacyAgreements (getHoI4Tag : String → String) (countries : List String)
    (agreements : List V2Agreement) : List HoI4Agreement :=
  agreements.foldl
    (fun added agreement =>
      let HoI4Tag1 := getHoI4Tag agreement.country1
      if HoI4Tag1 = "" then added
      else
        let HoI4Tag2 := getHoI4Tag agreement.country2
        if HoI4Tag2 = "" then added
        else if HoI4Tag1 ∉ countries then added
        else if HoI4Tag2 ∉ countries then added
        else if agreement.type = "alliance" ∨ agreement.type = "vassa" then
          added ++ [{ country1 := HoI4Tag1, country2 := HoI4Tag2,
                      start_date := agreement.start_date, type := agreement.type }]
        else added)
    []

/-- The agreements that `HoI4World::convertDiplomacy` hands to
`diplomacy.addAgreement`, in order: those of the loop over the agreements of
the source world and then those of the part `Relations and guarantees`. The
last part of the method, on the neutrality, adds none. -/
def convertDiplomacyAdded (getHoI4Tag : String → String)
    (countries : StrMap (StrMap HoI4Relations)) (agreements : List V2Agreement) :
    List HoI4Agreement :=
  convertDiplomacyAgreements getHoI4Tag (countries.map Prod.fst) agreements
    ++ convertDiplomacyRelations countries

/-- The assignment through the iterator that `find` returns: the value of the
entry with the key is replaced, and a map without the key stays as it is. -/
def StrMap.assign {α : Type} (k : String) (v : α) : StrMap α → StrMap α
  | [] => []
  | (k', v') :: rest =>
      if k = k' then (k', v) :: rest else (k', v') :: StrMap.assign k v rest

/-- The method `HoI4World::factionSatellites`, on the agreements of the
diplomacy collection and on the map from the tag of each country of the
country map to the value of its `getFaction()`. -/
def factionSatellites (agreements : List HoI4Agreement) (factions : StrMap String) :
    StrMap String :=
  agreements.foldl
    (fun factions agreement =>
      if agreement.type = "vassal" then
        let masterCountry := StrMap.find agreement.country1 factions
        let satelliteCountry := StrMap.find agreement.country2 factions
        match masterCountry, satelliteCountry with
        | some masterFaction, some _ =>
            if masterFaction ≠ "" then StrMap.assign agreement.country2 masterFaction factions
            else factions
        | _, _ => factions
      else factions)
    factions

/-- The condition of the inner loop of `HoI4World::outputRelations` for the
countries `country` and `country2`: the tags differ, `country` has a relations
record for the tag of `country2`, and `country2` has a relations record for
its own tag, which is what `country2.second->getRelations(
country2.second->getTag())` asks for. -/
def relationIsOutput (country country2 : HoI4Country) : Bool :=
  decide (country.tag ≠ country2.tag)
  && (StrMap.find country2.tag country.relations).isSome
  && (StrMap.find country2.tag country2.relations).isSome

/-- The text that `HoI4World::outputRelations` appends to `opinion_modifiers`
for the countries `country` and `country2`; `showDouble` is the rendering of a
`double` by `to_string`. A missing record, which the condition excludes, reads
as the score 0. -/
def opinionModifierBlock (showDouble : ℚ → String) (country country2 : HoI4Country) : String :=
  country.tag ++ "_" ++ country2.tag ++ " = \x7b\n\tvalue = "
    ++ showDouble
        ((((StrMap.find country2.tag country.relations).map
            (fun relation => relation.relations)).getD 0 : Int) * (3 / 2 : ℚ))
    ++ "\n\x7d\n"

/-- The text that `HoI4World::outputRelations` appends to `countryrelation`
for the countries `country` and `country2`. -/
def addOpinionModifierLine (country country2 : HoI4Country) : String :=
  "add_opinion_modifier = \x7b target = " ++ country2.tag ++ " modifier = " ++ country.tag
    ++ "_" ++ country2.tag ++ "\x7d\n"

/-- The loops of `HoI4World::outputRelations`: the pieces appended to
`opinion_modifiers`, in order, and for each country, by its tag, the pieces
of the text handed to `setRelations`, in order. -/
def outputRelations (showDouble : ℚ → String) (countries : StrMap HoI4Country) :
    List String × List (String × List String) :=
  countries.foldl
    (fun (state : List String × List (String × List String)) country =>
      let inner :=
        countries.foldl
          (fun (inner : List String × List String) country2 =>
            if relationIsOutput country.2 country2.2 then
              (inner.1 ++ [opinionModifierBlock showDouble country.2 country2.2],
               inner.2 ++ [addOpinionModifierLine country.2 country2.2])
            else inner)
          (state.1, [])
      (inner.1, state.2 ++ [(country.2.tag, inner.2)]))
    ([], [])

/-- A country of the worked example of the relations: it has a relations
record of the score given for the tag given, and none for itself. -/
def relationExampleCountry (tag other : String) (score : Int) : HoI4Country :=
  { tag := tag, government := "democratic", allies := [],
    relations := [(other, { relations := score, guarantee := false, sphereLeader := false })],
    provinceCount := 1, capitalProv := 1 }

/-- The four vectors that the neighbour loop of `FascistWarMaker` fills; a
country is held by its tag. -/
structure NeighborTiers where
  Anchluss : List String
  Sudaten : List String
  EqualTargets : List String
  DifficultTargets : List String
  deriving DecidableEq, Repr

/-- The first loop of `FascistWarMaker` over `AllNeighbors`, the map that
`findNeighbors` returns: the neighbours that have a capital and lie at a
distance of at most 500 from the leader. -/
def closeNeighbors (getDistanceBetweenCountries : String → String → ℚ) (Leader : HoI4Country)
    (AllNeighbors : StrMap HoI4Country) : StrMap HoI4Country :=
  AllNeighbors.foldl
    (fun CloseNeighbors neigh =>
      if neigh.2.capitalProv ≠ 0 then
        let distance := getDistanceBetweenCountries Leader.tag neigh.2.tag
        if distance ≤ 500 then StrMap.insert neigh.1 neigh.2 CloseNeighbors
        else CloseNeighbors
      else CloseNeighbors)
    []

/-- The body of the neighbour loop of `FascistWarMaker` for one neighbour.
`GreatCountries` holds the tags of the countries that `returnGreatCountries`
gives, so that membership is `checkIfGreatCountry`. -/
def classifyNeighbor (Factions : List HoI4Faction) (strengthOverTime : String → ℚ → ℚ)
    (GreatCountries : List String) (Leader : HoI4Country) (tiers : NeighborTiers)
    (neigh : String × HoI4Country) : NeighborTiers :=
  let Allies := Leader.allies
  if neigh.2.tag ∉ Allies ∧ ¬ (neigh.2.tag ∈ GreatCountries) then
    if strengthOverTime neigh.2.tag (3 / 2) < strengthOverTime Leader.tag (3 / 2) * (1 / 5)
        ∧ (findFaction Factions neigh.2.tag).members.length = 1 then
      { tiers with Anchluss := tiers.Anchluss ++ [neigh.2.tag] }
    else if strengthOverTime neigh.2.tag (3 / 2) < strengthOverTime Leader.tag 1 * (3 / 5)
        ∧ strengthOverTime neigh.2.tag 1 > strengthOverTime Leader.tag 1 * (1 / 5)
        ∧ (findFaction Factions neigh.2.tag).members.length = 1 then
      { tiers with Sudaten := tiers.Sudaten ++ [neigh.2.tag] }
    else if strengthOverTime neigh.2.tag 1 < strengthOverTime Leader.tag 1 then
      { tiers with EqualTargets := tiers.EqualTargets ++ [neigh.2.tag] }
    else if strengthOverTime neigh.2.tag 1 < strengthOverTime Leader.tag 1 * (6 / 5) then
      { tiers with DifficultTargets := tiers.DifficultTargets ++ [neigh.2.tag] }
    else tiers
  else tiers

/-- The neighbour loop of `FascistWarMaker` over `CloseNeighbors`. -/
def classifyNeighbors (Factions : List HoI4Faction) (strengthOverTime : String → ℚ → ℚ)
    (GreatCountries : List String) (Leader : HoI4Country)
    (CloseNeighbors : StrMap HoI4Country) : NeighborTiers :=
  CloseNeighbors.foldl (classifyNeighbor Factions strengthOverTime GreatCountries Leader)
    { Anchluss := [], Sudaten := [], EqualTargets := [], DifficultTargets := [] }

/-- The strength of the example of the neighbour tiers: GER has the strength
100 and every other country the strength 10, at every horizon. -/
def tierStrength (country : String) (_years : ℚ) : ℚ :=
  if country = "GER" then 100 else 10

/-- The test of the first tier of the neighbour loop: the strength of the
neighbour at the horizon of 1.5 years is below 0.2 times that of the leader
at the same horizon, and the faction of the neighbour has one member. -/
def isAnschlussCandidate (Factions : List HoI4Faction) (strengthOverTime : String → ℚ → ℚ)
    (Leader : HoI4Country) (neigh : String × HoI4Country) : Bool :=
  decide (strengthOverTime neigh.2.tag (3 / 2) < strengthOverTime Leader.tag (3 / 2) * (1 / 5))
  && decide ((findFaction Factions neigh.2.tag).members.length = 1)

/-- The test at the head of the neighbour loop: the neighbour is no ally of
the leader and no great power. -/
def isEligibleNeighbor (GreatCountries : List String) (Leader : HoI4Country)
    (neigh : String × HoI4Country) : Bool :=
  decide (neigh.2.tag ∉ Leader.allies) && decide (neigh.2.tag ∉ GreatCountries)

/-- The state of the monarchy loop of `thatsgermanWarCreator`: the vector
`CountriesAtWar`, and the countries handed to `MonarchyWarCreator` so far, in
the order of the calls. -/
structure MonarchyLoopState where
  CountriesAtWar : List HoI4Faction
  processed : List String
  deriving DecidableEq, Repr

/-- The sum `CountriesAtWarStrength` that the monarchy loop recomputes after
each call: `GetFactionStrength(faction, 3)` over `CountriesAtWar`. -/
def countriesAtWarStrength (strengthOverTime : String → ℚ → ℚ)
    (CountriesAtWar : List HoI4Faction) : ℚ :=
  CountriesAtWar.foldl
    (fun CountriesAtWarStrength faction =>
      CountriesAtWarStrength + GetFactionStrength strengthOverTime faction 3)
    0

/-- The loop `for (int i = GCEvilnessSorted.size() - 1; i > 0; i--)` of
`thatsgermanWarCreator`, entered with the index `i`. The argument
`MonarchyWarCreator` gives the factions that the method of that name returns
for a country; `GCEvilnessSorted` is the vector of the candidates in
ascending order of evilness. -/
def monarchyLoop (strengthOverTime : String → ℚ → ℚ)
    (MonarchyWarCreator : String → List HoI4Faction) (WorldStrength : ℚ)
    (GCEvilnessSorted : List String) : Nat → MonarchyLoopState → MonarchyLoopState
  | 0, state => state
  | i + 1, state =>
      let country := GCEvilnessSorted.getD (i + 1) ""
      let newCountriesatWar := MonarchyWarCreator country
      let CountriesAtWar :=
        newCountriesatWar.foldl
          (fun CountriesAtWar addedFactions =>
            if addedFactions ∉ CountriesAtWar then CountriesAtWar ++ [addedFactions]
            else CountriesAtWar)
          state.CountriesAtWar
      let state : MonarchyLoopState :=
        { CountriesAtWar := CountriesAtWar, processed := state.processed ++ [country] }
      let CountriesAtWarStrength := countriesAtWarStrength strengthOverTime CountriesAtWar
      if CountriesAtWarStrength / WorldStrength ≥ 4 / 5 then state
      else monarchyLoop strengthOverTime MonarchyWarCreator WorldStrength GCEvilnessSorted i state

/-- The monarchy recruitment of `thatsgermanWarCreator`: when the share of
the world strength at war is below 0.8, the loop over `GCEvilnessSorted` from
the index `size - 1`. -/
def monarchyRecruitment (strengthOverTime : String → ℚ → ℚ)
    (MonarchyWarCreator : String → List HoI4Faction) (WorldStrength : ℚ)
    (GCEvilnessSorted : List String) (CountriesAtWar : List HoI4Faction) :
    MonarchyLoopState :=
  let state : MonarchyLoopState := { CountriesAtWar := CountriesAtWar, processed := [] }
  if countriesAtWarStrength strengthOverTime CountriesAtWar / WorldStrength < 4 / 5 then
    monarchyLoop strengthOverTime MonarchyWarCreator WorldStrength GCEvilnessSorted
      (GCEvilnessSorted.length - 1) state
  else state

/-- The strength of the example of the monarchy loop: every country has the
strength 1 at every horizon. -/
def unitStrength (_country : String) (_years : ℚ) : ℚ :=
  1

/-- The method `MonarchyWarCreator` of the example of the monarchy loop: no
faction is returned. -/
def noNewWars (_country : String) : List HoI4Faction :=
  []

/-- One round of the anschluss loop of `FascistWarMaker` that emits a focus:
the target, the number written after `country_event = NFEvents.` in the
completion reward of the focus, and the number handed to `createAnnexEvent`,
which writes it after `id = NFEvents.`. -/
structure AnschlussFocus where
  target : String
  rewardEventNumber : Int
  annexEventNumber : Int
  deriving DecidableEq, Repr

/-- The line of the completion reward of an anschluss focus that names the
event. -/
def AnschlussFocus.rewardLine (focus : AnschlussFocus) : String :=
  "\t\t\t\t\tcountry_event = NFEvents." ++ toString focus.rewardEventNumber ++ "\n"

/-- The line of `createAnnexEvent` that gives the event its id. -/
def AnschlussFocus.annexEventIdLine (focus : AnschlussFocus) : String :=
  "\tid = NFEvents." ++ toString focus.annexEventNumber ++ "\n"

/-- The loop `for (unsigned int i = 0; i < 2; i++)` of the anschluss focuses
in `FascistWarMaker`, over the vector `nan`, from the value of the member
`nfEventNumber` at the time of the call: the focuses emitted, in order, and
the final value of `nfEventNumber`. The local `EventNumber` is set to 0
before the loop and never assigned again. -/
def anschlussFocuses (nan : List String) (nfEventNumber : Int) : List AnschlussFocus × Int :=
  let EventNumber : Int := 0
  (List.range 2).foldl
    (fun (state : List AnschlussFocus × Int) i =>
      match nan.get? i with
      | some target =>
          (state.1 ++ [{ target := target, rewardEventNumber := EventNumber,
                         annexEventNumber := state.2 }],
           state.2 + 3)
      | none => state)
    ([], nfEventNumber)

/-- The loop `for (int i = 0; i < 2; i++) prereq += " focus = Alliance_" +
newAllies[i]->getTag() + Leader->getTag();` of `FascistWarMaker`, from the
index `i` on for `count` more rounds. The result `none` stands for a read of
`newAllies[i]` at an index that is not below the size of the vector. -/
def allianceFocusLoop (newAllies : List String) (leaderTag : String) :
    Nat → Nat → String → Option String
  | 0, _, prereq => some prereq
  | count + 1, i, prereq =>
      match newAllies.get? i with
      | none => none
      | some newAlly =>
          allianceFocusLoop newAllies leaderTag count (i + 1)
            (prereq ++ (" focus = Alliance_" ++ newAlly ++ leaderTag))

/-- The prerequisite line of a war focus against a great power in
`FascistWarMaker`: empty when `newAllies` is empty, else built from the
entries 0 and 1 of `newAllies`. The result `none` stands for a read of
`newAllies[i]` at an index that is not below the size of the vector. -/
def warFocusPrereq (newAllies : List String) (leaderTag : String) : Option String :=
  let prereq := ""
  if newAllies.length > 0 then
    let prereq := " \tprerequisite = \x7b "
    (allianceFocusLoop newAllies leaderTag 2 0 prereq).map (fun prereq => prereq ++ "\x7d\n")
  else some prereq

/-- The indices at which the loop of the prerequisite line reads `newAllies`,
when the vector is not empty. -/
def warFocusPrereqIndices (newAllies : List String) : List Nat :=
  if newAllies.length > 0 then List.range 2 else []

/-- The requester of the example of the single new ally: the fascist GER
with a relations record toward AUS. -/
def singleAllyRequester : HoI4Country :=
  { tag := "GER", government := "fascism", allies := [],
    relations := [("AUS", { relations := 10, guarantee := false, sphereLeader := false }),
                  ("GER", { relations := 0, guarantee := false, sphereLeader := false })],
    provinceCount := 1, capitalProv := 1 }

/-- The country map of the example of the single new ally: the fascist AUS
and the democratic FRA. -/
def singleAllyCountries : StrMap HoI4Country :=
  [("AUS", exampleCountry "AUS" "fascism" []),
   ("FRA", exampleCountry "FRA" "democratic" [])]

/-- The landed countries of the example of the many countries: 1190 countries
with the tags a, aa, aaa and so on, each with one employed worker. -/
def manyLandedCountries : LandedCountries :=
  (List.range 1190).map (fun i => (String.mk (List.replicate (i + 1) 'a'), 1))

/-- The landed countries of the example of two countries: ENG with 100 and
FRA with 300 employed workers. -/
def twoLandedCountries : LandedCountries :=
  [("ENG", 100), ("FRA", 300)]

/-- The member `insert` of a `std::map<int, T>`: the entries stay in
ascending key order and an entry whose key is already present is left as it
is. -/
def IntMap.insert {α : Type} (k : Int) (v : α) : List (Int × α) → List (Int × α)
  | [] => [(k, v)]
  | (k', v') :: rest =>
      if k < k' then (k, v) :: (k', v') :: rest
      else if k = k' then (k', v') :: rest
      else (k', v') :: IntMap.insert k v rest

/-- The member `erase` of a `std::map<int, T>` at the entry that `find`
gives for the key. -/
def IntMap.erase {α : Type} (k : Int) : List (Int × α) → List (Int × α)
  | [] => []
  | (k', v') :: rest => if k = k' then rest else (k', v') :: IntMap.erase k rest

/-- The statement `usedRegion->second++` on the entry that `find` gives for
the key in a `std::map<int, int>`. -/
def IntMap.increment (k : Int) : List (Int × Int) → List (Int × Int)
  | [] => []
  | (k', v') :: rest =>
      if k = k' then (k', v' + 1) :: rest else (k', v') :: IntMap.increment k rest

/-- The update of `usedRegions` in `convertStrategicRegions` for the region
of one province: a new entry with the count 1, or one more for the entry
found. -/
def addUsedRegion (usedRegions : List (Int × Int)) (region : Int) : List (Int × Int) :=
  match IntMap.find region usedRegions with
  | none => IntMap.insert region 1 usedRegions
  | some _ => IntMap.increment region usedRegions

/-- The body of the first inner loop of `convertStrategicRegions` for one
province, on the pair of `usedRegions` and `provinceToStratRegionMap`: a
province without a mapping is skipped, else its region is counted and its
mapping erased. -/
def countProvince (state : List (Int × Int) × List (Int × Int)) (province : Int) :
    List (Int × Int) × List (Int × Int) :=
  match IntMap.find province state.2 with
  | none => state
  | some region => (addUsedRegion state.1 region, IntMap.erase province state.2)

/-- The loop of `convertStrategicRegions` that picks the most represented
strategic region: the pair of `bestRegion` and `mostProvinces`. -/
def pickBestRegion (usedRegions : List (Int × Int)) : Int × Int :=
  usedRegions.foldl
    (fun best region => if region.2 > best.2 then (region.1, region.2) else best)
    (0, 0)

/-- The body of the loop of `convertStrategicRegions` over the states, on the
pair of the calls of `addNewProvince` made so far, each as the pair of the
region and the province, and of `provinceToStratRegionMap`. The list
`strategicRegions` holds the keys of the map of that name. -/
def assignState (strategicRegions : List Int)
    (state : List (Int × Int) × List (Int × Int)) (hoi4State : Int × List Int) :
    List (Int × Int) × List (Int × Int) :=
  let counted := hoi4State.2.foldl countProvince ([], state.2)
  let bestRegion := (pickBestRegion counted.1).1
  if bestRegion ∈ strategicRegions then
    (state.1 ++ hoi4State.2.map (fun province => (bestRegion, province)), counted.2)
  else (state.1, counted.2)

/-- The method `HoI4World::convertStrategicRegions`: the calls of
`addNewProvince`, each as the pair of the region and the province added to
it, in order. A state is given by its key in the state map and its provinces;
`strategicRegions` holds the keys of the map of that name. -/
def convertStrategicRegions (strategicRegions : List Int)
    (provinceToStratRegionMap : List (Int × Int)) (states : List (Int × List Int)) :
    List (Int × Int) :=
  let assigned := states.foldl (assignState strategicRegions) ([], provinceToStratRegionMap)
  assigned.2.foldl
    (fun calls mapping =>
      if mapping.2 ∈ strategicRegions then calls ++ [(mapping.2, mapping.1)] else calls)
    assigned.1

/-- The number of provinces of a state that the province-to-region map sends
to the region. -/
def provincesInRegion (provinceToStratRegionMap : List (Int × Int)) (provinces : List Int)
    (region : Int) : Nat :=
  (provinces.filter
    (fun province => IntMap.find province provinceToStratRegionMap == some region)).length

/-- The count that a `std::map<int, int>` holds for a key, 0 when the key is
absent. -/
def IntMap.count (usedRegions : List (Int × Int)) (region : Int) : Int :=
  (IntMap.find region usedRegions).getD 0

/-- The region that the loop of `convertStrategicRegions` over one state
picks for provinces of a state, from the province-to-region map at the start
of the loop. -/
def bestRegionOf (provinceToStratRegionMap : List (Int × Int)) (provinces : List Int) : Int :=
  (pickBestRegion (provinces.foldl countProvince ([], provinceToStratRegionMap)).1).1

/-- The calls of `addNewProvince` that the loop of `convertStrategicRegions`
makes for one state, from the province-to-region map at the start of the
loop. -/
def callsOfState (strategicRegions : List Int) (provinceToStratRegionMap : List (Int × Int))
    (hoi4State : Int × List Int) : List (Int × Int) :=
  if bestRegionOf provinceToStratRegionMap hoi4State.2 ∈ strategicRegions then
    hoi4State.2.map
      (fun province => (bestRegionOf provinceToStratRegionMap hoi4State.2, province))
  else []

/-- The province-to-region map of the worked example of the strategic
regions: the provinces 10, 11 and 15 lie in the region 1 and the provinces
12, 13 and 14 in the region 2. -/
def exampleStratRegionMap : List (Int × Int) :=
  [(10, 1), (11, 1), (12, 2), (13, 2), (14, 2), (15, 1)]

/-- The states of the worked example of the strategic regions: the state 1
has one province in the region 1 and two in the region 2, the state 2 has
one province in each; the province 15 belongs to no state. -/
def exampleRegionStates : List (Int × List Int) :=
  [(1, [10, 12, 13]), (2, [11, 14])]

/-! ## Properties -/

/-- Truncation of a whole number is the number itself. -/
theorem truncToInt_intCast (n : Int) : truncToInt (n : ℚ) = n := by
  unfold truncToInt
  split_ifs <;> simp

/-- C1: `constrainFactoryNumbers` returns a value that is never negative and
never above 12 (11 for the capital state), whatever the raw count is, and it
returns the truncated raw count itself when that count is already within the
bounds. For the raw count -5 it gives 0, for 20 it gives 12 in a state that is
not the capital and 11 in the capital. -/
theorem constrainFactoryNumbers_bounds (s : HoI4State) (rawFactories : ℚ) :
    0 ≤ s.constrainFactoryNumbers rawFactories
    ∧ (s.capitalState = false → s.constrainFactoryNumbers rawFactories ≤ 12)
    ∧ (s.capitalState = true → s.constrainFactoryNumbers rawFactories ≤ 11)
    ∧ (0 ≤ truncToInt rawFactories
        → truncToInt rawFactories ≤ (if s.capitalState then 11 else 12)
        → s.constrainFactoryNumbers rawFactories = truncToInt rawFactories)
    ∧ s.constrainFactoryNumbers (-5) = 0
    ∧ (s.capitalState = false → s.constrainFactoryNumbers 20 = 12)
    ∧ (s.capitalState = true → s.constrainFactoryNumbers 20 = 11) := by
  have h5 : truncToInt (-5 : ℚ) = -5 := by
    have := truncToInt_intCast (-5)
    simpa using this
  have h20 : truncToInt (20 : ℚ) = 20 := by
    have := truncToInt_intCast 20
    simpa using this
  refine ⟨?_, ?_, ?_, ?_, ?_, ?_, ?_⟩
  · unfold HoI4State.constrainFactoryNumbers
    cases s.capitalState <;> simp only [] <;> split_ifs <;> simp_all
  · intro hc
    unfold HoI4State.constrainFactoryNumbers
    rw [hc]
    simp only []
    split_ifs <;> simp_all
  · intro hc
    unfold HoI4State.constrainFactoryNumbers
    rw [hc]
    simp only []
    split_ifs <;> simp_all
  · intro h0 hle
    unfold HoI4State.constrainFactoryNumbers
    simp only []
    split_ifs at hle ⊢ <;> first | rfl | omega
  · unfold HoI4State.constrainFactoryNumbers
    rw [h5]
    simp
  · intro hc
    unfold HoI4State.constrainFactoryNumbers
    rw [h20, hc]
    simp
  · intro hc
    unfold HoI4State.constrainFactoryNumbers
    rw [h20, hc]
    simp

/-- A source state used in the worked examples. -/
def exampleSourceState : Vic2State :=
  { population := 600000, employedWorkers := 50000, averageRailLevel := 2,
    provinceNums := [300, 301], partialState := false }

/-- Witness of C1: in a fresh state, which is not the capital, the raw count
7 lies within the bounds and is returned as it is. -/
theorem constrainFactoryNumbers_bounds_witness :
    (HoI4State.new exampleSourceState 42 "GER").constrainFactoryNumbers 7 = 7 := by
  have h7 : truncToInt (7 : ℚ) = 7 := by
    have := truncToInt_intCast 7
    simpa using this
  have h :=
    (constrainFactoryNumbers_bounds (HoI4State.new exampleSourceState 42 "GER") 7).2.2.2.1
      (by rw [h7]; decide) (by rw [h7]; decide)
  rw [h, h7]

/-- The category map in iteration order: the thresholds ascend. -/
theorem getStateCategories_eq :
    getStateCategories =
      [(0, "enclave"), (1, "pastoral"), (2, "rural"), (4, "town"), (5, "large_town"),
       (6, "city"), (8, "large_city"), (10, "metropolis"), (12, "megalopolis")] := by
  decide

/-- The category that the loop of `determineCategory` leaves behind, by the
range in which `stateSlots` lies. -/
theorem category_fold (slots : Int) (old : String) :
    getStateCategories.foldl
        (fun category possibleCategory =>
          if slots ≥ possibleCategory.1 then possibleCategory.2 else category) old
      = if 12 ≤ slots then "megalopolis"
        else if 10 ≤ slots then "metropolis"
        else if 8 ≤ slots then "large_city"
        else if 6 ≤ slots then "city"
        else if 5 ≤ slots then "large_town"
        else if 4 ≤ slots then "town"
        else if 2 ≤ slots then "rural"
        else if 1 ≤ slots then "pastoral"
        else if 0 ≤ slots then "enclave"
        else old := by
  rw [getStateCategories_eq]
  simp only [List.foldl, ge_iff_le]

/-- The loop of `determineCategory` ends on the entry with the largest
threshold that `slots` reaches. -/
theorem category_fold_largest (slots : Int) (old : String) (entry : Int × String)
    (hmem : entry ∈ stateCategoryInsertions) (hle : entry.1 ≤ slots)
    (hmax : ∀ other ∈ stateCategoryInsertions, other.1 ≤ slots → other.1 ≤ entry.1) :
    getStateCategories.foldl
        (fun category possibleCategory =>
          if slots ≥ possibleCategory.1 then possibleCategory.2 else category) old
      = entry.2 := by
  rw [category_fold]
  have h12 : 12 ≤ slots → 12 ≤ entry.1 := hmax (12, "megalopolis") (by simp [stateCategoryInsertions])
  have h10 : 10 ≤ slots → 10 ≤ entry.1 := hmax (10, "metropolis") (by simp [stateCategoryInsertions])
  have h8 : 8 ≤ slots → 8 ≤ entry.1 := hmax (8, "large_city") (by simp [stateCategoryInsertions])
  have h6 : 6 ≤ slots → 6 ≤ entry.1 := hmax (6, "city") (by simp [stateCategoryInsertions])
  have h5 : 5 ≤ slots → 5 ≤ entry.1 := hmax (5, "large_town") (by simp [stateCategoryInsertions])
  have h4 : 4 ≤ slots → 4 ≤ entry.1 := hmax (4, "town") (by simp [stateCategoryInsertions])
  have h2 : 2 ≤ slots → 2 ≤ entry.1 := hmax (2, "rural") (by simp [stateCategoryInsertions])
  have h1 : 1 ≤ slots → 1 ≤ entry.1 := hmax (1, "pastoral") (by simp [stateCategoryInsertions])
  have h0 : 0 ≤ slots → 0 ≤ entry.1 := hmax (0, "enclave") (by simp [stateCategoryInsertions])
  clear hmax
  obtain ⟨k, name⟩ := entry
  simp only [stateCategoryInsertions, List.mem_cons, List.mem_singleton, List.not_mem_nil,
    or_false, Prod.mk.injEq] at hmem
  simp only [] at hle h12 h10 h8 h6 h5 h4 h2 h1 h0 ⊢
  rcases hmem with ⟨hk, hn⟩ | ⟨hk, hn⟩ | ⟨hk, hn⟩ | ⟨hk, hn⟩ | ⟨hk, hn⟩ | ⟨hk, hn⟩ |
      ⟨hk, hn⟩ | ⟨hk, hn⟩ | ⟨hk, hn⟩ <;>
    subst hk <;> subst hn <;>
    repeat (first
      | rw [if_pos hle]
      | rw [if_neg (fun h => absurd (h12 h) (by decide))]
      | rw [if_neg (fun h => absurd (h10 h) (by decide))]
      | rw [if_neg (fun h => absurd (h8 h) (by decide))]
      | rw [if_neg (fun h => absurd (h6 h) (by decide))]
      | rw [if_neg (fun h => absurd (h5 h) (by decide))]
      | rw [if_neg (fun h => absurd (h4 h) (by decide))]
      | rw [if_neg (fun h => absurd (h2 h) (by decide))]
      | rw [if_neg (fun h => absurd (h1 h) (by decide))])

/-- Some entry of the table has the largest threshold that `slots` reaches,
as soon as `slots` is not negative. -/
theorem category_entry_exists (slots : Int) (h : 0 ≤ slots) :
    ∃ entry ∈ stateCategoryInsertions, entry.1 ≤ slots
      ∧ ∀ other ∈ stateCategoryInsertions, other.1 ≤ slots → other.1 ≤ entry.1 := by
  have key : ∀ entry ∈ stateCategoryInsertions, entry.1 ≤ slots →
      (∀ k ∈ [12, 10, 8, 6, 5, 4, 2, 1, (0 : Int)], k ≤ slots → k ≤ entry.1) →
      ∃ entry ∈ stateCategoryInsertions, entry.1 ≤ slots
        ∧ ∀ other ∈ stateCategoryInsertions, other.1 ≤ slots → other.1 ≤ entry.1 := by
    intro entry hmem hle hk
    refine ⟨entry, hmem, hle, ?_⟩
    intro other hother hole
    apply hk _ _ hole
    simp only [stateCategoryInsertions, List.mem_cons, List.mem_singleton, List.not_mem_nil,
      or_false] at hother
    rcases hother with h | h | h | h | h | h | h | h | h <;> subst h <;> simp
  by_cases c12 : 12 ≤ slots
  · exact key (12, "megalopolis") (by simp [stateCategoryInsertions]) c12
      (by
        intro k hk hks
        simp only [List.mem_cons, List.mem_singleton, List.not_mem_nil, or_false] at hk
        omega)
  by_cases c10 : 10 ≤ slots
  · exact key (10, "metropolis") (by simp [stateCategoryInsertions]) c10
      (by
        intro k hk hks
        simp only [List.mem_cons, List.mem_singleton, List.not_mem_nil, or_false] at hk
        omega)
  by_cases c8 : 8 ≤ slots
  · exact key (8, "large_city") (by simp [stateCategoryInsertions]) c8
      (by
        intro k hk hks
        simp only [List.mem_cons, List.mem_singleton, List.not_mem_nil, or_false] at hk
        omega)
  by_cases c6 : 6 ≤ slots
  · exact key (6, "city") (by simp [stateCategoryInsertions]) c6
      (by
        intro k hk hks
        simp only [List.mem_cons, List.mem_singleton, List.not_mem_nil, or_false] at hk
        omega)
  by_cases c5 : 5 ≤ slots
  · exact key (5, "large_town") (by simp [stateCategoryInsertions]) c5
      (by
        intro k hk hks
        simp only [List.mem_cons, List.mem_singleton, List.not_mem_nil, or_false] at hk
        omega)
  by_cases c4 : 4 ≤ slots
  · exact key (4, "town") (by simp [stateCategoryInsertions]) c4
      (by
        intro k hk hks
        simp only [List.mem_cons, List.mem_singleton, List.not_mem_nil, or_false] at hk
        omega)
  by_cases c2 : 2 ≤ slots
  · exact key (2, "rural") (by simp [stateCategoryInsertions]) c2
      (by
        intro k hk hks
        simp only [List.mem_cons, List.mem_singleton, List.not_mem_nil, or_false] at hk
        omega)
  by_cases c1 : 1 ≤ slots
  · exact key (1, "pastoral") (by simp [stateCategoryInsertions]) c1
      (by
        intro k hk hks
        simp only [List.mem_cons, List.mem_singleton, List.not_mem_nil, or_false] at hk
        omega)
  · exact key (0, "enclave") (by simp [stateCategoryInsertions]) h
      (by
        intro k hk hks
        simp only [List.mem_cons, List.mem_singleton, List.not_mem_nil, or_false] at hk
        omega)

/-- The value of `stateSlots` is at least 1 when the factory count is not
negative. -/
theorem stateSlots_pos (population factories : Int) (h : 0 ≤ factories) :
    1 ≤ stateSlots population factories := by
  unfold stateSlots
  simp only []
  split_ifs <;> omega

/-- C2: `determineCategory` works on `factories = f` (`f + 1` in the capital
state) and on `stateSlots = p / 120000`, replaced by `factories + 2` when
`factories ≥ stateSlots`; the category it sets is the entry of the threshold
table whose threshold is the largest one that is `≤ stateSlots`, and such an
entry exists whenever `f` is not negative. With p = 600000 and f = 3 outside
the capital the category is large_town, with p = 0 and f = 0 it is rural. -/
theorem determineCategory_largest_threshold (s : HoI4State) (f : Int) :
    let factories := if s.capitalState then f + 1 else f
    let slots :=
      if factories ≥ Int.tdiv s.sourceState.population 120000 then factories + 2
      else Int.tdiv s.sourceState.population 120000
    (∀ entry ∈ stateCategoryInsertions, entry.1 ≤ slots
        → (∀ other ∈ stateCategoryInsertions, other.1 ≤ slots → other.1 ≤ entry.1)
        → (s.determineCategory f).category = entry.2)
    ∧ (0 ≤ f → ∃ entry ∈ stateCategoryInsertions, entry.1 ≤ slots
        ∧ (∀ other ∈ stateCategoryInsertions, other.1 ≤ slots → other.1 ≤ entry.1))
    ∧ (s.capitalState = false → s.sourceState.population = 600000 → f = 3
        → (s.determineCategory f).category = "large_town")
    ∧ (s.capitalState = false → s.sourceState.population = 0 → f = 0
        → (s.determineCategory f).category = "rural") := by
  intro factories slots
  have hslots : slots = stateSlots s.sourceState.population factories := rfl
  have hcat : ∀ entry ∈ stateCategoryInsertions, entry.1 ≤ slots
      → (∀ other ∈ stateCategoryInsertions, other.1 ≤ slots → other.1 ≤ entry.1)
      → (s.determineCategory f).category = entry.2 := by
    intro entry hmem hle hmax
    exact category_fold_largest slots s.category entry hmem hle hmax
  refine ⟨hcat, ?_, ?_, ?_⟩
  · intro hf
    apply category_entry_exists
    have h0 : 0 ≤ factories := by
      show 0 ≤ (if s.capitalState then f + 1 else f)
      split_ifs <;> omega
    have := stateSlots_pos s.sourceState.population factories h0
    omega
  · intro hc hp hf
    have h5 : slots = 5 := by
      rw [hslots]
      show stateSlots s.sourceState.population (if s.capitalState then f + 1 else f) = 5
      rw [hc, hp, hf]
      decide
    apply hcat (5, "large_town") (by simp [stateCategoryInsertions])
    · rw [h5]
    · rw [h5]
      decide
  · intro hc hp hf
    have h2 : slots = 2 := by
      rw [hslots]
      show stateSlots s.sourceState.population (if s.capitalState then f + 1 else f) = 2
      rw [hc, hp, hf]
      decide
    apply hcat (2, "rural") (by simp [stateCategoryInsertions])
    · rw [h2]
    · rw [h2]
      decide

/-- Witness of C2: the example source state holds 600000 people, and with 3
factories outside the capital the category becomes large_town. -/
theorem determineCategory_largest_threshold_witness :
    ((HoI4State.new exampleSourceState 42 "GER").determineCategory 3).category
      = "large_town" :=
  (determineCategory_largest_threshold (HoI4State.new exampleSourceState 42 "GER") 3).2.2.1
    rfl rfl rfl

/-- A loop that appends one line per element builds the mapped list. -/
theorem foldl_append_line {α : Type} (f : α → String) (l : List α) (out : List String) :
    l.foldl (fun out x => out ++ [f x]) out = out ++ l.map f := by
  induction l generalizing out with
  | nil => simp
  | cons x rest ih => simp [ih]

/-- Concatenation by a loop, started from any text. -/
theorem foldl_append_text (l : List String) (init : String) :
    l.foldl (fun acc x => acc ++ x) init = init ++ String.join l := by
  induction l generalizing init with
  | nil => simp [String.join]
  | cons x rest ih =>
    have h : String.join (x :: rest) = x ++ String.join rest := by
      simp only [String.join, List.foldl, String.empty_append]
      rw [ih x, ih ""]
      simp
    rw [h, List.foldl, ih, String.append_assoc]

/-- The loop over the provinces in `output` writes each number followed by a
blank. -/
theorem foldl_provinces (l : List Int) (init : String) :
    l.foldl (fun line provnum => line ++ toString provnum ++ " ") init
      = init ++ String.join (l.map (fun provnum => toString provnum ++ " ")) := by
  induction l generalizing init with
  | nil => simp [String.join]
  | cons x rest ih =>
    have h : ∀ a (r : List String), String.join (a :: r) = a ++ String.join r := by
      intro a r
      simp only [String.join, List.foldl, String.empty_append]
      rw [foldl_append_text r a, foldl_append_text r ""]
      simp [String.join]
    rw [List.foldl, ih, List.map, h]
    simp only [String.append_assoc]

/-- The state of the worked example of the output: id 42, manpower 1000, 10
units of steel, category city, owner GER, 3 civilian and 2 military
factories, no dockyard, no naval base, air base 1, a core of GER, provinces
101 and 102. -/
def exampleState : HoI4State :=
  { HoI4State.new exampleSourceState 42 "GER" with
    provinces := [101, 102]
    cores := ["GER"]
    manpower := 1000
    civFactories := 3
    milFactories := 2
    category := "city"
    airbaseLevel := 1
    resources := [("steel", 10)] }

/-- A rendering of amounts for the worked example: a whole amount is written
by its digits. -/
def showWhole (q : ℚ) : String :=
  toString q.num

/-- A state with the single province -1 that received a naval base of level 1
there through `setNavalBase`. -/
def negativeNavalState : HoI4State :=
  ({ HoI4State.new exampleSourceState 7 "GER" with provinces := [-1] }).setNavalBase 1 (-1)

/-- C3, counterexample: the state `negativeNavalState` has a naval level above
0 and a naval location other than 0, yet the text written for it holds no
naval_base block: the buildings block goes from the arms_factory line
straight to the air_base line. -/
theorem output_naval_counterexample :
    (0 < negativeNavalState.navalLevel ∧ negativeNavalState.navalLocation ≠ 0)
    ∧ negativeNavalState.output showWhole =
        ["state=\x7b", "\tid=7", "\tname= \"STATE_7\"", "\tmanpower = 0", "",
         "\tstate_category = pastoral", "", "\thistory=\x7b", "\t\towner = GER",
         "\t\tbuildings = \x7b", "\t\t\tinfrastructure = 0", "\t\t\tindustrial_complex = 0",
         "\t\t\tarms_factory = 0", "\t\t\tair_base = 0", "\t\t\x7d", "\t\x7d", "",
         "\tprovinces=\x7b", "\t\t-1 ", "\t\x7d", "\x7d"]
    ∧ "\t\t\t\tnaval_base = 1" ∉ negativeNavalState.output showWhole := by
  decide

/-- C3, amended: the text written by `output` is, in this order, the opening
line, the id, name and manpower lines and an empty line; the resources block
exactly when the resource map is not empty; the state_category line, an empty
line, the opening of the history block and the owner line; the victory_points
block exactly when the value is above 0 and the position is not 0; the
opening of the buildings block with the infrastructure, industrial_complex
(civilian factories) and arms_factory (military factories) lines; the
dockyard line exactly when there is a dockyard; the naval_base block keyed by
the province exactly when the naval level is above 0 and the naval location
is above 0; the air_base line in every case; the end of the buildings block;
one add_core_of line per core; the end of the history block, an empty line
and the provinces block with every province number followed by one blank.
For the example state this is the text of the specification, without a
dockyard line and without a naval_base block. -/
theorem output_structure (showDouble : ℚ → String) (s : HoI4State) :
    s.output showDouble =
      ["state=\x7b", "\tid=" ++ toString s.ID, "\tname= \"STATE_" ++ toString s.ID ++ "\"",
       "\tmanpower = " ++ toString s.manpower, ""]
      ++ (if s.resources = [] then []
          else ["\tresources=\x7b"]
            ++ s.resources.map
                (fun resource => "\t\t" ++ resource.1 ++ " = " ++ showDouble resource.2)
            ++ ["\t\x7d"])
      ++ ["\tstate_category = " ++ s.category, "", "\thistory=\x7b",
          "\t\towner = " ++ s.ownerTag]
      ++ (if 0 < s.victoryPointValue ∧ s.victoryPointPosition ≠ 0 then
            ["\t\tvictory_points = \x7b",
             "\t\t\t" ++ toString s.victoryPointPosition ++ " "
               ++ toString s.victoryPointValue,
             "\t\t\x7d"]
          else [])
      ++ ["\t\tbuildings = \x7b", "\t\t\tinfrastructure = " ++ toString s.infrastructure,
          "\t\t\tindustrial_complex = " ++ toString s.civFactories,
          "\t\t\tarms_factory = " ++ toString s.milFactories]
      ++ (if 0 < s.dockyards then ["\t\t\tdockyard = " ++ toString s.dockyards] else [])
      ++ (if 0 < s.navalLevel ∧ 0 < s.navalLocation then
            ["\t\t\t" ++ toString s.navalLocation ++ " = \x7b",
             "\t\t\t\tnaval_base = " ++ toString s.navalLevel,
             "\t\t\t\x7d"]
          else [])
      ++ ["\t\t\tair_base = " ++ toString s.airbaseLevel, "\t\t\x7d"]
      ++ s.cores.map (fun core => "\t\tadd_core_of = " ++ core)
      ++ ["\t\x7d", "", "\tprovinces=\x7b",
          "\t\t" ++ String.join (s.provinces.map (fun provnum => toString provnum ++ " ")),
          "\t\x7d", "\x7d"]
    ∧ exampleState.output showWhole =
        ["state=\x7b", "\tid=42", "\tname= \"STATE_42\"", "\tmanpower = 1000", "",
         "\tresources=\x7b", "\t\tsteel = 10", "\t\x7d",
         "\tstate_category = city", "", "\thistory=\x7b", "\t\towner = GER",
         "\t\tbuildings = \x7b", "\t\t\tinfrastructure = 0", "\t\t\tindustrial_complex = 3",
         "\t\t\tarms_factory = 2", "\t\t\tair_base = 1", "\t\t\x7d",
         "\t\tadd_core_of = GER", "\t\x7d", "",
         "\tprovinces=\x7b", "\t\t101 102 ", "\t\x7d", "\x7d"] := by
  refine ⟨?_, by decide⟩
  unfold HoI4State.output
  simp only [foldl_append_line, foldl_provinces, List.nil_append, gt_iff_lt,
    List.length_pos]
  split_ifs <;> simp_all

/-- One call of `setNavalBase` keeps the naval location at 0 or inside the
province set, whenever it was so before. -/
theorem setNavalBase_preserves (s : HoI4State) (level location : Int)
    (h : s.navalLocation = 0 ∨ s.navalLocation ∈ s.provinces) :
    (s.setNavalBase level location).navalLocation = 0
      ∨ (s.setNavalBase level location).navalLocation
          ∈ (s.setNavalBase level location).provinces := by
  unfold HoI4State.setNavalBase
  split_ifs with hmem
  · exact Or.inr hmem
  · exact h

/-- C4: with a location outside the province set `setNavalBase` returns the
state as it was, so the naval level, the naval location and every other field
are unchanged; with a location inside the province set the level and the
location become the arguments and the other fields stay. A state made by the
constructor and changed by any sequence of `setNavalBase` calls has its naval
location at 0 or inside its province set. -/
theorem setNavalBase_frame (s : HoI4State) (level location : Int) :
    (location ∉ s.provinces → s.setNavalBase level location = s)
    ∧ (location ∈ s.provinces →
        s.setNavalBase level location
          = { s with navalLevel := level, navalLocation := location }
        ∧ (s.setNavalBase level location).navalLevel = level
        ∧ (s.setNavalBase level location).navalLocation = location)
    ∧ (s.navalLocation = 0 ∨ s.navalLocation ∈ s.provinces →
        (s.setNavalBase level location).navalLocation = 0
        ∨ (s.setNavalBase level location).navalLocation
            ∈ (s.setNavalBase level location).provinces)
    ∧ (∀ (sourceState : Vic2State) (ID : Int) (ownerTag : String) (calls : List (Int × Int)),
        (calls.foldl (fun st call => st.setNavalBase call.1 call.2)
            (HoI4State.new sourceState ID ownerTag)).navalLocation = 0
        ∨ (calls.foldl (fun st call => st.setNavalBase call.1 call.2)
            (HoI4State.new sourceState ID ownerTag)).navalLocation
          ∈ (calls.foldl (fun st call => st.setNavalBase call.1 call.2)
              (HoI4State.new sourceState ID ownerTag)).provinces) := by
  refine ⟨?_, ?_, setNavalBase_preserves s level location, ?_⟩
  · intro h
    unfold HoI4State.setNavalBase
    rw [if_neg h]
  · intro h
    unfold HoI4State.setNavalBase
    rw [if_pos h]
    exact ⟨rfl, rfl, rfl⟩
  · intro sourceState ID ownerTag calls
    have key : ∀ (l : List (Int × Int)) (st : HoI4State),
        (st.navalLocation = 0 ∨ st.navalLocation ∈ st.provinces) →
        ((l.foldl (fun st call => st.setNavalBase call.1 call.2) st).navalLocation = 0
          ∨ (l.foldl (fun st call => st.setNavalBase call.1 call.2) st).navalLocation
              ∈ (l.foldl (fun st call => st.setNavalBase call.1 call.2) st).provinces) := by
      intro l
      induction l with
      | nil => intro st h; exact h
      | cons call rest ih =>
        intro st h
        exact ih _ (setNavalBase_preserves st call.1 call.2 h)
    exact key calls _ (Or.inl rfl)

/-- Witness of C4: province 999 is not in the example state, and the call
with it returns the example state. -/
theorem setNavalBase_frame_witness :
    exampleState.setNavalBase 3 999 = exampleState :=
  (setNavalBase_frame exampleState 3 999).1 (by decide)

/-- C5: after `assignVP` the victory point position is the location given,
and the value is 3 when the owner tag is among the cores of the state and 1
when it is not. -/
theorem assignVP_value (s : HoI4State) (location : Int) :
    (s.assignVP location).victoryPointPosition = location
    ∧ (s.ownerTag ∈ s.cores → (s.assignVP location).victoryPointValue = 3)
    ∧ (s.ownerTag ∉ s.cores → (s.assignVP location).victoryPointValue = 1) := by
  refine ⟨rfl, ?_, ?_⟩
  · intro h
    unfold HoI4State.assignVP
    simp only [if_pos h]
    rfl
  · intro h
    unfold HoI4State.assignVP
    simp only [if_neg h]

/-- Witness of C5: the example state is owned by GER and has a core of GER,
so its victory point is worth 3. -/
theorem assignVP_value_witness :
    (exampleState.assignVP 101).victoryPointValue = 3 :=
  (assignVP_value exampleState 101).2.1 (by decide)

/-- C6: `setInfrastructure` sets the infrastructure to the average rail level
of the source state plus one for each of the three thresholds 4, 6 and 10
that the factory count exceeds. With rail level 2 the counts 11, 5 and 3 give
5, 3 and 2. -/
theorem setInfrastructure_value (s : HoI4State) (factories : Int) :
    (s.setInfrastructure factories).infrastructure
      = s.sourceState.averageRailLevel + (if factories > 4 then 1 else 0)
          + (if factories > 6 then 1 else 0) + (if factories > 10 then 1 else 0)
    ∧ exampleState.sourceState.averageRailLevel = 2
    ∧ (exampleState.setInfrastructure 11).infrastructure = 5
    ∧ (exampleState.setInfrastructure 5).infrastructure = 3
    ∧ (exampleState.setInfrastructure 3).infrastructure = 2 := by
  refine ⟨?_, by decide, by decide, by decide, by decide⟩
  unfold HoI4State.setInfrastructure
  simp only []
  split_ifs <;> omega

/-- C7: in a world whose one landed country has `W > 0` employed workers,
`adjustWorkers` leaves the worker count at `W` for every shape factor, and
`calculateFactoryWorkerRatios` returns for that country the ratio
`(B - icFactor * (B - (1189 - 1))) / W` with `B = W * 0.000019`, in which the
shape factor does not occur. -/
theorem single_country_ratio (config : Configuration) (tag : String) (W : Int)
    (hW : 0 < W) :
    adjustWorkers config (getIndustrialWorkersPerCountry [(tag, W)])
        (getTotalWorldWorkers (getIndustrialWorkersPerCountry [(tag, W)]))
      = [(tag, (W : ℚ))]
    ∧ calculateFactoryWorkerRatios config [(tag, W)]
      = [(tag, ((W : ℚ) * (19 / 1000000)
                - config.icFactor * ((W : ℚ) * (19 / 1000000) - (1189 - 1))) / (W : ℚ))] := by
  have hWq : (W : ℚ) ≠ 0 := by
    have : (0 : ℚ) < (W : ℚ) := by exact_mod_cast hW
    exact ne_of_gt this
  have hworkers : getIndustrialWorkersPerCountry [(tag, W)] = [(tag, (W : ℚ))] := by
    simp [getIndustrialWorkersPerCountry, hW, StrMap.insert]
  have htotal : getTotalWorldWorkers [(tag, (W : ℚ))] = (W : ℚ) := by
    simp [getTotalWorldWorkers]
  have hadjust : adjustWorkers config [(tag, (W : ℚ))] (W : ℚ) = [(tag, (W : ℚ))] := by
    simp [adjustWorkers, StrMap.insert, StrMap.find]
  have hsize : (((1189 - (([(tag, W)] : LandedCountries).length : Int)) % 2 ^ 64 : Int) : ℚ)
      = 1189 - 1 := by
    norm_num
  refine ⟨?_, ?_⟩
  · rw [hworkers, htotal, hadjust]
  · unfold calculateFactoryWorkerRatios
    simp only [hworkers, htotal, hadjust]
    unfold getWorldwideWorkerFactoryRatio
    rw [hsize]
    simp only [List.foldl, StrMap.find, if_true, Option.getD_some, gt_iff_lt, hW,
      StrMap.insert, zero_add]
    congr 2
    field_simp
    ring

/-- Witness of C7: 100000 workers with shape factor 0.5 and IC factor 0.5
give the ratio 0.0059495. -/
theorem single_country_ratio_witness :
    calculateFactoryWorkerRatios { industrialShapeFactor := 1 / 2, icFactor := 1 / 2 }
        [("GER", 100000)]
      = [("GER", 59495 / 10000000)] := by
  rw [(single_country_ratio { industrialShapeFactor := 1 / 2, icFactor := 1 / 2 } "GER" 100000
        (by decide)).2]
  norm_num

/-- C8: `getDistanceBetweenPoints` takes as horizontal delta `|x2 - x1|` when
that is at most 2625 and `5250 - |x2 - x1|` when it is larger, and the value
under its square root is the square of that delta plus the square of
`y2 - y1`; this value is the same when the two points are exchanged. Between
x = 100 and x = 5200 the horizontal delta is 150. -/
theorem getDistanceBetweenPoints_wrap (point1 point2 : Int × Int) :
    (|point2.1 - point1.1| ≤ 2625 → xDistance point1 point2 = |point2.1 - point1.1|)
    ∧ (2625 < |point2.1 - point1.1|
        → xDistance point1 point2 = 5250 - |point2.1 - point1.1|)
    ∧ getDistanceBetweenPointsSquared point1 point2
        = xDistance point1 point2 * xDistance point1 point2
          + (point2.2 - point1.2) * (point2.2 - point1.2)
    ∧ getDistanceBetweenPointsSquared point1 point2
        = getDistanceBetweenPointsSquared point2 point1
    ∧ xDistance (100, point1.2) (5200, point2.2) = 150 := by
  refine ⟨?_, ?_, ?_, ?_, ?_⟩
  · intro h
    unfold xDistance
    simp only []
    rw [if_neg (by omega)]
  · intro h
    unfold xDistance
    simp only []
    rw [if_pos (by omega)]
  · unfold getDistanceBetweenPointsSquared yDistance
    ring
  · have hx : xDistance point1 point2 = xDistance point2 point1 := by
      unfold xDistance
      simp only []
      rw [abs_sub_comm point2.1 point1.1]
    unfold getDistanceBetweenPointsSquared yDistance
    rw [hx]
    ring
  · unfold xDistance
    simp only []
    decide

/-- Witness of C8: from (100, 40) to (5200, 70) the raw delta 5100 exceeds
2625 and the horizontal delta is 5250 - 5100. -/
theorem getDistanceBetweenPoints_wrap_witness :
    xDistance (100, 40) (5200, 70) = 5250 - |(5200 : Int) - 100| :=
  (getDistanceBetweenPoints_wrap (100, 40) (5200, 70)).2.1 (by decide)

/-- The agreements that one relation gives rise to: the relation agreement
carries the tag of the country whose relation it is as `country1` and the tag
of the other country as `country2`, in both branches of the comparison. -/
theorem relationAgreements_eq (country : String) (relationItr : String × HoI4Relations) :
    relationAgreements country relationItr
      = [{ type := "relation", country1 := country, country2 := relationItr.1,
           value := relationItr.2.relations, start_date := "1930.1.1" }]
        ++ (if relationItr.2.guarantee then
              [{ type := "guarantee", country1 := country, country2 := relationItr.1,
                 start_date := "1930.1.1" }]
            else [])
        ++ (if relationItr.2.sphereLeader then
              [{ type := "sphere", country1 := country, country2 := relationItr.1,
                 start_date := "1930.1.1" }]
            else []) := by
  unfold relationAgreements
  by_cases h : country < relationItr.1 <;>
    cases relationItr.2.guarantee <;> cases relationItr.2.sphereLeader <;> simp [h]

/-- C9, the behaviour of the code: the relation agreement synthesized by
`convertDiplomacy` has `country1` equal to the tag of the country that holds
the relation and `country2` equal to the tag the relation points at, whatever
the order of the two tags. For FRA and GER, which satisfy FRA < GER, the
relation of FRA toward GER gives the pair (FRA, GER) and the relation of GER
toward FRA gives the pair (GER, FRA), so the two agreements differ and the
second one is not in lexicographic order. -/
theorem convertDiplomacy_relation_tags_unordered :
    (∀ (country : String) (relationItr : String × HoI4Relations),
      (relationAgreements country relationItr).head?
        = some { type := "relation", country1 := country, country2 := relationItr.1,
                 value := relationItr.2.relations, start_date := "1930.1.1" })
    ∧ "FRA" < "GER"
    ∧ convertDiplomacyRelations
        [("FRA", [("GER", { relations := 50, guarantee := false, sphereLeader := false })]),
         ("GER", [("FRA", { relations := 50, guarantee := false, sphereLeader := false })])]
      = [{ type := "relation", country1 := "FRA", country2 := "GER", value := 50,
           start_date := "1930.1.1" },
         { type := "relation", country1 := "GER", country2 := "FRA", value := 50,
           start_date := "1930.1.1" }] := by
  refine ⟨?_, ?_, ?_⟩
  · intro country relationItr
    rw [relationAgreements_eq]
    rfl
  · rw [String.lt_iff_toList_lt]
    decide
  · simp [convertDiplomacyRelations, relationAgreements_eq]

/-- A loop that adds one term per element computes the sum of the terms. -/
theorem foldl_add_eq_sum {α : Type} (f : α → ℚ) (l : List α) (init : ℚ) :
    l.foldl (fun strength x => strength + f x) init = init + (l.map f).sum := by
  induction l generalizing init with
  | nil => simp
  | cons x rest ih =>
    rw [List.foldl, ih, List.map, List.sum_cons]
    ring

/-- The value of `GetFactionStrength` is the sum of the strengths of the
members at the whole number of years given. -/
theorem GetFactionStrength_eq_sum (strengthOverTime : String → ℚ → ℚ)
    (Faction : HoI4Faction) (years : Int) :
    GetFactionStrength strengthOverTime Faction years
      = (Faction.members.map (fun country => strengthOverTime country (years : ℚ))).sum := by
  unfold GetFactionStrength
  rw [foldl_add_eq_sum]
  simp

/-- Truncation of a time that is not negative does not exceed the time. -/
theorem truncToInt_le (time : ℚ) (h : 0 ≤ time) : ((truncToInt time : Int) : ℚ) ≤ time := by
  unfold truncToInt
  rw [if_pos h]
  exact Int.floor_le time

/-- For two different countries `HowToTakeLand` answers noactionneeded
exactly when the strength of the attacker at `time` reaches the strength of
the faction of the target at the truncated time, which is the comparison that
the source makes through `static_cast<int>(time)`. -/
theorem HowToTakeLand_noactionneeded_iff (Factions : List HoI4Faction)
    (strengthOverTime : String → ℚ → ℚ) (getDistanceBetweenCountries : String → String → ℚ)
    (moreAllies : List String) (TargetCountry AttackingCountry : String) (time : ℚ)
    (hne : TargetCountry ≠ AttackingCountry) :
    HowToTakeLand Factions strengthOverTime getDistanceBetweenCountries moreAllies
        TargetCountry AttackingCountry time = "noactionneeded"
      ↔ strengthOverTime AttackingCountry time
          ≥ GetFactionStrength strengthOverTime (findFaction Factions TargetCountry)
              (truncToInt time) := by
  unfold HowToTakeLand
  simp only [if_pos hne]
  constructor
  · intro h
    by_contra hlt
    rw [if_neg hlt] at h
    split_ifs at h <;> exact absurd h (by decide)
  · intro h
    rw [if_pos h]

/-- C10: for an attacker and a target that differ and a time horizon `time`
that is not negative, whole or not, if the strength of the attacker at `time`
is at least the sum of the strengths at `time` of the members of the faction
of the target, `HowToTakeLand` returns noactionneeded; equality is enough.
The strength of a country, computed outside the files at hand, is taken to
grow or stay with the years, as the specification requires of it. -/
theorem HowToTakeLand_noactionneeded (Factions : List HoI4Faction)
    (strengthOverTime : String → ℚ → ℚ) (getDistanceBetweenCountries : String → String → ℚ)
    (moreAllies : List String) (TargetCountry AttackingCountry : String) (time : ℚ)
    (hne : TargetCountry ≠ AttackingCountry) (htime : 0 ≤ time)
    (hmono : ∀ country, Monotone (strengthOverTime country))
    (hge : strengthOverTime AttackingCountry time
      ≥ ((findFaction Factions TargetCountry).members.map
          (fun member => strengthOverTime member time)).sum) :
    HowToTakeLand Factions strengthOverTime getDistanceBetweenCountries moreAllies
        TargetCountry AttackingCountry time = "noactionneeded" := by
  rw [HowToTakeLand_noactionneeded_iff _ _ _ _ _ _ _ hne, GetFactionStrength_eq_sum]
  have hle : ∀ members : List String,
      (members.map (fun country => strengthOverTime country ((truncToInt time : Int) : ℚ))).sum
        ≤ (members.map (fun member => strengthOverTime member time)).sum := by
    intro members
    induction members with
    | nil => simp
    | cons m rest ih =>
      simp only [List.map, List.sum_cons]
      exact add_le_add (hmono m (truncToInt_le time htime)) ih
  exact le_trans (hle _) hge

/-- A strength for the worked example of `HowToTakeLand`: GER starts at 7 and
gains 2 a year, FRA starts at 5 and BEL at 2, and both gain 1 a year. -/
def exampleStrength (country : String) (years : ℚ) : ℚ :=
  if country = "GER" then 7 + 2 * years
  else if country = "FRA" then 5 + years
  else 2 + years

/-- A distance for the worked example of `HowToTakeLand`: every two capitals
are 400 units apart. -/
def exampleDistance (_country1 _country2 : String) : ℚ :=
  400

/-- Witness of C10: FRA leads a faction with BEL; at the horizon of 1.5 years
the two have the strengths 6.5 and 3.5, which add up to the strength 10 of
GER, and GER needs no help against FRA. -/
theorem HowToTakeLand_noactionneeded_witness :
    exampleStrength "GER" (3 / 2)
      = exampleStrength "FRA" (3 / 2) + exampleStrength "BEL" (3 / 2)
    ∧ HowToTakeLand [{ leader := "FRA", members := ["FRA", "BEL"] }] exampleStrength
        exampleDistance [] "FRA" "GER" (3 / 2) = "noactionneeded" := by
  refine ⟨?_, ?_⟩
  · have h1 : ¬ ("FRA" = "GER") := by decide
    have h2 : ¬ ("BEL" = "GER") := by decide
    have h3 : ¬ ("BEL" = "FRA") := by decide
    simp only [exampleStrength, if_true, if_neg h1, if_neg h2, if_neg h3]
    norm_num
  · apply HowToTakeLand_noactionneeded
    · decide
    · norm_num
    · intro country a b hab
      unfold exampleStrength
      split_ifs <;> linarith
    · have hf : findFaction [{ leader := "FRA", members := ["FRA", "BEL"] }] "FRA"
          = { leader := "FRA", members := ["FRA", "BEL"] } := by decide
      have h1 : ¬ ("FRA" = "GER") := by decide
      have h2 : ¬ ("BEL" = "GER") := by decide
      have h3 : ¬ ("BEL" = "FRA") := by decide
      rw [hf]
      simp only [exampleStrength, List.map, List.sum_cons, List.sum_nil, if_true, if_neg h1,
        if_neg h2, if_neg h3]
      norm_num

/-- After an insertion a key is present exactly when it is the key inserted or
was present before. -/
theorem StrMap.find_insert_isSome {α : Type} (k T : String) (v : α) (m : StrMap α) :
    (StrMap.find T (StrMap.insert k v m)).isSome = true
      ↔ T = k ∨ (StrMap.find T m).isSome = true := by
  induction m with
  | nil => simp [StrMap.insert, StrMap.find]
  | cons head rest ih =>
    obtain ⟨k', v'⟩ := head
    unfold StrMap.insert
    split_ifs with h1 h2
    · simp only [StrMap.find]
      split_ifs <;> simp_all
    · subst h2
      simp only [StrMap.find]
      split_ifs <;> simp_all
    · simp only [StrMap.find]
      split_ifs with h3
      · simp [h3]
      · rw [ih]

/-- The country map after the loop of `convertCountries`, when every ruling
party resolves: the entries that were there and one for each target tag of a
source country that is not the rebels and has a mapping. -/
theorem convertCountries_loop (getHoI4Tag : String → String)
    (initFromV2Country : String → V2Country → String → HoI4Country)
    (sourceCountries : List (String × V2Country))
    (hparty : ∀ sourceItr ∈ sourceCountries, sourceItr.2.rulingParty ≠ none)
    (countries : StrMap HoI4Country) :
    ∃ result, convertCountries getHoI4Tag initFromV2Country sourceCountries countries
        = some result
      ∧ ∀ T, (StrMap.find T result).isSome = true
          ↔ ((StrMap.find T countries).isSome = true
            ∨ ∃ sourceItr ∈ sourceCountries,
                sourceItr.1 ≠ "REB" ∧ getHoI4Tag sourceItr.1 = T ∧ T ≠ "") := by
  induction sourceCountries generalizing countries with
  | nil => exact ⟨countries, rfl, by simp⟩
  | cons sourceItr rest ih =>
    have hrest : ∀ s ∈ rest, s.2.rulingParty ≠ none :=
      fun s hs => hparty s (List.mem_cons_of_mem _ hs)
    unfold convertCountries
    by_cases hreb : sourceItr.1 = "REB"
    · rw [if_pos hreb]
      obtain ⟨result, hres, hiff⟩ := ih hrest countries
      refine ⟨result, hres, fun T => ?_⟩
      rw [hiff T]
      constructor
      · rintro (h | ⟨s, hs, h⟩)
        · exact Or.inl h
        · exact Or.inr ⟨s, List.mem_cons_of_mem _ hs, h⟩
      · rintro (h | ⟨s, hs, h1, h2, h3⟩)
        · exact Or.inl h
        · rcases List.mem_cons.mp hs with rfl | hs'
          · exact absurd hreb h1
          · exact Or.inr ⟨s, hs', h1, h2, h3⟩
    · rw [if_neg hreb]
      simp only []
      by_cases htag : getHoI4Tag sourceItr.1 ≠ ""
      · rw [if_pos htag]
        cases hp : sourceItr.2.rulingParty with
        | none => exact absurd hp (hparty sourceItr (List.mem_cons_self _ _))
        | some ideology =>
          simp only []
          obtain ⟨result, hres, hiff⟩ := ih hrest
            (StrMap.insert (getHoI4Tag sourceItr.1)
              (initFromV2Country (getHoI4Tag sourceItr.1) sourceItr.2 ideology) countries)
          refine ⟨result, hres, fun T => ?_⟩
          rw [hiff T, StrMap.find_insert_isSome]
          constructor
          · rintro ((h | h) | ⟨s, hs, h⟩)
            · exact Or.inr ⟨sourceItr, List.mem_cons_self _ _, hreb, h.symm, h ▸ htag⟩
            · exact Or.inl h
            · exact Or.inr ⟨s, List.mem_cons_of_mem _ hs, h⟩
          · rintro (h | ⟨s, hs, h1, h2, h3⟩)
            · exact Or.inl (Or.inr h)
            · rcases List.mem_cons.mp hs with rfl | hs'
              · exact Or.inl (Or.inl h2.symm)
              · exact Or.inr ⟨s, hs', h1, h2, h3⟩
      · rw [if_neg htag]
        obtain ⟨result, hres, hiff⟩ := ih hrest countries
        refine ⟨result, hres, fun T => ?_⟩
        rw [hiff T]
        constructor
        · rintro (h | ⟨s, hs, h⟩)
          · exact Or.inl h
          · exact Or.inr ⟨s, List.mem_cons_of_mem _ hs, h⟩
        · rintro (h | ⟨s, hs, h1, h2, h3⟩)
          · exact Or.inl h
          · rcases List.mem_cons.mp hs with rfl | hs'
            · exact absurd (h2 ▸ h3) htag
            · exact Or.inr ⟨s, hs', h1, h2, h3⟩

/-- A source country without a mapping is passed over: the loop gives what it
gives without that country, whatever stands before and after it. -/
theorem convertCountries_skip (getHoI4Tag : String → String)
    (initFromV2Country : String → V2Country → String → HoI4Country)
    (before after : List (String × V2Country)) (unmapped : String × V2Country)
    (hempty : getHoI4Tag unmapped.1 = "") (countries : StrMap HoI4Country) :
    convertCountries getHoI4Tag initFromV2Country (before ++ unmapped :: after) countries
      = convertCountries getHoI4Tag initFromV2Country (before ++ after) countries := by
  induction before generalizing countries with
  | nil =>
    simp only [List.nil_append]
    rw [convertCountries]
    simp only [hempty, ne_eq, not_true_eq_false, if_false, ite_self]
  | cons head rest ih =>
    simp only [List.cons_append]
    rw [convertCountries, convertCountries]
    simp only []
    by_cases hreb : head.1 = "REB"
    · rw [if_pos hreb, if_pos hreb]
      exact ih countries
    · rw [if_neg hreb, if_neg hreb]
      by_cases htag : getHoI4Tag head.1 ≠ ""
      · rw [if_pos htag, if_pos htag]
        cases head.2.rulingParty with
        | none => rfl
        | some ideology => exact ih _
      · rw [if_neg htag, if_neg htag]
        exact ih countries

/-- C11: when the ruling party of every source country resolves,
`convertCountries` ends without the exit, and the country map it builds from
the empty map has an entry for a tag T exactly when some source country with
a tag other than REB maps to T and T is not empty. A source country whose tag
has no mapping changes nothing: the result is the one obtained without that
country, so the countries after it are converted as before. -/
theorem convertCountries_entries (getHoI4Tag : String → String)
    (initFromV2Country : String → V2Country → String → HoI4Country)
    (sourceCountries : List (String × V2Country))
    (hparty : ∀ sourceItr ∈ sourceCountries, sourceItr.2.rulingParty ≠ none) :
    (∃ countries, convertCountries getHoI4Tag initFromV2Country sourceCountries []
        = some countries
      ∧ ∀ T, (StrMap.find T countries).isSome = true
          ↔ ∃ sourceItr ∈ sourceCountries,
              sourceItr.1 ≠ "REB" ∧ getHoI4Tag sourceItr.1 = T ∧ T ≠ "")
    ∧ (∀ before after unmapped, sourceCountries = before ++ unmapped :: after →
        getHoI4Tag unmapped.1 = "" →
        convertCountries getHoI4Tag initFromV2Country sourceCountries []
          = convertCountries getHoI4Tag initFromV2Country (before ++ after) []) := by
  refine ⟨?_, ?_⟩
  · obtain ⟨result, hres, hiff⟩ :=
      convertCountries_loop getHoI4Tag initFromV2Country sourceCountries hparty []
    refine ⟨result, hres, fun T => ?_⟩
    rw [hiff T]
    simp [StrMap.find]
  · intro before after unmapped heq hempty
    rw [heq]
    exact convertCountries_skip getHoI4Tag initFromV2Country before after unmapped hempty []

/-- The weight that `GetFactionStrengthWithDistance` gives to a member: 1 for
the home country, and for another country the multiplier of its distance. -/
theorem GetFactionStrengthWithDistance_sum (strengthOverTime : String → ℚ → ℚ)
    (distance : String → String → ℚ) (HomeCountry : String) (Faction : List String)
    (time : ℚ) :
    GetFactionStrengthWithDistance strengthOverTime distance HomeCountry Faction time
      = (Faction.map (fun member =>
          strengthOverTime member time
            * (if member = HomeCountry then 1
               else distanceMultiplier (distance HomeCountry member)))).sum := by
  unfold GetFactionStrengthWithDistance
  rw [foldl_add_eq_sum]
  simp only [zero_add]
  congr 1
  apply List.map_congr_left
  intro member _
  by_cases h : member = HomeCountry
  · simp only [h, if_true]
    have : distanceMultiplier 1 = 1 := by
      unfold distanceMultiplier
      norm_num
    rw [this]
  · simp only [h, if_false]

/-- The value of `HowToTakeLand` for two different countries: the third
comparison repeats the second one, so the branch that starts with
morealliesneeded always ends in coup. -/
theorem HowToTakeLand_eq (Factions : List HoI4Faction)
    (strengthOverTime : String → ℚ → ℚ) (distance : String → String → ℚ)
    (moreAllies : List String) (TargetCountry AttackingCountry : String) (time : ℚ)
    (hne : TargetCountry ≠ AttackingCountry) :
    HowToTakeLand Factions strengthOverTime distance moreAllies TargetCountry
        AttackingCountry time
      = if strengthOverTime AttackingCountry time
            ≥ GetFactionStrength strengthOverTime (findFaction Factions TargetCountry)
                (truncToInt time) then "noactionneeded"
        else if GetFactionStrengthWithDistance strengthOverTime distance AttackingCountry
              (findFaction Factions AttackingCountry).members time
            ≥ GetFactionStrengthWithDistance strengthOverTime distance TargetCountry
                (findFaction Factions TargetCountry).members time then "factionneeded"
        else "coup" := by
  unfold HowToTakeLand
  simp only [if_pos hne]
  split_ifs <;> rfl

/-- The value of `HowToTakeLand` when the target is the attacker. -/
theorem HowToTakeLand_same (Factions : List HoI4Faction)
    (strengthOverTime : String → ℚ → ℚ) (distance : String → String → ℚ)
    (moreAllies : List String) (country : String) (time : ℚ) :
    HowToTakeLand Factions strengthOverTime distance moreAllies country country time = "" := by
  unfold HowToTakeLand
  simp

/-- The strengths that `HowToTakeLand` compares in the worked example of the
pool of allies, where no faction exists, GER attacks FRA, and ITA is the pool
at the distance 400. -/
theorem poolExample_values :
    GetFactionStrength poolStrength (findFaction [] "FRA") (truncToInt 1) = 10
    ∧ GetFactionStrengthWithDistance poolStrength exampleDistance "GER"
        (findFaction [] "GER").members 1 = 5
    ∧ GetFactionStrengthWithDistance poolStrength exampleDistance "FRA"
        (findFaction [] "FRA").members 1 = 10
    ∧ GetFactionStrengthWithDistance poolStrength exampleDistance "GER" ["ITA"] 1 = 9 := by
  have h1 : ¬ ("GER" = "FRA") := by decide
  have h2 : ¬ ("GER" = "ITA") := by decide
  have h3 : ¬ ("ITA" = "FRA") := by decide
  have h4 : ¬ ("ITA" = "GER") := by decide
  have hF : findFaction [] "FRA" = { leader := "FRA", members := ["FRA"] } := rfl
  have hG : findFaction [] "GER" = { leader := "GER", members := ["GER"] } := rfl
  refine ⟨?_, ?_, ?_, ?_⟩
  · rw [GetFactionStrength_eq_sum, hF]
    simp [poolStrength]
  · rw [GetFactionStrengthWithDistance_sum, hG]
    simp [poolStrength, h1, h2]
  · rw [GetFactionStrengthWithDistance_sum, hF]
    simp [poolStrength]
  · rw [GetFactionStrengthWithDistance_sum]
    simp only [List.map, List.sum_cons, List.sum_nil, poolStrength, if_neg h3, if_neg h4,
      if_true, exampleDistance, distanceMultiplier]
    norm_num

/-- C12, counterexample: called with GER as target and as attacker,
`HowToTakeLand` returns the empty text, which is none of the four outcomes.
And with GER attacking FRA, where GER alone (5) is weaker than the faction of
FRA (10), the faction of GER (5) is weaker than the faction of FRA (10), and
the pool ITA (9 at its distance) closes the gap, it returns coup and not
morealliesneeded. -/
theorem HowToTakeLand_counterexample :
    HowToTakeLand [] poolStrength exampleDistance ["ITA"] "GER" "GER" 1
        ∉ ["noactionneeded", "factionneeded", "morealliesneeded", "coup"]
    ∧ poolStrength "GER" 1
        < GetFactionStrength poolStrength (findFaction [] "FRA") (truncToInt 1)
    ∧ GetFactionStrengthWithDistance poolStrength exampleDistance "GER"
          (findFaction [] "GER").members 1
        < GetFactionStrengthWithDistance poolStrength exampleDistance "FRA"
            (findFaction [] "FRA").members 1
    ∧ GetFactionStrengthWithDistance poolStrength exampleDistance "GER"
          (findFaction [] "GER").members 1
        + GetFactionStrengthWithDistance poolStrength exampleDistance "GER" ["ITA"] 1
        ≥ GetFactionStrengthWithDistance poolStrength exampleDistance "FRA"
            (findFaction [] "FRA").members 1
    ∧ HowToTakeLand [] poolStrength exampleDistance ["ITA"] "FRA" "GER" 1 = "coup" := by
  obtain ⟨hv1, hv2, hv3, hv4⟩ := poolExample_values
  have hG : poolStrength "GER" 1 = 5 := by
    have h1 : ¬ ("GER" = "FRA") := by decide
    have h2 : ¬ ("GER" = "ITA") := by decide
    simp [poolStrength, h1, h2]
  refine ⟨?_, ?_, ?_, ?_, ?_⟩
  · rw [HowToTakeLand_same]
    decide
  · rw [hv1, hG]
    norm_num
  · rw [hv2, hv3]
    norm_num
  · rw [hv2, hv3, hv4]
    norm_num
  · rw [HowToTakeLand_eq _ _ _ _ _ _ _ (by decide), hv1, hv2, hv3, hG]
    norm_num

/-- C12, amended: for an attacker and a target that are different countries
`HowToTakeLand` returns one of the four outcomes noactionneeded,
factionneeded, morealliesneeded and coup, and for one and the same country it
returns the empty text. When the attacker alone is weaker than the faction of
the target, the faction of the attacker weighted by distance is weaker than
the faction of the target weighted by distance, and the pool of
`GetMorePossibleAllies` does not close the gap, it returns coup. -/
theorem HowToTakeLand_outcomes (Factions : List HoI4Faction)
    (strengthOverTime : String → ℚ → ℚ) (distance : String → String → ℚ)
    (moreAllies : List String) (TargetCountry AttackingCountry : String) (time : ℚ) :
    (TargetCountry ≠ AttackingCountry →
      HowToTakeLand Factions strengthOverTime distance moreAllies TargetCountry
          AttackingCountry time
        ∈ ["noactionneeded", "factionneeded", "morealliesneeded", "coup"])
    ∧ (TargetCountry = AttackingCountry →
        HowToTakeLand Factions strengthOverTime distance moreAllies TargetCountry
          AttackingCountry time = "")
    ∧ (TargetCountry ≠ AttackingCountry →
        strengthOverTime AttackingCountry time
          < GetFactionStrength strengthOverTime (findFaction Factions TargetCountry)
              (truncToInt time) →
        GetFactionStrengthWithDistance strengthOverTime distance AttackingCountry
            (findFaction Factions AttackingCountry).members time
          < GetFactionStrengthWithDistance strengthOverTime distance TargetCountry
              (findFaction Factions TargetCountry).members time →
        GetFactionStrengthWithDistance strengthOverTime distance AttackingCountry
            (findFaction Factions AttackingCountry).members time
          + GetFactionStrengthWithDistance strengthOverTime distance AttackingCountry
              moreAllies time
          < GetFactionStrengthWithDistance strengthOverTime distance TargetCountry
              (findFaction Factions TargetCountry).members time →
        HowToTakeLand Factions strengthOverTime distance moreAllies TargetCountry
          AttackingCountry time = "coup") := by
  refine ⟨?_, ?_, ?_⟩
  · intro hne
    rw [HowToTakeLand_eq _ _ _ _ _ _ _ hne]
    split_ifs <;> simp
  · intro heq
    rw [heq]
    exact HowToTakeLand_same _ _ _ _ _ _
  · intro hne h1 h2 _
    rw [HowToTakeLand_eq _ _ _ _ _ _ _ hne, if_neg (not_le.mpr h1), if_neg (not_le.mpr h2)]

/-- Witness of C12: without any faction and without a pool, GER (5) can not
take FRA (10) and is left with a coup. -/
theorem HowToTakeLand_outcomes_witness :
    HowToTakeLand [] poolStrength exampleDistance [] "FRA" "GER" 1 = "coup" := by
  obtain ⟨hv1, hv2, hv3, _⟩ := poolExample_values
  have hG : poolStrength "GER" 1 = 5 := by
    have h1 : ¬ ("GER" = "FRA") := by decide
    have h2 : ¬ ("GER" = "ITA") := by decide
    simp [poolStrength, h1, h2]
  apply (HowToTakeLand_outcomes [] poolStrength exampleDistance [] "FRA" "GER" 1).2.2
    (by decide)
  · rw [hv1, hG]
    norm_num
  · rw [hv2, hv3]
    norm_num
  · rw [hv2, hv3]
    norm_num [GetFactionStrengthWithDistance]

/-- C13: when some faction of the list has the country among its members,
`findFaction` returns the first such faction of the list; when none has, it
returns a faction led by the country whose member list is the country alone,
and this faction is not an element of the list, which the function leaves as
it is. In both cases the country is a member of the faction returned. -/
theorem findFaction_spec (Factions : List HoI4Faction) (c : String) :
    ((∃ faction ∈ Factions, c ∈ faction.members) →
      ∃ before after, Factions = before ++ findFaction Factions c :: after
        ∧ c ∈ (findFaction Factions c).members
        ∧ ∀ faction ∈ before, c ∉ faction.members)
    ∧ ((∀ faction ∈ Factions, c ∉ faction.members) →
        findFaction Factions c = { leader := c, members := [c] }
        ∧ findFaction Factions c ∉ Factions)
    ∧ c ∈ (findFaction Factions c).members := by
  have hsome : ∀ faction, Factions.find? (fun faction => decide (c ∈ faction.members))
      = some faction → findFaction Factions c = faction := by
    intro faction h
    unfold findFaction
    rw [h]
  have hnone : Factions.find? (fun faction => decide (c ∈ faction.members)) = none →
      findFaction Factions c = { leader := c, members := [c] } := by
    intro h
    unfold findFaction
    rw [h]
  refine ⟨?_, ?_, ?_⟩
  · rintro ⟨faction, hmem, hc⟩
    cases hfind : Factions.find? (fun faction => decide (c ∈ faction.members)) with
    | none =>
      rw [List.find?_eq_none] at hfind
      exact absurd hc (by simpa using hfind faction hmem)
    | some found =>
      rw [hsome found hfind]
      rw [List.find?_eq_some] at hfind
      obtain ⟨hfound, before, after, heq, hbefore⟩ := hfind
      refine ⟨before, after, heq, by simpa using hfound, ?_⟩
      intro f hf
      simpa using hbefore f hf
  · intro hall
    have hfind : Factions.find? (fun faction => decide (c ∈ faction.members)) = none := by
      rw [List.find?_eq_none]
      intro f hf
      simpa using hall f hf
    rw [hnone hfind]
    refine ⟨rfl, ?_⟩
    intro hmem
    exact hall _ hmem (by simp)
  · cases hfind : Factions.find? (fun faction => decide (c ∈ faction.members)) with
    | none =>
      rw [hnone hfind]
      simp
    | some found =>
      rw [hsome found hfind]
      have := List.find?_some hfind
      simpa using this

/-- C18: `GetFactionStrengthWithDistance` returns the sum over the members of
the strength at the time given multiplied by a weight. The weight is 1 for the
home country; for another member it follows from the distance d to the home
country: 1 below 300, 0.9 below 500, 0.8 below 750, 0.7 below 1000, 0.5 below
1500, 0.3 below 2000 and 0.2 from there on. When the home country or the
member has no capital, `getDistanceBetweenCountries` gives 100000, and the
weight of such a member, if it is not the home country, is 0.2. -/
theorem GetFactionStrengthWithDistance_weights (strengthOverTime : String → ℚ → ℚ)
    (distance : String → String → ℚ) (HomeCountry : String) (Faction : List String)
    (time : ℚ) :
    GetFactionStrengthWithDistance strengthOverTime distance HomeCountry Faction time
      = (Faction.map (fun member =>
          strengthOverTime member time
            * (if member = HomeCountry then 1
               else if distance HomeCountry member < 300 then 1
               else if distance HomeCountry member < 500 then 9 / 10
               else if distance HomeCountry member < 750 then 8 / 10
               else if distance HomeCountry member < 1000 then 7 / 10
               else if distance HomeCountry member < 1500 then 5 / 10
               else if distance HomeCountry member < 2000 then 3 / 10
               else 2 / 10))).sum
    ∧ (∀ (sqrt : Int → ℚ) (getCapitalProv : String → Int)
        (getCapitalPosition : String → Int × Int) (member : String),
        getCapitalProv HomeCountry = 0 ∨ getCapitalProv member = 0 →
        getDistanceBetweenCountries sqrt getCapitalProv getCapitalPosition HomeCountry member
          = 100000)
    ∧ (∀ (sqrt : Int → ℚ) (getCapitalProv : String → Int)
        (getCapitalPosition : String → Int × Int) (member : String),
        member ≠ HomeCountry → getCapitalProv member = 0 →
        GetFactionStrengthWithDistance strengthOverTime
            (getDistanceBetweenCountries sqrt getCapitalProv getCapitalPosition)
            HomeCountry [member] time
          = strengthOverTime member time * (2 / 10)) := by
  have hsentinel : ∀ (sqrt : Int → ℚ) (getCapitalProv : String → Int)
      (getCapitalPosition : String → Int × Int) (member : String),
      getCapitalProv HomeCountry = 0 ∨ getCapitalProv member = 0 →
      getDistanceBetweenCountries sqrt getCapitalProv getCapitalPosition HomeCountry member
        = 100000 := by
    intro sqrt getCapitalProv getCapitalPosition member h
    unfold getDistanceBetweenCountries bothCountriesHaveCapitals
    rcases h with h | h <;> simp [h]
  refine ⟨?_, hsentinel, ?_⟩
  · rw [GetFactionStrengthWithDistance_sum]
    rfl
  · intro sqrt getCapitalProv getCapitalPosition member hne hcap
    rw [GetFactionStrengthWithDistance_sum]
    simp only [List.map, List.sum_cons, List.sum_nil, if_neg hne, add_zero]
    rw [hsentinel sqrt getCapitalProv getCapitalPosition member (Or.inr hcap)]
    unfold distanceMultiplier
    norm_num

/-- Witness of C18: ITA has no capital, so as a member of a faction seen from
GER it counts for 0.2 of its strength. -/
theorem GetFactionStrengthWithDistance_weights_witness :
    GetFactionStrengthWithDistance exampleStrength
        (getDistanceBetweenCountries exampleSqrt exampleCapitalProv exampleCapitalPosition)
        "GER" ["ITA"] 1
      = exampleStrength "ITA" 1 * (2 / 10) :=
  (GetFactionStrengthWithDistance_weights exampleStrength exampleDistance "GER" [] 1).2.2
    exampleSqrt exampleCapitalProv exampleCapitalPosition "ITA" (by decide) (by decide)

/-- Witness of C13: GER is in no faction of the list, and the faction returned
for it is GER alone. -/
theorem findFaction_spec_witness :
    findFaction [{ leader := "FRA", members := ["FRA", "BEL"] }] "GER"
      = { leader := "GER", members := ["GER"] } :=
  ((findFaction_spec [{ leader := "FRA", members := ["FRA", "BEL"] }] "GER").2.1
    (by decide)).1

/-- Witness of C11: ENG has no mapping and PRU maps to GER; with the ruling
parties of both resolved, the conversion of the two gives what the conversion
of PRU alone gives. -/
theorem convertCountries_entries_witness :
    convertCountries exampleGetHoI4Tag exampleInitFromV2Country
        [("ENG", { name := "England", rulingParty := some "liberal" }),
         ("PRU", { name := "Prussia", rulingParty := some "conservative" })] []
      = convertCountries exampleGetHoI4Tag exampleInitFromV2Country
          [("PRU", { name := "Prussia", rulingParty := some "conservative" })] [] :=
  (convertCountries_entries exampleGetHoI4Tag exampleInitFromV2Country
      [("ENG", { name := "England", rulingParty := some "liberal" }),
       ("PRU", { name := "Prussia", rulingParty := some "conservative" })]
      (by decide)).2
    [] [("PRU", { name := "Prussia", rulingParty := some "conservative" })]
    ("ENG", { name := "England", rulingParty := some "liberal" }) rfl (by decide)

/-- The condition of `GetMorePossibleAllies` is the one of `CreateFactions`
with one more pair let through: fascism with hms_government. -/
theorem possibleGovernmentMatch_eq (yourgovernment allygovernment : String) :
    possibleGovernmentMatch yourgovernment allygovernment
      = (factionGovernmentMatch yourgovernment allygovernment
          || (yourgovernment == "fascism" && allygovernment == "hms_government")) := by
  unfold possibleGovernmentMatch factionGovernmentMatch factionGovernmentTable
  cases (yourgovernment == "fascism") <;> cases (allygovernment == "hms_government") <;>
    simp [Bool.or_assoc]

/-- C16, the behaviour of the code: for the requester government fascism and
the candidate government hms_government the condition of
`GetMorePossibleAllies` holds and the government condition of
`CreateFactions` does not; on every other pair of governments the two
conditions agree. -/
theorem governmentMatch_differs :
    possibleGovernmentMatch "fascism" "hms_government" = true
    ∧ factionGovernmentMatch "fascism" "hms_government" = false
    ∧ ∀ yourgovernment allygovernment : String,
        possibleGovernmentMatch yourgovernment allygovernment
            ≠ factionGovernmentMatch yourgovernment allygovernment
          ↔ yourgovernment = "fascism" ∧ allygovernment = "hms_government" := by
  refine ⟨by decide, by decide, ?_⟩
  intro yourgovernment allygovernment
  constructor
  · intro hne
    rw [possibleGovernmentMatch_eq] at hne
    by_contra hcon
    apply hne
    have : (yourgovernment == "fascism" && allygovernment == "hms_government") = false := by
      rw [Bool.and_eq_false_iff]
      by_cases h : yourgovernment = "fascism"
      · right
        simpa using fun h2 => hcon ⟨h, h2⟩
      · left
        simpa using h
    rw [this, Bool.or_false]
  · rintro ⟨rfl, rfl⟩
    decide

/-- One core of one province: the invariant stays, and the tags called are
the ones called before and the core, if it is not the owner and is a key of
the country map. -/
theorem lowerNeutralityForCore_spec (countries : List String) (province : Int × HoI4Province)
    (state : StrMap String × List (String × ℚ)) (core : String)
    (hinv : NeutralityInvariant state) :
    NeutralityInvariant (lowerNeutralityForCore countries province state core)
    ∧ ∀ c, c ∈ (lowerNeutralityForCore countries province state core).2.map Prod.fst
        ↔ c ∈ state.2.map Prod.fst
          ∨ (c = core ∧ province.2.owner ≠ core ∧ core ∈ countries) := by
  obtain ⟨hmap, hnodup, hamount⟩ := hinv
  unfold lowerNeutralityForCore
  by_cases howner : province.2.owner ≠ core
  · rw [if_pos howner]
    cases hfind : StrMap.find core state.1 with
    | some found =>
      simp only []
      refine ⟨⟨hmap, hnodup, hamount⟩, fun c => ?_⟩
      constructor
      · exact Or.inl
      · rintro (h | ⟨rfl, _, _⟩)
        · exact h
        · exact (hmap c).mp (by rw [hfind]; rfl)
    | none =>
      simp only []
      by_cases hcountry : core ∈ countries
      · rw [if_pos hcountry]
        have hnot : core ∉ state.2.map Prod.fst := by
          intro hmem
          have := (hmap core).mpr hmem
          rw [hfind] at this
          exact absurd this (by simp)
        refine ⟨⟨?_, ?_, ?_⟩, fun c => ?_⟩
        · intro c
          rw [StrMap.find_insert_isSome, hmap c]
          simp only [List.map_append, List.map_cons, List.map_nil, List.mem_append,
            List.mem_singleton]
          tauto
        · simp only [List.map_append, List.map_cons, List.map_nil]
          rw [List.nodup_append]
          refine ⟨hnodup, List.nodup_singleton _, ?_⟩
          intro a ha hb
          rw [List.mem_singleton] at hb
          exact hnot (hb ▸ ha)
        · intro call hcall
          rcases List.mem_append.mp hcall with h | h
          · exact hamount call h
          · rw [List.mem_singleton] at h
            rw [h]
        · simp only [List.map_append, List.map_cons, List.map_nil, List.mem_append,
            List.mem_singleton]
          constructor
          · rintro (h | h)
            · exact Or.inl h
            · exact Or.inr ⟨h, howner, hcountry⟩
          · rintro (h | ⟨h, _, _⟩)
            · exact Or.inl h
            · exact Or.inr h
      · rw [if_neg hcountry]
        refine ⟨⟨hmap, hnodup, hamount⟩, fun c => ?_⟩
        constructor
        · exact Or.inl
        · rintro (h | ⟨_, _, h⟩)
          · exact h
          · exact absurd h hcountry
  · rw [if_neg howner]
    refine ⟨⟨hmap, hnodup, hamount⟩, fun c => ?_⟩
    constructor
    · exact Or.inl
    · rintro (h | ⟨_, h, _⟩)
      · exact h
      · exact absurd h howner

/-- The cores of one province: the invariant stays, and the tags called are
the ones called before and the cores that are not the owner and are keys of
the country map. -/
theorem lowerNeutrality_cores (countries : List String) (province : Int × HoI4Province)
    (cores : List String) (state : StrMap String × List (String × ℚ))
    (hinv : NeutralityInvariant state) :
    NeutralityInvariant (cores.foldl (lowerNeutralityForCore countries province) state)
    ∧ ∀ c, c ∈ (cores.foldl (lowerNeutralityForCore countries province) state).2.map Prod.fst
        ↔ c ∈ state.2.map Prod.fst
          ∨ (c ∈ cores ∧ province.2.owner ≠ c ∧ c ∈ countries) := by
  induction cores generalizing state with
  | nil => exact ⟨hinv, fun c => by simp⟩
  | cons core rest ih =>
    obtain ⟨hinv1, hmem1⟩ := lowerNeutralityForCore_spec countries province state core hinv
    obtain ⟨hinv2, hmem2⟩ := ih _ hinv1
    refine ⟨hinv2, fun c => ?_⟩
    rw [List.foldl, hmem2 c, hmem1 c]
    simp only [List.mem_cons]
    constructor
    · rintro ((h | ⟨rfl, h1, h2⟩) | ⟨h1, h2, h3⟩)
      · exact Or.inl h
      · exact Or.inr ⟨Or.inl rfl, h1, h2⟩
      · exact Or.inr ⟨Or.inr h1, h2, h3⟩
    · rintro (h | ⟨rfl | h1, h2, h3⟩)
      · exact Or.inl (Or.inl h)
      · exact Or.inl (Or.inr ⟨rfl, h2, h3⟩)
      · exact Or.inr ⟨h1, h2, h3⟩

/-- All provinces: the invariant stays, and the tags called are the ones
called before and the keys of the country map that are a core of a province
owned by another tag. -/
theorem lowerNeutrality_provinces (countries : List String)
    (provinces : List (Int × HoI4Province)) (state : StrMap String × List (String × ℚ))
    (hinv : NeutralityInvariant state) :
    NeutralityInvariant
      (provinces.foldl
        (fun state province =>
          province.2.cores.foldl (lowerNeutralityForCore countries province) state) state)
    ∧ ∀ c, c ∈ (provinces.foldl
          (fun state province =>
            province.2.cores.foldl (lowerNeutralityForCore countries province) state)
          state).2.map Prod.fst
        ↔ c ∈ state.2.map Prod.fst
          ∨ (c ∈ countries
              ∧ ∃ province ∈ provinces, c ∈ province.2.cores ∧ province.2.owner ≠ c) := by
  induction provinces generalizing state with
  | nil => exact ⟨hinv, fun c => by simp⟩
  | cons province rest ih =>
    obtain ⟨hinv1, hmem1⟩ :=
      lowerNeutrality_cores countries province province.2.cores state hinv
    obtain ⟨hinv2, hmem2⟩ := ih _ hinv1
    refine ⟨hinv2, fun c => ?_⟩
    rw [List.foldl, hmem2 c, hmem1 c]
    constructor
    · rintro ((h | ⟨h1, h2, h3⟩) | ⟨h1, p, hp, h2, h3⟩)
      · exact Or.inl h
      · exact Or.inr ⟨h3, province, List.mem_cons_self _ _, h1, h2⟩
      · exact Or.inr ⟨h1, p, List.mem_cons_of_mem _ hp, h2, h3⟩
    · rintro (h | ⟨h1, p, hp, h2, h3⟩)
      · exact Or.inl (Or.inl h)
      · rcases List.mem_cons.mp hp with rfl | hp'
        · exact Or.inl (Or.inr ⟨h2, h3, h1⟩)
        · exact Or.inr ⟨h1, p, hp', h2, h3⟩

/-- In a list of calls without a repeated tag and with the amount 20
throughout, the calls for one tag are a single call of 20 when the tag occurs
and none when it does not. -/
theorem calls_filter (calls : List (String × ℚ)) (c : String)
    (hnodup : (calls.map Prod.fst).Nodup) (hamount : ∀ call ∈ calls, call.2 = 20) :
    (c ∈ calls.map Prod.fst → calls.filter (fun call => decide (call.1 = c)) = [(c, 20)])
    ∧ (c ∉ calls.map Prod.fst → calls.filter (fun call => decide (call.1 = c)) = []) := by
  induction calls with
  | nil => simp
  | cons call rest ih =>
    rw [List.map_cons, List.nodup_cons] at hnodup
    obtain ⟨hhead, htail⟩ := hnodup
    obtain ⟨ih1, ih2⟩ := ih htail (fun x hx => hamount x (List.mem_cons_of_mem _ hx))
    have h20 : call.2 = 20 := hamount call (List.mem_cons_self _ _)
    by_cases hc : call.1 = c
    · have hnot : c ∉ rest.map Prod.fst := hc ▸ hhead
      refine ⟨fun _ => ?_, fun h => absurd (by simp [hc]) h⟩
      rw [List.filter_cons_of_pos (by simpa using hc), ih2 hnot]
      obtain ⟨tag, amount⟩ := call
      simp only at hc h20
      rw [hc, h20]
    · refine ⟨fun h => ?_, fun h => ?_⟩
      · rw [List.filter_cons_of_neg (by simpa using hc)]
        apply ih1
        rcases List.mem_cons.mp h with h | h
        · exact absurd h.symm hc
        · exact h
      · rw [List.filter_cons_of_neg (by simpa using hc)]
        apply ih2
        intro hmem
        exact h (List.mem_cons_of_mem _ hmem)

/-- C19: `convertDiplomacy` calls `lowerNeutrality` for a country c once, with
the amount 20, when c is a key of the country map and some province has c among
its cores and is owned by another tag, however many such provinces there are;
it makes no call for c otherwise. -/
theorem lowerNeutrality_once (countries : List String)
    (provinces : List (Int × HoI4Province)) (c : String) :
    ((c ∈ countries ∧ ∃ province ∈ provinces, c ∈ province.2.cores ∧ province.2.owner ≠ c) →
      (lowerNeutralityCalls countries provinces).filter (fun call => decide (call.1 = c))
        = [(c, 20)])
    ∧ (¬ (c ∈ countries
          ∧ ∃ province ∈ provinces, c ∈ province.2.cores ∧ province.2.owner ≠ c) →
      (lowerNeutralityCalls countries provinces).filter (fun call => decide (call.1 = c))
        = []) := by
  have hinit : NeutralityInvariant (([], []) : StrMap String × List (String × ℚ)) :=
    ⟨fun c => by simp [StrMap.find], by simp, by simp⟩
  obtain ⟨⟨_, hnodup, hamount⟩, hmem⟩ :=
    lowerNeutrality_provinces countries provinces ([], []) hinit
  obtain ⟨h1, h2⟩ := calls_filter _ c hnodup hamount
  refine ⟨fun h => h1 ((hmem c).mpr (Or.inr h)), fun h => h2 ?_⟩
  intro hc
  rcases (hmem c).mp hc with h' | h'
  · simp at h'
  · exact h h'

/-- Witness of C19: GER is in the country map and has a core in the provinces
1 and 2, both owned by FRA; its neutrality is lowered once, by 20. -/
theorem lowerNeutrality_once_witness :
    (lowerNeutralityCalls ["FRA", "GER"]
        [(1, { owner := "FRA", cores := ["FRA", "GER"] }),
         (2, { owner := "FRA", cores := ["GER"] })]).filter
      (fun call => decide (call.1 = "GER")) = [("GER", 20)] :=
  (lowerNeutrality_once ["FRA", "GER"]
      [(1, { owner := "FRA", cores := ["FRA", "GER"] }),
       (2, { owner := "FRA", cores := ["GER"] })] "GER").1
    ⟨by decide, (1, { owner := "FRA", cores := ["FRA", "GER"] }), by decide, by decide,
      by decide⟩

/-- C20, counterexample: the state 7 has the provinces 1, 2 and 3; province 1
lies in the supply zone 10 and the provinces 2 and 3 lie in the supply zone
20, so zone 20 holds the largest number of its provinces, two against one.
`convertSupplyZones` adds the state to zone 10, the zone of its first
province, and not to zone 20. -/
theorem convertSupplyZones_counterexample :
    provincesInZone [(1, 10), (2, 20), (3, 20)] [1, 2, 3] 20 = 2
    ∧ provincesInZone [(1, 10), (2, 20), (3, 20)] [1, 2, 3] 10 = 1
    ∧ convertSupplyZones [(1, 10), (2, 20), (3, 20)] [10, 20] [(7, [1, 2, 3])] = [(10, 7)]
    ∧ (20, 7) ∉ convertSupplyZones [(1, 10), (2, 20), (3, 20)] [10, 20] [(7, [1, 2, 3])] := by
  decide

/-- The province on which the inner loop of `convertSupplyZones` stops: the
first one that the map sends to a supply zone that exists. -/
theorem supplyZoneOfState_eq_some (provinceToSupplyZoneMap : List (Int × Int))
    (supplyZones : List Int) (provinces : List Int) (zone : Int) :
    supplyZoneOfState provinceToSupplyZoneMap supplyZones provinces = some zone
      ↔ ∃ before province after, provinces = before ++ province :: after
          ∧ IntMap.find province provinceToSupplyZoneMap = some zone
          ∧ zone ∈ supplyZones
          ∧ ∀ earlier ∈ before, ∀ z,
              IntMap.find earlier provinceToSupplyZoneMap = some z → z ∉ supplyZones := by
  induction provinces with
  | nil => simp [supplyZoneOfState]
  | cons first rest ih =>
    unfold supplyZoneOfState
    cases hfind : IntMap.find first provinceToSupplyZoneMap with
    | none =>
      simp only []
      rw [ih]
      constructor
      · rintro ⟨before, province, after, heq, h1, h2, h3⟩
        refine ⟨first :: before, province, after, by simp [heq], h1, h2, ?_⟩
        intro earlier hearlier z hz
        rcases List.mem_cons.mp hearlier with rfl | hmem
        · rw [hfind] at hz
          exact absurd hz (by simp)
        · exact h3 earlier hmem z hz
      · rintro ⟨before, province, after, heq, h1, h2, h3⟩
        cases before with
        | nil =>
          simp only [List.nil_append, List.cons.injEq] at heq
          rw [← heq.1, hfind] at h1
          exact absurd h1 (by simp)
        | cons b bs =>
          simp only [List.cons_append, List.cons.injEq] at heq
          exact ⟨bs, province, after, heq.2, h1, h2,
            fun earlier hearlier => h3 earlier (List.mem_cons_of_mem _ hearlier)⟩
    | some firstZone =>
      simp only []
      by_cases hzone : firstZone ∈ supplyZones
      · rw [if_pos hzone]
        constructor
        · intro h
          have hz : firstZone = zone := by simpa using h
          exact ⟨[], first, rest, rfl, by rw [hfind, hz], hz ▸ hzone, by simp⟩
        · rintro ⟨before, province, after, heq, h1, h2, h3⟩
          cases before with
          | nil =>
            simp only [List.nil_append, List.cons.injEq] at heq
            rw [← heq.1, hfind] at h1
            exact h1
          | cons b bs =>
            simp only [List.cons_append, List.cons.injEq] at heq
            have := h3 b (List.mem_cons_self _ _) firstZone (by rw [← heq.1, hfind])
            exact absurd hzone this
      · rw [if_neg hzone, ih]
        constructor
        · rintro ⟨before, province, after, heq, h1, h2, h3⟩
          refine ⟨first :: before, province, after, by simp [heq], h1, h2, ?_⟩
          intro earlier hearlier z hz
          rcases List.mem_cons.mp hearlier with rfl | hmem
          · rw [hfind] at hz
            have : firstZone = z := by simpa using hz
            exact this ▸ hzone
          · exact h3 earlier hmem z hz
        · rintro ⟨before, province, after, heq, h1, h2, h3⟩
          cases before with
          | nil =>
            simp only [List.nil_append, List.cons.injEq] at heq
            rw [← heq.1, hfind] at h1
            have : firstZone = zone := by simpa using h1
            exact absurd (this ▸ h2) hzone
          | cons b bs =>
            simp only [List.cons_append, List.cons.injEq] at heq
            exact ⟨bs, province, after, heq.2, h1, h2,
              fun earlier hearlier => h3 earlier (List.mem_cons_of_mem _ hearlier)⟩

/-- The calls that the outer loop of `convertSupplyZones` makes, from the
calls made before it. -/
theorem convertSupplyZones_foldl (provinceToSupplyZoneMap : List (Int × Int))
    (supplyZones : List Int) (states : List (Int × List Int)) (calls : List (Int × Int)) :
    states.foldl
        (fun calls state =>
          match supplyZoneOfState provinceToSupplyZoneMap supplyZones state.2 with
          | some zone => calls ++ [(zone, state.1)]
          | none => calls)
        calls
      = calls ++ states.filterMap (fun state =>
          (supplyZoneOfState provinceToSupplyZoneMap supplyZones state.2).map
            (fun zone => (zone, state.1))) := by
  induction states generalizing calls with
  | nil => simp
  | cons state rest ih =>
    rw [List.foldl, ih]
    cases h : supplyZoneOfState provinceToSupplyZoneMap supplyZones state.2 with
    | none => simp [List.filterMap_cons, h]
    | some zone => simp [List.filterMap_cons, h]

/-- C20, amended: `convertSupplyZones` adds each state to at most one supply
zone, the zone of the first of its provinces, in ascending order of the
province numbers, that the province-to-supply-zone map sends to a supply
zone that exists; a state without such a province is added to no zone. The
number of provinces that a zone holds plays no part. -/
theorem convertSupplyZones_first_province (provinceToSupplyZoneMap : List (Int × Int))
    (supplyZones : List Int) (states : List (Int × List Int)) :
    convertSupplyZones provinceToSupplyZoneMap supplyZones states
      = states.filterMap (fun state =>
          (supplyZoneOfState provinceToSupplyZoneMap supplyZones state.2).map
            (fun zone => (zone, state.1)))
    ∧ ∀ (provinces : List Int) (zone : Int),
        supplyZoneOfState provinceToSupplyZoneMap supplyZones provinces = some zone
          ↔ ∃ before province after, provinces = before ++ province :: after
              ∧ IntMap.find province provinceToSupplyZoneMap = some zone
              ∧ zone ∈ supplyZones
              ∧ ∀ earlier ∈ before, ∀ z,
                  IntMap.find earlier provinceToSupplyZoneMap = some z → z ∉ supplyZones := by
  refine ⟨?_, supplyZoneOfState_eq_some provinceToSupplyZoneMap supplyZones⟩
  have h := convertSupplyZones_foldl provinceToSupplyZoneMap supplyZones states []
  rw [List.nil_append] at h
  exact h

/-- The loop over a list of allies appends the joining allies to each of the
three vectors. -/
theorem addAllies_foldl (countries : StrMap HoI4Country) (GreatCountries : List HoI4Country)
    (country : HoI4Country) (allies : List String) (state : FactionLoopState) :
    allies.foldl
        (fun state ally =>
          match StrMap.find ally countries with
          | some allycountry =>
              if allyJoinsFaction countries GreatCountries country allycountry then
                { Faction := state.Faction ++ [allycountry.tag]
                  usedCountries := state.usedCountries ++ [allycountry.tag]
                  alreadyAllied := state.alreadyAllied ++ [allycountry.tag] }
              else state
          | none => state)
        state
      = { Faction := state.Faction ++ joiningAllies countries GreatCountries country allies
          usedCountries :=
            state.usedCountries ++ joiningAllies countries GreatCountries country allies
          alreadyAllied :=
            state.alreadyAllied ++ joiningAllies countries GreatCountries country allies } := by
  induction allies generalizing state with
  | nil => simp [joiningAllies]
  | cons ally rest ih =>
    rw [List.foldl, ih]
    cases hfind : StrMap.find ally countries with
    | none => simp [joiningAllies, List.filterMap_cons, hfind]
    | some allycountry =>
      by_cases hjoin : allyJoinsFaction countries GreatCountries country allycountry = true
      · simp [joiningAllies, List.filterMap_cons, hfind, hjoin]
      · simp [joiningAllies, List.filterMap_cons, hfind, hjoin]

/-- The value of `addAlliesToFaction`. -/
theorem addAlliesToFaction_eq (countries : StrMap HoI4Country)
    (GreatCountries : List HoI4Country) (country : HoI4Country) (state : FactionLoopState) :
    addAlliesToFaction countries GreatCountries country state
      = { Faction :=
            state.Faction ++ joiningAllies countries GreatCountries country country.allies
          usedCountries :=
            state.usedCountries
              ++ joiningAllies countries GreatCountries country country.allies
          alreadyAllied :=
            state.alreadyAllied
              ++ joiningAllies countries GreatCountries country country.allies } :=
  addAllies_foldl countries GreatCountries country country.allies state

/-- The body of the outer loop of `CreateFactions`: a great power whose tag is
in neither vector opens a faction made of itself and its joining allies, and
any other great power changes nothing. -/
theorem createFactionOf_eq (countries : StrMap HoI4Country)
    (GreatCountries : List HoI4Country) (state : CreateFactionsState) (country : HoI4Country) :
    createFactionOf countries GreatCountries state country
      = if country.tag ∉ state.usedCountries ∧ country.tag ∉ state.alreadyAllied then
          { Factions2 :=
              state.Factions2 ++
                [{ leader := country.tag
                   members :=
                     country.tag
                       :: joiningAllies countries GreatCountries country country.allies }]
            usedCountries :=
              state.usedCountries ++ country.tag
                :: joiningAllies countries GreatCountries country country.allies
            alreadyAllied :=
              state.alreadyAllied
                ++ joiningAllies countries GreatCountries country country.allies }
        else state := by
  unfold createFactionOf
  split_ifs with h
  · simp [addAlliesToFaction_eq]
  · rfl

/-- One great power keeps the invariant of the outer loop. -/
theorem createFactionOf_invariant (countries : StrMap HoI4Country)
    (GreatCountries : List HoI4Country) (state : CreateFactionsState) (country : HoI4Country)
    (hinv : FactionsInvariant state) :
    FactionsInvariant (createFactionOf countries GreatCountries state country) := by
  rw [createFactionOf_eq]
  split_ifs with h
  · obtain ⟨hused, hpair⟩ := hinv
    refine ⟨?_, ?_⟩
    · intro faction hfaction member hmember
      simp only [List.mem_append, List.mem_singleton] at hfaction
      rcases hfaction with hfaction | rfl
      · exact List.mem_append_left _ (hused faction hfaction member hmember)
      · exact List.mem_append_right _ hmember
    · rw [List.pairwise_append]
      refine ⟨hpair, List.pairwise_singleton _ _, ?_⟩
      intro earlier hearlier later hlater
      rw [List.mem_singleton] at hlater
      rw [hlater]
      intro hmem
      exact h.1 (hused earlier hearlier _ hmem)
  · exact hinv

/-- The outer loop of `CreateFactions` keeps its invariant. -/
theorem createFactions_invariant (countries : StrMap HoI4Country)
    (GreatCountries rest : List HoI4Country) (state : CreateFactionsState)
    (hinv : FactionsInvariant state) :
    FactionsInvariant (rest.foldl (createFactionOf countries GreatCountries) state) := by
  induction rest generalizing state with
  | nil => exact hinv
  | cons country rest ih =>
    exact ih _ (createFactionOf_invariant countries GreatCountries state country hinv)

/-- Every faction made by the outer loop of `CreateFactions` is a great power
followed by its joining allies. -/
theorem createFactions_shape (countries : StrMap HoI4Country)
    (GreatCountries rest : List HoI4Country) (state : CreateFactionsState)
    (hrest : ∀ country ∈ rest, country ∈ GreatCountries)
    (hstate : ∀ faction ∈ state.Factions2, ∃ country ∈ GreatCountries,
      faction = { leader := country.tag
                  members := country.tag
                    :: joiningAllies countries GreatCountries country country.allies }) :
    ∀ faction ∈ (rest.foldl (createFactionOf countries GreatCountries) state).Factions2,
      ∃ country ∈ GreatCountries,
        faction = { leader := country.tag
                    members := country.tag
                      :: joiningAllies countries GreatCountries country country.allies } := by
  induction rest generalizing state with
  | nil => exact hstate
  | cons country rest ih =>
    apply ih _ (fun c hc => hrest c (List.mem_cons_of_mem _ hc))
    rw [createFactionOf_eq]
    split_ifs with h
    · intro faction hfaction
      simp only [List.mem_append, List.mem_singleton] at hfaction
      rcases hfaction with hfaction | rfl
      · exact hstate faction hfaction
      · exact ⟨country, hrest country (List.mem_cons_self _ _), rfl⟩
    · exact hstate

/-- C14, counterexample: GER and ITA are great powers, both fascist and both
allied with the fascist HUN, which is in no sphere. `CreateFactions` returns
the faction of GER with HUN and the faction of ITA with HUN, so HUN is a
member of two different factions. -/
theorem CreateFactions_counterexample :
    CreateFactions
        [("GER", exampleCountry "GER" "fascism" ["HUN"]),
         ("HUN", exampleCountry "HUN" "fascism" []),
         ("ITA", exampleCountry "ITA" "fascism" ["HUN"])]
        [exampleCountry "GER" "fascism" ["HUN"], exampleCountry "ITA" "fascism" ["HUN"]]
      = [{ leader := "GER", members := ["GER", "HUN"] },
         { leader := "ITA", members := ["ITA", "HUN"] }]
    ∧ "HUN" ∈ ["GER", "HUN"] ∧ "HUN" ∈ ["ITA", "HUN"] := by
  decide

/-- C14, amended: in the list returned by `CreateFactions` the leader of a
faction is never a member of a faction that stands earlier in the list, so no
great power that was added as a member of an earlier faction becomes the
leader of a later one; each leader is the first member of its own faction,
and the leaders are pairwise different. -/
theorem CreateFactions_leaders (countries : StrMap HoI4Country)
    (GreatCountries : List HoI4Country) :
    (CreateFactions countries GreatCountries).Pairwise
        (fun earlier later => later.leader ∉ earlier.members)
    ∧ (∀ faction ∈ CreateFactions countries GreatCountries,
        faction.members.head? = some faction.leader)
    ∧ ((CreateFactions countries GreatCountries).map (fun faction => faction.leader)).Nodup := by
  have hinv : FactionsInvariant
      (GreatCountries.foldl (createFactionOf countries GreatCountries)
        { Factions2 := [], usedCountries := [], alreadyAllied := [] }) :=
    createFactions_invariant countries GreatCountries GreatCountries _
      ⟨by simp, List.Pairwise.nil⟩
  have hshape := createFactions_shape countries GreatCountries GreatCountries
    { Factions2 := [], usedCountries := [], alreadyAllied := [] } (fun _ h => h) (by simp)
  have hhead : ∀ faction ∈ CreateFactions countries GreatCountries,
      faction.members.head? = some faction.leader := by
    intro faction hfaction
    obtain ⟨country, _, heq⟩ := hshape faction hfaction
    rw [heq]
    rfl
  refine ⟨hinv.2, hhead, ?_⟩
  unfold List.Nodup
  rw [List.pairwise_map]
  have hpair : (CreateFactions countries GreatCountries).Pairwise
      (fun earlier later => later.leader ∉ earlier.members) := hinv.2
  refine List.Pairwise.imp_of_mem ?_ hpair
  intro earlier later hearlier _ hnot heq
  apply hnot
  rw [← heq]
  have := hhead earlier hearlier
  exact List.mem_of_mem_head? this

/-- C15, counterexample: the government communism of HUN is not compatible
with the government fascism of GER, GER is the sphere leader of HUN, and
`CreateFactions` adds HUN to the faction of GER. -/
theorem CreateFactions_sphere_counterexample :
    factionGovernmentMatch "fascism" "communism" = false
    ∧ returnIfSphere sphereExampleCountries [sphereExampleLeader]
        (exampleCountry "HUN" "communism" []) = "GER"
    ∧ CreateFactions sphereExampleCountries [sphereExampleLeader]
      = [{ leader := "GER", members := ["GER", "HUN"] }] := by
  decide

/-- C15, amended: every faction returned by `CreateFactions` is a great power
L followed by those of its allies, in their order, that are found in the
country map and pass the test of the loop. An ally A passes exactly when (the
government of A is compatible with the one of L, or `returnIfSphere` names L
as the sphere leader of A) and (`returnIfSphere` names no sphere leader of A,
or names L). So an ally that has L as its sphere leader is added whatever its
government is. -/
theorem CreateFactions_ally_added (countries : StrMap HoI4Country)
    (GreatCountries : List HoI4Country) :
    (∀ faction ∈ CreateFactions countries GreatCountries, ∃ L ∈ GreatCountries,
      faction.leader = L.tag
      ∧ faction.members
          = L.tag :: ((L.allies.filterMap (fun ally => StrMap.find ally countries)).filter
              (allyJoinsFaction countries GreatCountries L)).map (fun A => A.tag))
    ∧ (∀ L A : HoI4Country,
        allyJoinsFaction countries GreatCountries L A = true
          ↔ (factionGovernmentMatch L.government A.government = true
              ∨ returnIfSphere countries GreatCountries A = L.tag)
            ∧ (returnIfSphere countries GreatCountries A = ""
              ∨ returnIfSphere countries GreatCountries A = L.tag))
    ∧ (∀ L A : HoI4Country, returnIfSphere countries GreatCountries A = L.tag →
        allyJoinsFaction countries GreatCountries L A = true) := by
  have hiff : ∀ L A : HoI4Country,
      allyJoinsFaction countries GreatCountries L A = true
        ↔ (factionGovernmentMatch L.government A.government = true
            ∨ returnIfSphere countries GreatCountries A = L.tag)
          ∧ (returnIfSphere countries GreatCountries A = ""
            ∨ returnIfSphere countries GreatCountries A = L.tag) := by
    intro L A
    unfold allyJoinsFaction factionGovernmentMatch
    simp only [Bool.or_eq_true, beq_iff_eq]
    generalize returnIfSphere countries GreatCountries A = sphere
    by_cases hs : sphere = L.tag
    · by_cases he : sphere = ""
      · simp [hs, he]
      · simp [hs, he]
    · by_cases he : sphere = ""
      · have hne : ¬ ("" = L.tag) := he ▸ hs
        simp [hs, he, hne]
      · simp [hs, he]
  refine ⟨?_, hiff, ?_⟩
  · intro faction hfaction
    obtain ⟨country, hcountry, heq⟩ := createFactions_shape countries GreatCountries
      GreatCountries { Factions2 := [], usedCountries := [], alreadyAllied := [] }
      (fun _ h => h) (by simp) faction hfaction
    exact ⟨country, hcountry, by rw [heq], by rw [heq]; rfl⟩
  · intro L A hs
    rw [hiff]
    exact ⟨Or.inr hs, Or.inr hs⟩

/-- The first loop of `GetMorePossibleAllies` keeps the countries that pass
its three tests. -/
theorem CountriesWithin500Miles_eq (countries : StrMap HoI4Country)
    (distance : String → String → ℚ) (CountryThatWantsAllies : HoI4Country) :
    CountriesWithin500Miles countries distance CountryThatWantsAllies
      = (countries.map Prod.snd).filter (fun country =>
          decide (country.provinceCount ≠ 0)
          && decide (distance CountryThatWantsAllies.tag country.tag ≤ 500)
          && decide (country.tag ∉ CountryThatWantsAllies.allies)) := by
  unfold CountriesWithin500Miles
  have key : ∀ (l : StrMap HoI4Country) (acc : List HoI4Country),
      l.foldl
        (fun CountriesWithin500Miles country =>
          if country.2.provinceCount ≠ 0 then
            if distance CountryThatWantsAllies.tag country.2.tag ≤ 500 then
              if country.2.tag ∉ CountryThatWantsAllies.allies then
                CountriesWithin500Miles ++ [country.2]
              else CountriesWithin500Miles
            else CountriesWithin500Miles
          else CountriesWithin500Miles)
        acc
      = acc ++ (l.map Prod.snd).filter (fun country =>
          decide (country.provinceCount ≠ 0)
          && decide (distance CountryThatWantsAllies.tag country.tag ≤ 500)
          && decide (country.tag ∉ CountryThatWantsAllies.allies)) := by
    intro l
    induction l with
    | nil => simp
    | cons country rest ih =>
      intro acc
      rw [List.foldl, ih]
      by_cases h1 : country.2.provinceCount ≠ 0 <;>
      by_cases h2 : distance CountryThatWantsAllies.tag country.2.tag ≤ 500 <;>
      by_cases h3 : country.2.tag ∉ CountryThatWantsAllies.allies <;>
      simp [h1, h2, h3, List.filter_cons]
  simpa using key countries []

/-- The second loop of `GetMorePossibleAllies`, when a relations record exists
for every candidate: it adds the accepted candidates until the count reaches
2. -/
theorem pickPossibleAllies_eq (Factions : List HoI4Faction)
    (CountryThatWantsAllies : HoI4Country) (candidates : List HoI4Country)
    (hrel : ∀ candidate ∈ candidates,
      (StrMap.find candidate.tag CountryThatWantsAllies.relations).isSome = true)
    (maxcountries : Nat) (newPossibleAllies : List String) :
    pickPossibleAllies Factions CountryThatWantsAllies candidates
        (maxcountries, newPossibleAllies)
      = some (maxcountries
                + (((candidates.filter (acceptsAlly Factions CountryThatWantsAllies)).map
                    (fun candidate => candidate.tag)).take (2 - maxcountries)).length,
              newPossibleAllies
                ++ ((candidates.filter (acceptsAlly Factions CountryThatWantsAllies)).map
                    (fun candidate => candidate.tag)).take (2 - maxcountries)) := by
  induction candidates generalizing maxcountries newPossibleAllies with
  | nil => simp [pickPossibleAllies]
  | cons candidate rest ih =>
    have hrest : ∀ c ∈ rest,
        (StrMap.find c.tag CountryThatWantsAllies.relations).isSome = true :=
      fun c hc => hrel c (List.mem_cons_of_mem _ hc)
    have hcand := hrel candidate (List.mem_cons_self _ _)
    obtain ⟨relation, hfind⟩ := Option.isSome_iff_exists.mp hcand
    unfold pickPossibleAllies
    simp only []
    by_cases hgov : possibleGovernmentMatch CountryThatWantsAllies.government
        candidate.government = true
    · rw [if_pos hgov]
      by_cases hmax : maxcountries < 2
      · rw [if_pos hmax, hfind]
        simp only []
        by_cases hok : relation.relations ≥ -50
            ∧ (findFaction Factions candidate.tag).members.length ≤ 1
        · rw [if_pos hok]
          have haccept : acceptsAlly Factions CountryThatWantsAllies candidate = true := by
            simp [acceptsAlly, hgov, hfind, hok.1, hok.2]
          have hstate : (if relation.relations ≥ 0 then
                ((if relation.relations ≥ -50 ∧ relation.relations < 0 then
                    (maxcountries + 1, newPossibleAllies ++ [candidate.tag])
                  else (maxcountries, newPossibleAllies)).1 + 1,
                 (if relation.relations ≥ -50 ∧ relation.relations < 0 then
                    (maxcountries + 1, newPossibleAllies ++ [candidate.tag])
                  else (maxcountries, newPossibleAllies)).2 ++ [candidate.tag])
              else
                (if relation.relations ≥ -50 ∧ relation.relations < 0 then
                    (maxcountries + 1, newPossibleAllies ++ [candidate.tag])
                  else (maxcountries, newPossibleAllies)))
              = (maxcountries + 1, newPossibleAllies ++ [candidate.tag]) := by
            by_cases hneg : relation.relations < 0
            · rw [if_neg (by omega), if_pos ⟨hok.1, hneg⟩]
            · rw [if_pos (by omega), if_neg (by omega)]
          rw [hstate, ih hrest, List.filter_cons_of_pos haccept, List.map_cons]
          have h2 : 2 - maxcountries = (2 - (maxcountries + 1)) + 1 := by omega
          rw [h2, List.take_succ_cons]
          simp only [List.length_cons, List.append_assoc, List.singleton_append]
          congr 2
          omega
        · rw [if_neg hok, ih hrest]
          have haccept : ¬ acceptsAlly Factions CountryThatWantsAllies candidate = true := by
            simp only [acceptsAlly, hgov, hfind, Bool.true_and, Bool.and_eq_true,
              decide_eq_true_eq]
            exact hok
          rw [List.filter_cons_of_neg haccept]
      · rw [if_neg hmax, ih hrest]
        have h0 : 2 - maxcountries = 0 := by omega
        simp [h0]
    · rw [if_neg hgov, ih hrest]
      have haccept : ¬ acceptsAlly Factions CountryThatWantsAllies candidate = true := by
        simp [acceptsAlly, hgov]
      rw [List.filter_cons_of_neg haccept]

/-- C17: when the requester has a relations record toward every candidate,
that is toward every country of the country map that has a province, lies at
a distance of at most 500 and is not among its allies, `GetMorePossibleAllies`
returns the first two, in the order of the country map, of the candidates
that have a compatible government, a relation of at least -50 with the
requester and a faction of at most one member, or all of them when there are
fewer than two. The result has at most 2 countries, and no country twice when
the countries of the map have pairwise different tags. -/
theorem GetMorePossibleAllies_first_two (countries : StrMap HoI4Country)
    (Factions : List HoI4Faction) (distance : String → String → ℚ)
    (CountryThatWantsAllies : HoI4Country)
    (hrel : ∀ candidate ∈ (countries.map Prod.snd).filter (fun country =>
        decide (country.provinceCount ≠ 0)
        && decide (distance CountryThatWantsAllies.tag country.tag ≤ 500)
        && decide (country.tag ∉ CountryThatWantsAllies.allies)),
      (StrMap.find candidate.tag CountryThatWantsAllies.relations).isSome = true)
    (hdistinct : (countries.map (fun country => country.2.tag)).Nodup) :
    ∃ result,
      GetMorePossibleAllies countries Factions distance CountryThatWantsAllies = some result
      ∧ result
          = ((((countries.map Prod.snd).filter (fun country =>
                  decide (country.provinceCount ≠ 0)
                  && decide (distance CountryThatWantsAllies.tag country.tag ≤ 500)
                  && decide (country.tag ∉ CountryThatWantsAllies.allies))).filter
                (fun candidate =>
                  possibleGovernmentMatch CountryThatWantsAllies.government
                    candidate.government
                  && (match StrMap.find candidate.tag CountryThatWantsAllies.relations with
                      | some relationswithposally =>
                          decide (relationswithposally.relations ≥ -50)
                          && decide
                              ((findFaction Factions candidate.tag).members.length ≤ 1)
                      | none => false))).map
              (fun candidate => candidate.tag)).take 2
      ∧ result.length ≤ 2
      ∧ result.Nodup := by
  have hpick := pickPossibleAllies_eq Factions CountryThatWantsAllies
    (CountriesWithin500Miles countries distance CountryThatWantsAllies)
    (by rw [CountriesWithin500Miles_eq]; exact hrel) 0 []
  rw [CountriesWithin500Miles_eq] at hpick
  simp only [List.nil_append, Nat.sub_zero, Nat.zero_add] at hpick
  have hsome : GetMorePossibleAllies countries Factions distance CountryThatWantsAllies
      = some (((((countries.map Prod.snd).filter (fun country =>
                  decide (country.provinceCount ≠ 0)
                  && decide (distance CountryThatWantsAllies.tag country.tag ≤ 500)
                  && decide (country.tag ∉ CountryThatWantsAllies.allies))).filter
                (acceptsAlly Factions CountryThatWantsAllies)).map
              (fun candidate => candidate.tag)).take 2) := by
    unfold GetMorePossibleAllies
    rw [CountriesWithin500Miles_eq, hpick]
    rfl
  refine ⟨_, hsome, rfl, ?_, ?_⟩
  · rw [List.length_take]
    exact Nat.min_le_left _ _
  · apply List.Nodup.sublist (List.take_sublist _ _)
    apply List.Nodup.sublist _ hdistinct
    have hmap : countries.map (fun country => country.2.tag)
        = (countries.map Prod.snd).map (fun candidate => candidate.tag) := by
      rw [List.map_map]
      rfl
    rw [hmap]
    apply List.Sublist.map
    exact (List.filter_sublist _).trans (List.filter_sublist _)

/-- Witness of C17: of AUS, HUN and ROM, which all qualify, the first two in
the order of the country map are returned. -/
theorem GetMorePossibleAllies_first_two_witness :
    GetMorePossibleAllies allyExampleCountries [] exampleDistance allyExampleRequester
      = some ["AUS", "HUN"] := by
  obtain ⟨result, hsome, heq, _, _⟩ :=
    GetMorePossibleAllies_first_two allyExampleCountries [] exampleDistance
      allyExampleRequester
      (by
        have h500 : (400 : ℚ) ≤ 500 := by norm_num
        simp only [exampleDistance, h500, decide_True, Bool.and_true, Bool.true_and]
        decide)
      (by decide)
  rw [hsome, heq]
  have h500 : (400 : ℚ) ≤ 500 := by norm_num
  simp only [exampleDistance, h500, decide_True, Bool.and_true, Bool.true_and]
  decide

/-- Witness of C14: the faction of GER in the example of the shared ally has
its leader GER as first member. -/
theorem CreateFactions_leaders_witness :
    ({ leader := "GER", members := ["GER", "HUN"] } : HoI4Faction).members.head?
      = some "GER" :=
  (CreateFactions_leaders
      [("GER", exampleCountry "GER" "fascism" ["HUN"]),
       ("HUN", exampleCountry "HUN" "fascism" []),
       ("ITA", exampleCountry "ITA" "fascism" ["HUN"])]
      [exampleCountry "GER" "fascism" ["HUN"], exampleCountry "ITA" "fascism" ["HUN"]]).2.1
    { leader := "GER", members := ["GER", "HUN"] } (by decide)

/-- Witness of C15: GER is the sphere leader of the communist HUN, and HUN
passes the test of the loop over the allies of GER. -/
theorem CreateFactions_ally_added_witness :
    allyJoinsFaction sphereExampleCountries [sphereExampleLeader] sphereExampleLeader
      (exampleCountry "HUN" "communism" []) = true :=
  (CreateFactions_ally_added sphereExampleCountries [sphereExampleLeader]).2.2
    sphereExampleLeader (exampleCountry "HUN" "communism" []) (by decide)

/-- Witness of C20: province 1 is the first province of the state and lies in
the existing zone 10, which is the zone the loop stops at. -/
theorem convertSupplyZones_first_province_witness :
    supplyZoneOfState [(1, 10), (2, 20), (3, 20)] [10, 20] [1, 2, 3] = some 10 :=
  ((convertSupplyZones_first_province [(1, 10), (2, 20), (3, 20)] [10, 20]
      [(7, [1, 2, 3])]).2 [1, 2, 3] 10).mpr
    ⟨[], 1, [2, 3], rfl, by decide, by decide, by simp⟩

/-- The factories after the loop of a coastal state over a list of draws. -/
theorem coastal_foldl (draws : List Int) (s : HoI4State) :
    (draws.foldl (fun s randomNum => s.placeCoastalFactory randomNum) s).milFactories
      = s.milFactories + (draws.filter (fun randomNum => decide (randomNum > 76))).length
    ∧ (draws.foldl (fun s randomNum => s.placeCoastalFactory randomNum) s).civFactories
      = s.civFactories
        + (draws.filter
            (fun randomNum => decide (randomNum > 19) && decide (randomNum ≤ 76))).length
    ∧ (draws.foldl (fun s randomNum => s.placeCoastalFactory randomNum) s).dockyards
      = s.dockyards + (draws.filter (fun randomNum => decide (randomNum ≤ 19))).length := by
  induction draws generalizing s with
  | nil => simp
  | cons randomNum rest ih =>
    obtain ⟨h1, h2, h3⟩ := ih (s.placeCoastalFactory randomNum)
    rw [List.foldl, h1, h2, h3]
    unfold HoI4State.placeCoastalFactory
    by_cases c1 : randomNum > 76
    · have c2 : randomNum > 19 := by omega
      have c3 : ¬ randomNum ≤ 76 := by omega
      have c4 : ¬ randomNum ≤ 19 := by omega
      simp only [c1, c2, c3, c4, if_true, List.filter_cons, decide_True, decide_False,
        Bool.and_false, List.length_cons]
      refine ⟨?_, ?_, ?_⟩ <;> push_cast <;> ring
    · by_cases c2 : randomNum > 19
      · have c3 : randomNum ≤ 76 := by omega
        have c4 : ¬ randomNum ≤ 19 := by omega
        simp only [c1, c2, c3, c4, if_true, if_false, List.filter_cons, decide_True,
          decide_False, Bool.and_true, List.length_cons]
        refine ⟨?_, ?_, ?_⟩ <;> push_cast <;> ring
      · have c3 : randomNum ≤ 76 := by omega
        have c4 : randomNum ≤ 19 := by omega
        simp only [c1, c2, c3, c4, if_true, if_false, List.filter_cons, decide_True,
          decide_False, Bool.and_true, Bool.false_and, List.length_cons]
        refine ⟨?_, ?_, ?_⟩ <;> push_cast <;> ring

/-- The factories after the loop of a state that is not coastal over a list
of draws. -/
theorem inland_foldl (draws : List Int) (s : HoI4State) :
    (draws.foldl (fun s randomNum => s.placeInlandFactory randomNum) s).milFactories
      = s.milFactories + (draws.filter (fun randomNum => decide (randomNum > 70))).length
    ∧ (draws.foldl (fun s randomNum => s.placeInlandFactory randomNum) s).civFactories
      = s.civFactories + (draws.filter (fun randomNum => decide (randomNum ≤ 70))).length
    ∧ (draws.foldl (fun s randomNum => s.placeInlandFactory randomNum) s).dockyards
      = s.dockyards := by
  induction draws generalizing s with
  | nil => simp
  | cons randomNum rest ih =>
    obtain ⟨h1, h2, h3⟩ := ih (s.placeInlandFactory randomNum)
    rw [List.foldl, h1, h2, h3]
    unfold HoI4State.placeInlandFactory
    by_cases c1 : randomNum > 70
    · have c2 : ¬ randomNum ≤ 70 := by omega
      simp only [c1, c2, if_true, List.filter_cons, decide_True, decide_False,
        List.length_cons]
      refine ⟨?_, ?_, ?_⟩ <;> push_cast <;> ring
    · have c2 : randomNum ≤ 70 := by omega
      simp only [c1, c2, if_true, if_false, List.filter_cons, decide_True, decide_False,
        List.length_cons]
      refine ⟨?_, ?_, ?_⟩ <;> push_cast <;> ring

/-- A loop over the indices that reads the draws is the loop over the list of
the draws. -/
theorem foldl_range_draws (step : HoI4State → Int → HoI4State) (randomNumbers : Nat → Int)
    (n : Nat) (s : HoI4State) :
    (List.range n).foldl (fun s i => step s (randomNumbers i)) s
      = ((List.range n).map randomNumbers).foldl step s := by
  rw [List.foldl_map]

/-- Every draw falls in exactly one of the classes of a coastal state, and in
exactly one of the classes of a state that is not coastal. -/
theorem draws_partition (draws : List Int) :
    (draws.filter (fun randomNum => decide (randomNum > 76))).length
      + (draws.filter
          (fun randomNum => decide (randomNum > 19) && decide (randomNum ≤ 76))).length
      + (draws.filter (fun randomNum => decide (randomNum ≤ 19))).length = draws.length
    ∧ (draws.filter (fun randomNum => decide (randomNum > 70))).length
      + (draws.filter (fun randomNum => decide (randomNum ≤ 70))).length = draws.length := by
  induction draws with
  | nil => simp
  | cons randomNum rest ih =>
    obtain ⟨h1, h2⟩ := ih
    constructor
    · by_cases c1 : randomNum > 76
      · have c2 : randomNum > 19 := by omega
        have c3 : ¬ randomNum ≤ 76 := by omega
        have c4 : ¬ randomNum ≤ 19 := by omega
        simp only [c1, c2, c3, c4, List.filter_cons, decide_True, decide_False,
          Bool.and_false, List.length_cons, if_true, if_false, Bool.false_eq_true]
        omega
      · by_cases c2 : randomNum > 19
        · have c3 : randomNum ≤ 76 := by omega
          have c4 : ¬ randomNum ≤ 19 := by omega
          simp only [c1, c2, c3, c4, List.filter_cons, decide_True, decide_False,
            Bool.and_true, List.length_cons, if_true, if_false, Bool.false_eq_true]
          omega
        · have c3 : randomNum ≤ 76 := by omega
          have c4 : randomNum ≤ 19 := by omega
          simp only [c1, c2, c3, c4, List.filter_cons, decide_True, decide_False,
            Bool.and_true, Bool.false_and, List.length_cons, if_true, if_false,
            Bool.false_eq_true]
          omega
    · by_cases c1 : randomNum > 70
      · have c2 : ¬ randomNum ≤ 70 := by omega
        simp only [c1, c2, List.filter_cons, decide_True, decide_False, List.length_cons,
          if_true, if_false, Bool.false_eq_true]
        omega
      · have c2 : randomNum ≤ 70 := by omega
        simp only [c1, c2, List.filter_cons, decide_True, decide_False, List.length_cons,
          if_true, if_false, Bool.false_eq_true]
        omega

/-- C22: for a factory count n and any sequence of draws, `setIndustry` raises
the sum of the civilian factories, the military factories and the dockyards
by n. In a coastal state the military factories grow by the number of draws
above 76 among the first n, the civilian factories by the number of draws from
20 to 76 and the dockyards by the number of draws up to 19, which are 23, 57
and 20 of the values 0 to 99. In a state that is not coastal the military
factories grow by the number of draws above 70, the civilian factories by the
number of the other draws, 29 and 71 of the values, and the dockyards stay. -/
theorem setIndustry_counts (s : HoI4State) (coastalProvinces : List (Int × Int))
    (randomNumbers : Nat → Int) (n : Nat) :
    let draws := (List.range n).map randomNumbers
    let s' := s.setIndustry coastalProvinces randomNumbers (n : Int)
    s'.civFactories + s'.milFactories + s'.dockyards
        = s.civFactories + s.milFactories + s.dockyards + n
    ∧ (s.amICoastal coastalProvinces = true →
        s'.milFactories
            = s.milFactories + (draws.filter (fun randomNum => decide (randomNum > 76))).length
        ∧ s'.civFactories
            = s.civFactories
              + (draws.filter
                  (fun randomNum => decide (randomNum > 19) && decide (randomNum ≤ 76))).length
        ∧ s'.dockyards
            = s.dockyards + (draws.filter (fun randomNum => decide (randomNum ≤ 19))).length)
    ∧ (s.amICoastal coastalProvinces = false →
        s'.milFactories
            = s.milFactories + (draws.filter (fun randomNum => decide (randomNum > 70))).length
        ∧ s'.civFactories
            = s.civFactories
              + (draws.filter (fun randomNum => decide (randomNum ≤ 70))).length
        ∧ s'.dockyards = s.dockyards)
    ∧ (((List.range 100).map Int.ofNat).filter (fun randomNum => decide (randomNum > 76))).length
        = 23
    ∧ (((List.range 100).map Int.ofNat).filter
        (fun randomNum => decide (randomNum > 19) && decide (randomNum ≤ 76))).length = 57
    ∧ (((List.range 100).map Int.ofNat).filter (fun randomNum => decide (randomNum ≤ 19))).length
        = 20
    ∧ (((List.range 100).map Int.ofNat).filter (fun randomNum => decide (randomNum > 70))).length
        = 29
    ∧ (((List.range 100).map Int.ofNat).filter (fun randomNum => decide (randomNum ≤ 70))).length
        = 71 := by
  intro draws s'
  have hlen : draws.length = n := by simp [draws]
  obtain ⟨hp1, hp2⟩ := draws_partition draws
  have hcoastal : s.amICoastal coastalProvinces = true →
      s' = draws.foldl (fun s randomNum => s.placeCoastalFactory randomNum) s := by
    intro h
    show s.setIndustry coastalProvinces randomNumbers (n : Int) = _
    unfold HoI4State.setIndustry
    rw [if_pos h, Int.toNat_ofNat]
    exact foldl_range_draws _ randomNumbers n s
  have hinland : s.amICoastal coastalProvinces = false →
      s' = draws.foldl (fun s randomNum => s.placeInlandFactory randomNum) s := by
    intro h
    show s.setIndustry coastalProvinces randomNumbers (n : Int) = _
    unfold HoI4State.setIndustry
    rw [if_neg (by simp [h]), Int.toNat_ofNat]
    exact foldl_range_draws _ randomNumbers n s
  refine ⟨?_, ?_, ?_, by decide, by decide, by decide, by decide, by decide⟩
  · cases hc : s.amICoastal coastalProvinces with
    | true =>
      obtain ⟨h1, h2, h3⟩ := coastal_foldl draws s
      rw [hcoastal hc, h1, h2, h3]
      have : (n : Int) = ((draws.filter (fun randomNum => decide (randomNum > 76))).length
          + (draws.filter
              (fun randomNum => decide (randomNum > 19) && decide (randomNum ≤ 76))).length
          + (draws.filter (fun randomNum => decide (randomNum ≤ 19))).length : Nat) := by
        rw [hp1, hlen]
      rw [this]
      push_cast
      ring
    | false =>
      obtain ⟨h1, h2, h3⟩ := inland_foldl draws s
      rw [hinland hc, h1, h2, h3]
      have : (n : Int) = ((draws.filter (fun randomNum => decide (randomNum > 70))).length
          + (draws.filter (fun randomNum => decide (randomNum ≤ 70))).length : Nat) := by
        rw [hp2, hlen]
      rw [this]
      push_cast
      ring
  · intro hc
    rw [hcoastal hc]
    exact coastal_foldl draws s
  · intro hc
    rw [hinland hc]
    exact inland_foldl draws s

/-- Witness of C22: the example state with the coastal province 101 gets a
dockyard for each of the three draws 0, 1 and 2. -/
theorem setIndustry_counts_witness :
    exampleState.amICoastal [(101, 1)] = true
    ∧ (exampleState.setIndustry [(101, 1)] Int.ofNat ((3 : Nat) : Int)).dockyards
        = exampleState.dockyards
          + (((List.range 3).map Int.ofNat).filter
              (fun randomNum => decide (randomNum ≤ 19))).length :=
  ⟨by decide, ((setIndustry_counts exampleState [(101, 1)] Int.ofNat 3).2.1 (by decide)).2.2⟩

/-- The types of the agreements that the loop over the agreements of the
source world adds. -/
theorem convertDiplomacyAgreements_types (getHoI4Tag : String → String)
    (countries : List String) (agreements : List V2Agreement) :
    ∀ a ∈ convertDiplomacyAgreements getHoI4Tag countries agreements,
      a.type = "alliance" ∨ a.type = "vassa" := by
  unfold convertDiplomacyAgreements
  have key : ∀ (l : List V2Agreement) (added : List HoI4Agreement),
      (∀ a ∈ added, a.type = "alliance" ∨ a.type = "vassa") →
      ∀ a ∈ l.foldl
          (fun added agreement =>
            let HoI4Tag1 := getHoI4Tag agreement.country1
            if HoI4Tag1 = "" then added
            else
              let HoI4Tag2 := getHoI4Tag agreement.country2
              if HoI4Tag2 = "" then added
              else if HoI4Tag1 ∉ countries then added
              else if HoI4Tag2 ∉ countries then added
              else if agreement.type = "alliance" ∨ agreement.type = "vassa" then
                added ++ [{ country1 := HoI4Tag1, country2 := HoI4Tag2,
                            start_date := agreement.start_date, type := agreement.type }]
              else added)
          added,
        a.type = "alliance" ∨ a.type = "vassa" := by
    intro l
    induction l with
    | nil => intro added h; exact h
    | cons agreement rest ih =>
      intro added h
      rw [List.foldl]
      apply ih
      simp only []
      by_cases h5 : agreement.type = "alliance" ∨ agreement.type = "vassa"
      · have hnew : ∀ new : HoI4Agreement, new.type = agreement.type →
            ∀ a ∈ added ++ [new], a.type = "alliance" ∨ a.type = "vassa" := by
          intro new hnewtype a ha
          rcases List.mem_append.mp ha with ha | ha
          · exact h a ha
          · rw [List.mem_singleton] at ha
            rw [ha, hnewtype]
            exact h5
        rw [if_pos h5]
        split_ifs <;> first | exact h | exact hnew _ rfl
      · rw [if_neg h5]
        split_ifs <;> exact h
  exact key agreements [] (by simp)

/-- The types of the agreements that the part `Relations and guarantees`
adds. -/
theorem convertDiplomacyRelations_types (countries : StrMap (StrMap HoI4Relations)) :
    ∀ a ∈ convertDiplomacyRelations countries,
      a.type = "relation" ∨ a.type = "guarantee" ∨ a.type = "sphere" := by
  unfold convertDiplomacyRelations
  have hone : ∀ (country : String) (relationItr : String × HoI4Relations),
      ∀ a ∈ relationAgreements country relationItr,
        a.type = "relation" ∨ a.type = "guarantee" ∨ a.type = "sphere" := by
    intro country relationItr a ha
    rw [relationAgreements_eq] at ha
    simp only [List.mem_append, List.mem_singleton] at ha
    rcases ha with (ha | ha) | ha
    · rw [ha]; exact Or.inl rfl
    · split_ifs at ha
      · rw [List.mem_singleton] at ha
        rw [ha]; exact Or.inr (Or.inl rfl)
      · simp at ha
    · split_ifs at ha
      · rw [List.mem_singleton] at ha
        rw [ha]; exact Or.inr (Or.inr rfl)
      · simp at ha
  have hinner : ∀ (country : String) (l : StrMap HoI4Relations) (added : List HoI4Agreement),
      (∀ a ∈ added, a.type = "relation" ∨ a.type = "guarantee" ∨ a.type = "sphere") →
      ∀ a ∈ l.foldl (fun added relationItr => added ++ relationAgreements country relationItr)
          added,
        a.type = "relation" ∨ a.type = "guarantee" ∨ a.type = "sphere" := by
    intro country l
    induction l with
    | nil => intro added h; exact h
    | cons relationItr rest ih =>
      intro added h
      rw [List.foldl]
      apply ih
      intro a ha
      rcases List.mem_append.mp ha with ha | ha
      · exact h a ha
      · exact hone country relationItr a ha
  have houter : ∀ (l : StrMap (StrMap HoI4Relations)) (added : List HoI4Agreement),
      (∀ a ∈ added, a.type = "relation" ∨ a.type = "guarantee" ∨ a.type = "sphere") →
      ∀ a ∈ l.foldl
          (fun added country =>
            country.2.foldl
              (fun added relationItr => added ++ relationAgreements country.1 relationItr)
              added)
          added,
        a.type = "relation" ∨ a.type = "guarantee" ∨ a.type = "sphere" := by
    intro l
    induction l with
    | nil => intro added h; exact h
    | cons country rest ih =>
      intro added h
      rw [List.foldl]
      exact ih _ (hinner country.1 country.2 added h)
  exact houter countries [] (by simp)

/-- On agreements none of which has the type vassal `factionSatellites`
returns the factions as they were. -/
theorem factionSatellites_no_vassal (agreements : List HoI4Agreement)
    (factions : StrMap String) (h : ∀ a ∈ agreements, a.type ≠ "vassal") :
    factionSatellites agreements factions = factions := by
  unfold factionSatellites
  induction agreements generalizing factions with
  | nil => rfl
  | cons agreement rest ih =>
    rw [List.foldl, if_neg (h agreement (List.mem_cons_self _ _))]
    exact ih factions (fun a ha => h a (List.mem_cons_of_mem _ ha))

/-- C25: whatever the agreements of the source world are, no agreement that
`convertDiplomacy` adds has the type vassal: each has one of the types
alliance, vassa, relation, guarantee and sphere, and a source agreement of the
type vassal is not copied. So on a diplomacy collection that holds only
agreements added by `convertDiplomacy`, `factionSatellites` changes the
faction of no country. -/
theorem convertDiplomacy_no_vassal (getHoI4Tag : String → String)
    (countries : StrMap (StrMap HoI4Relations)) (agreements : List V2Agreement) :
    (∀ a ∈ convertDiplomacyAdded getHoI4Tag countries agreements, a.type ≠ "vassal")
    ∧ (∀ a ∈ convertDiplomacyAdded getHoI4Tag countries agreements,
        a.type ∈ ["alliance", "vassa", "relation", "guarantee", "sphere"])
    ∧ (∀ agreement : V2Agreement, agreement.type = "vassal" →
        convertDiplomacyAgreements getHoI4Tag (countries.map Prod.fst) [agreement] = [])
    ∧ (∀ (collection : List HoI4Agreement) (factions : StrMap String),
        (∀ a ∈ collection, a ∈ convertDiplomacyAdded getHoI4Tag countries agreements) →
        factionSatellites collection factions = factions) := by
  have htypes : ∀ a ∈ convertDiplomacyAdded getHoI4Tag countries agreements,
      a.type ∈ ["alliance", "vassa", "relation", "guarantee", "sphere"] := by
    intro a ha
    unfold convertDiplomacyAdded at ha
    rcases List.mem_append.mp ha with ha | ha
    · rcases convertDiplomacyAgreements_types _ _ _ a ha with h | h <;> simp [h]
    · rcases convertDiplomacyRelations_types _ a ha with h | h | h <;> simp [h]
  have hno : ∀ a ∈ convertDiplomacyAdded getHoI4Tag countries agreements,
      a.type ≠ "vassal" := by
    intro a ha hv
    have := htypes a ha
    rw [hv] at this
    exact absurd this (by decide)
  refine ⟨hno, htypes, ?_, ?_⟩
  · intro agreement hv
    have h1 : ¬ ("vassal" = "alliance") := by decide
    have h2 : ¬ ("vassal" = "vassa") := by decide
    simp [convertDiplomacyAgreements, hv, h1, h2]
  · intro collection factions hsub
    exact factionSatellites_no_vassal collection factions (fun a ha => hno a (hsub a ha))

/-- Witness of C25: the one agreement of the source world is of the type
vassal, between PRU and BAV, which map to GER and BAY; the collection made
of the one relation agreement that `convertDiplomacy` adds leaves BAY outside
the faction of GER. -/
theorem convertDiplomacy_no_vassal_witness :
    factionSatellites
        [{ type := "relation", country1 := "BAY", country2 := "GER", value := 50,
           start_date := "1930.1.1" }]
        [("BAY", ""), ("GER", "axis")]
      = [("BAY", ""), ("GER", "axis")] :=
  (convertDiplomacy_no_vassal (fun tag => if tag = "PRU" then "GER" else "BAY")
      [("BAY", [("GER", { relations := 50, guarantee := false, sphereLeader := false })]),
       ("GER", [])]
      [{ type := "vassal", country1 := "PRU", country2 := "BAV",
         start_date := "1870.1.1" }]).2.2.2
    [{ type := "relation", country1 := "BAY", country2 := "GER", value := 50,
       start_date := "1930.1.1" }]
    [("BAY", ""), ("GER", "axis")]
    (by
      intro a ha
      rw [List.mem_singleton] at ha
      rw [ha]
      have h1 : ¬ ("vassal" = "alliance") := by decide
      have h2 : ¬ ("vassal" = "vassa") := by decide
      simp [convertDiplomacyAdded, convertDiplomacyAgreements, convertDiplomacyRelations,
        relationAgreements_eq, h1, h2])

/-- The inner loop of `outputRelations` appends a block and a line for each
country that passes the condition. -/
theorem outputRelations_inner (showDouble : ℚ → String) (country : HoI4Country)
    (others : StrMap HoI4Country) (inner : List String × List String) :
    others.foldl
        (fun (inner : List String × List String) country2 =>
          if relationIsOutput country country2.2 then
            (inner.1 ++ [opinionModifierBlock showDouble country country2.2],
             inner.2 ++ [addOpinionModifierLine country country2.2])
          else inner)
        inner
      = (inner.1 ++ ((others.map Prod.snd).filter (relationIsOutput country)).map
            (opinionModifierBlock showDouble country),
         inner.2 ++ ((others.map Prod.snd).filter (relationIsOutput country)).map
            (addOpinionModifierLine country)) := by
  induction others generalizing inner with
  | nil => simp
  | cons country2 rest ih =>
    rw [List.foldl, ih]
    by_cases h : relationIsOutput country country2.2 = true
    · simp [h, List.filter_cons]
    · simp [h, List.filter_cons]

/-- The blocks that `outputRelations` writes: one for each ordered pair of
countries that passes the condition, in the order of the country map. -/
theorem outputRelations_blocks (showDouble : ℚ → String) (countries : StrMap HoI4Country) :
    (outputRelations showDouble countries).1
      = (countries.map Prod.snd).flatMap (fun country =>
          ((countries.map Prod.snd).filter (relationIsOutput country)).map
            (opinionModifierBlock showDouble country)) := by
  unfold outputRelations
  have key : ∀ (l : StrMap HoI4Country) (state : List String × List (String × List String)),
      (l.foldl
        (fun (state : List String × List (String × List String)) country =>
          let inner :=
            countries.foldl
              (fun (inner : List String × List String) country2 =>
                if relationIsOutput country.2 country2.2 then
                  (inner.1 ++ [opinionModifierBlock showDouble country.2 country2.2],
                   inner.2 ++ [addOpinionModifierLine country.2 country2.2])
                else inner)
              (state.1, [])
          (inner.1, state.2 ++ [(country.2.tag, inner.2)]))
        state).1
      = state.1 ++ (l.map Prod.snd).flatMap (fun country =>
          ((countries.map Prod.snd).filter (relationIsOutput country)).map
            (opinionModifierBlock showDouble country)) := by
    intro l
    induction l with
    | nil => intro state; simp
    | cons country rest ih =>
      intro state
      rw [List.foldl, ih]
      simp only []
      rw [outputRelations_inner]
      simp [List.flatMap_cons]
  simpa using key countries ([], [])

/-- C24, the behaviour of the code: a block is written for the ordered pair
of the countries A and B exactly when their tags differ, A has a relations
record for B, and B has a relations record for itself. For FRA and GER, each
with a relations record for the other and none for itself, no block is
written and both countries get an empty relations text, although FRA holds a
record toward GER and GER holds one toward FRA. -/
theorem outputRelations_self_record :
    (∀ (showDouble : ℚ → String) (countries : StrMap HoI4Country),
      (outputRelations showDouble countries).1
        = (countries.map Prod.snd).flatMap (fun A =>
            ((countries.map Prod.snd).filter (fun B =>
                decide (A.tag ≠ B.tag)
                && (StrMap.find B.tag A.relations).isSome
                && (StrMap.find B.tag B.relations).isSome)).map
              (opinionModifierBlock showDouble A)))
    ∧ (StrMap.find "GER" (relationExampleCountry "FRA" "GER" 50).relations).isSome = true
    ∧ outputRelations showWhole
        [("FRA", relationExampleCountry "FRA" "GER" 50),
         ("GER", relationExampleCountry "GER" "FRA" 50)]
      = ([], [("FRA", []), ("GER", [])]) := by
  refine ⟨?_, by decide, by decide⟩
  intro showDouble countries
  rw [outputRelations_blocks]
  rfl

/-- An entry of a map after an insertion is the entry inserted or was there
before. -/
theorem StrMap.mem_insert {α : Type} (k : String) (v : α) (m : StrMap α)
    (entry : String × α) (h : entry ∈ StrMap.insert k v m) : entry = (k, v) ∨ entry ∈ m := by
  induction m with
  | nil =>
    simp only [StrMap.insert, List.mem_singleton] at h
    exact Or.inl h
  | cons head rest ih =>
    obtain ⟨k', v'⟩ := head
    unfold StrMap.insert at h
    split_ifs at h with h1 h2
    · rcases List.mem_cons.mp h with h | h
      · exact Or.inl h
      · exact Or.inr h
    · exact Or.inr h
    · rcases List.mem_cons.mp h with h | h
      · exact Or.inr (List.mem_cons.mpr (Or.inl h))
      · rcases ih h with h | h
        · exact Or.inl h
        · exact Or.inr (List.mem_cons.mpr (Or.inr h))

/-- The entries of `closeNeighbors` are neighbours with a capital at a
distance of at most 500. -/
theorem closeNeighbors_mem (getDistanceBetweenCountries : String → String → ℚ)
    (Leader : HoI4Country) (AllNeighbors : StrMap HoI4Country)
    (neigh : String × HoI4Country)
    (h : neigh ∈ closeNeighbors getDistanceBetweenCountries Leader AllNeighbors) :
    neigh ∈ AllNeighbors ∧ neigh.2.capitalProv ≠ 0
      ∧ getDistanceBetweenCountries Leader.tag neigh.2.tag ≤ 500 := by
  unfold closeNeighbors at h
  have key : ∀ (l : StrMap HoI4Country) (init : StrMap HoI4Country),
      neigh ∈ l.foldl
        (fun CloseNeighbors neigh =>
          if neigh.2.capitalProv ≠ 0 then
            let distance := getDistanceBetweenCountries Leader.tag neigh.2.tag
            if distance ≤ 500 then StrMap.insert neigh.1 neigh.2 CloseNeighbors
            else CloseNeighbors
          else CloseNeighbors)
        init →
      neigh ∈ init ∨ (neigh ∈ l ∧ neigh.2.capitalProv ≠ 0
        ∧ getDistanceBetweenCountries Leader.tag neigh.2.tag ≤ 500) := by
    intro l
    induction l with
    | nil => intro init h; exact Or.inl h
    | cons head rest ih =>
      intro init h
      rw [List.foldl] at h
      rcases ih _ h with h | ⟨h1, h2⟩
      · dsimp only at h
        split_ifs at h with hcap hdist
        · rcases StrMap.mem_insert _ _ _ _ h with h | h
          · right
            have hhead : neigh = head := h
            subst hhead
            exact ⟨List.mem_cons_self _ _, hcap, hdist⟩
          · exact Or.inl h
        · exact Or.inl h
        · exact Or.inl h
      · exact Or.inr ⟨List.mem_cons_of_mem _ h1, h2⟩
  rcases key AllNeighbors [] h with h | h
  · exact absurd h (List.not_mem_nil _)
  · exact h

/-- The test at the head of the neighbour loop as a Boolean. -/
theorem isEligibleNeighbor_iff (GreatCountries : List String) (Leader : HoI4Country)
    (neigh : String × HoI4Country) :
    isEligibleNeighbor GreatCountries Leader neigh = true
      ↔ neigh.2.tag ∉ Leader.allies ∧ ¬ (neigh.2.tag ∈ GreatCountries) := by
  unfold isEligibleNeighbor
  rw [Bool.and_eq_true, decide_eq_true_iff, decide_eq_true_iff]

/-- The test of the first tier as a Boolean. -/
theorem isAnschlussCandidate_iff (Factions : List HoI4Faction)
    (strengthOverTime : String → ℚ → ℚ) (Leader : HoI4Country)
    (neigh : String × HoI4Country) :
    isAnschlussCandidate Factions strengthOverTime Leader neigh = true
      ↔ strengthOverTime neigh.2.tag (3 / 2) < strengthOverTime Leader.tag (3 / 2) * (1 / 5)
        ∧ (findFaction Factions neigh.2.tag).members.length = 1 := by
  unfold isAnschlussCandidate
  rw [Bool.and_eq_true, decide_eq_true_iff, decide_eq_true_iff]

/-- One round of the neighbour loop appends the neighbour to `Anchluss`
exactly when it is eligible and passes the test of the first tier. -/
theorem classifyNeighbor_Anchluss (Factions : List HoI4Faction)
    (strengthOverTime : String → ℚ → ℚ) (GreatCountries : List String) (Leader : HoI4Country)
    (tiers : NeighborTiers) (neigh : String × HoI4Country) :
    (classifyNeighbor Factions strengthOverTime GreatCountries Leader tiers neigh).Anchluss
      = tiers.Anchluss ++
          (if isEligibleNeighbor GreatCountries Leader neigh
              && isAnschlussCandidate Factions strengthOverTime Leader neigh
            then [neigh.2.tag] else []) := by
  unfold classifyNeighbor
  dsimp only
  by_cases h1 : neigh.2.tag ∉ Leader.allies ∧ ¬ (neigh.2.tag ∈ GreatCountries)
  · have he := (isEligibleNeighbor_iff GreatCountries Leader neigh).mpr h1
    rw [if_pos h1, he, Bool.true_and]
    by_cases h2 : strengthOverTime neigh.2.tag (3 / 2)
          < strengthOverTime Leader.tag (3 / 2) * (1 / 5)
        ∧ (findFaction Factions neigh.2.tag).members.length = 1
    · have ha := (isAnschlussCandidate_iff Factions strengthOverTime Leader neigh).mpr h2
      rw [if_pos h2, ha, if_pos rfl]
    · have ha : isAnschlussCandidate Factions strengthOverTime Leader neigh = false := by
        rw [← Bool.not_eq_true, isAnschlussCandidate_iff]
        exact h2
      rw [if_neg h2, ha, if_neg Bool.false_ne_true, List.append_nil]
      split_ifs <;> rfl
  · have he : isEligibleNeighbor GreatCountries Leader neigh = false := by
      rw [← Bool.not_eq_true, isEligibleNeighbor_iff]
      exact h1
    rw [if_neg h1, he, Bool.false_and, if_neg Bool.false_ne_true, List.append_nil]

/-- One round of the neighbour loop appends the neighbour to at most one of
the four vectors, once, and to one of the last three only when it is eligible
and fails the test of the first tier. -/
theorem classifyNeighbor_count (Factions : List HoI4Faction)
    (strengthOverTime : String → ℚ → ℚ) (GreatCountries : List String) (Leader : HoI4Country)
    (tiers : NeighborTiers) (neigh : String × HoI4Country) :
    (∀ tag : String,
      (classifyNeighbor Factions strengthOverTime GreatCountries Leader tiers neigh).Anchluss.count
          tag
        + (classifyNeighbor Factions strengthOverTime GreatCountries Leader tiers
            neigh).Sudaten.count tag
        + (classifyNeighbor Factions strengthOverTime GreatCountries Leader tiers
            neigh).EqualTargets.count tag
        + (classifyNeighbor Factions strengthOverTime GreatCountries Leader tiers
            neigh).DifficultTargets.count tag
      ≤ tiers.Anchluss.count tag + tiers.Sudaten.count tag + tiers.EqualTargets.count tag
        + tiers.DifficultTargets.count tag + [neigh.2.tag].count tag)
    ∧ (∀ tag : String,
        tag ∈ (classifyNeighbor Factions strengthOverTime GreatCountries Leader tiers
              neigh).Sudaten
          ++ (classifyNeighbor Factions strengthOverTime GreatCountries Leader tiers
              neigh).EqualTargets
          ++ (classifyNeighbor Factions strengthOverTime GreatCountries Leader tiers
              neigh).DifficultTargets →
        tag ∈ tiers.Sudaten ++ tiers.EqualTargets ++ tiers.DifficultTargets
        ∨ (tag = neigh.2.tag ∧ isEligibleNeighbor GreatCountries Leader neigh = true
            ∧ isAnschlussCandidate Factions strengthOverTime Leader neigh = false)) := by
  unfold classifyNeighbor
  dsimp only
  by_cases h1 : neigh.2.tag ∉ Leader.allies ∧ ¬ (neigh.2.tag ∈ GreatCountries)
  · have he := (isEligibleNeighbor_iff GreatCountries Leader neigh).mpr h1
    rw [if_pos h1]
    by_cases h2 : strengthOverTime neigh.2.tag (3 / 2)
          < strengthOverTime Leader.tag (3 / 2) * (1 / 5)
        ∧ (findFaction Factions neigh.2.tag).members.length = 1
    · rw [if_pos h2]
      refine ⟨?_, ?_⟩
      · intro tag
        simp only [List.count_append]
        omega
      · intro tag h
        exact Or.inl h
    · have ha : isAnschlussCandidate Factions strengthOverTime Leader neigh = false := by
        rw [← Bool.not_eq_true, isAnschlussCandidate_iff]
        exact h2
      rw [if_neg h2]
      split_ifs
      · refine ⟨?_, ?_⟩
        · intro tag
          simp only [List.count_append]
          omega
        · intro tag h
          simp only [List.mem_append, List.mem_singleton] at h ⊢
          rcases h with ((h | h) | h) | h
          · exact Or.inl (Or.inl (Or.inl h))
          · exact Or.inr ⟨h, he, ha⟩
          · exact Or.inl (Or.inl (Or.inr h))
          · exact Or.inl (Or.inr h)
      · refine ⟨?_, ?_⟩
        · intro tag
          simp only [List.count_append]
          omega
        · intro tag h
          simp only [List.mem_append, List.mem_singleton] at h ⊢
          rcases h with (h | h | h) | h
          · exact Or.inl (Or.inl (Or.inl h))
          · exact Or.inl (Or.inl (Or.inr h))
          · exact Or.inr ⟨h, he, ha⟩
          · exact Or.inl (Or.inr h)
      · refine ⟨?_, ?_⟩
        · intro tag
          simp only [List.count_append]
          omega
        · intro tag h
          simp only [List.mem_append, List.mem_singleton] at h ⊢
          rcases h with (h | h) | h | h
          · exact Or.inl (Or.inl (Or.inl h))
          · exact Or.inl (Or.inl (Or.inr h))
          · exact Or.inl (Or.inr h)
          · exact Or.inr ⟨h, he, ha⟩
      · refine ⟨?_, ?_⟩
        · intro tag
          omega
        · intro tag h
          exact Or.inl h
  · rw [if_neg h1]
    refine ⟨?_, ?_⟩
    · intro tag
      omega
    · intro tag h
      exact Or.inl h

/-- The neighbour loop from given vectors on: the vector `Anchluss` gains the
eligible neighbours that pass the test of the first tier, the counts of a tag
in the four vectors grow by at most its count among the neighbours, and a
new member of the last three vectors is an eligible neighbour that fails the
test of the first tier. -/
theorem classifyNeighbors_foldl (Factions : List HoI4Faction)
    (strengthOverTime : String → ℚ → ℚ) (GreatCountries : List String) (Leader : HoI4Country)
    (l : StrMap HoI4Country) (tiers : NeighborTiers) :
    (l.foldl (classifyNeighbor Factions strengthOverTime GreatCountries Leader) tiers).Anchluss
      = tiers.Anchluss ++
          (l.filter (fun neigh => isEligibleNeighbor GreatCountries Leader neigh
            && isAnschlussCandidate Factions strengthOverTime Leader neigh)).map
            (fun neigh => neigh.2.tag)
    ∧ (∀ tag : String,
      (l.foldl (classifyNeighbor Factions strengthOverTime GreatCountries Leader)
          tiers).Anchluss.count tag
        + (l.foldl (classifyNeighbor Factions strengthOverTime GreatCountries Leader)
            tiers).Sudaten.count tag
        + (l.foldl (classifyNeighbor Factions strengthOverTime GreatCountries Leader)
            tiers).EqualTargets.count tag
        + (l.foldl (classifyNeighbor Factions strengthOverTime GreatCountries Leader)
            tiers).DifficultTargets.count tag
      ≤ tiers.Anchluss.count tag + tiers.Sudaten.count tag + tiers.EqualTargets.count tag
        + tiers.DifficultTargets.count tag + (l.map (fun neigh => neigh.2.tag)).count tag)
    ∧ (∀ tag : String,
        tag ∈ (l.foldl (classifyNeighbor Factions strengthOverTime GreatCountries Leader)
              tiers).Sudaten
          ++ (l.foldl (classifyNeighbor Factions strengthOverTime GreatCountries Leader)
              tiers).EqualTargets
          ++ (l.foldl (classifyNeighbor Factions strengthOverTime GreatCountries Leader)
              tiers).DifficultTargets →
        tag ∈ tiers.Sudaten ++ tiers.EqualTargets ++ tiers.DifficultTargets
        ∨ ∃ neigh ∈ l, neigh.2.tag = tag ∧ isEligibleNeighbor GreatCountries Leader neigh = true
            ∧ isAnschlussCandidate Factions strengthOverTime Leader neigh = false) := by
  induction l generalizing tiers with
  | nil =>
    refine ⟨by simp, ?_, ?_⟩
    · intro tag
      simp
    · intro tag h
      exact Or.inl h
  | cons neigh rest ih =>
    rw [List.foldl]
    obtain ⟨ih1, ih2, ih3⟩ :=
      ih (classifyNeighbor Factions strengthOverTime GreatCountries Leader tiers neigh)
    obtain ⟨hc1, hc2⟩ :=
      classifyNeighbor_count Factions strengthOverTime GreatCountries Leader tiers neigh
    refine ⟨?_, ?_, ?_⟩
    · rw [ih1, classifyNeighbor_Anchluss, List.filter_cons]
      split_ifs <;> simp
    · intro tag
      have h1 := ih2 tag
      have h2 := hc1 tag
      rw [List.map_cons, List.count_cons]
      rw [List.count_singleton] at h2
      have h3 : (if (neigh.2.tag == tag) = true then 1 else 0)
          = (if (tag == neigh.2.tag) = true then 1 else 0) := by
        by_cases h : tag = neigh.2.tag
        · subst h; simp
        · have h' : ¬ neigh.2.tag = tag := fun e => h e.symm
          simp [h, h']
      omega
    · intro tag h
      rcases ih3 tag h with h | ⟨n, hn, hrest⟩
      · rcases hc2 tag h with h | ⟨h1, h2⟩
        · exact Or.inl h
        · exact Or.inr ⟨neigh, List.mem_cons_self _ _, h1.symm, h2⟩
      · exact Or.inr ⟨n, List.mem_cons_of_mem _ hn, hrest⟩

/-- Counterexample to C23: AUS is a close neighbour of GER, no ally and no
great power, and the ratio of its strength to that of GER at the horizon of
1.5 years is 1/10, below 0.2; AUS is a member of the faction of HUN, which has
two members, and lands among the equal targets, not among the anschluss
candidates. -/
theorem classifyNeighbors_counterexample :
    closeNeighbors exampleDistance (exampleCountry "GER" "fascism" [])
        [("AUS", exampleCountry "AUS" "democratic" [])]
      = [("AUS", exampleCountry "AUS" "democratic" [])]
    ∧ tierStrength "AUS" (3 / 2) / tierStrength "GER" (3 / 2) < 1 / 5
    ∧ classifyNeighbors [{ leader := "HUN", members := ["HUN", "AUS"] }] tierStrength []
        (exampleCountry "GER" "fascism" []) [("AUS", exampleCountry "AUS" "democratic" [])]
      = { Anchluss := [], Sudaten := [], EqualTargets := ["AUS"], DifficultTargets := [] } := by
  have h1 : ¬ ("AUS" = "GER") := by decide
  have hlen : (findFaction [{ leader := "HUN", members := ["HUN", "AUS"] }]
      "AUS").members.length = 2 := by decide
  refine ⟨?_, ?_, ?_⟩
  · have h500 : (400 : ℚ) ≤ 500 := by norm_num
    simp [closeNeighbors, exampleDistance, exampleCountry, StrMap.insert, h500]
  · simp only [tierStrength, if_neg h1, if_true]
    norm_num
  · simp only [classifyNeighbors, classifyNeighbor, List.foldl, exampleCountry, tierStrength,
      if_neg h1, if_true, hlen]
    norm_num

/-- C23, amended: a close neighbour that is no ally of the leader and no
great power is an anschluss candidate exactly when its strength at the
horizon of 1.5 years is below 0.2 times the strength of the leader at the
same horizon and its faction has exactly one member; the members of the
other three tiers are such neighbours that fail this test; when the
neighbours have distinct tags no tag occurs twice in the four tiers, so each
neighbour lands in at most one tier; and the close neighbours are the
neighbours with a capital at a distance of at most 500. -/
theorem classifyNeighbors_tiers (Factions : List HoI4Faction)
    (strengthOverTime : String → ℚ → ℚ) (GreatCountries : List String) (Leader : HoI4Country)
    (CloseNeighbors : StrMap HoI4Country)
    (hnodup : (CloseNeighbors.map (fun neigh => neigh.2.tag)).Nodup) :
    let tiers :=
      classifyNeighbors Factions strengthOverTime GreatCountries Leader CloseNeighbors
    tiers.Anchluss
      = (CloseNeighbors.filter (fun neigh =>
            decide (neigh.2.tag ∉ Leader.allies) && decide (neigh.2.tag ∉ GreatCountries)
            && (decide (strengthOverTime neigh.2.tag (3 / 2)
                  < strengthOverTime Leader.tag (3 / 2) * (1 / 5))
                && decide ((findFaction Factions neigh.2.tag).members.length = 1)))).map
          (fun neigh => neigh.2.tag)
    ∧ (∀ tag ∈ tiers.Sudaten ++ tiers.EqualTargets ++ tiers.DifficultTargets,
        ∃ neigh ∈ CloseNeighbors, neigh.2.tag = tag
          ∧ neigh.2.tag ∉ Leader.allies ∧ neigh.2.tag ∉ GreatCountries
          ∧ ¬ (strengthOverTime neigh.2.tag (3 / 2)
                < strengthOverTime Leader.tag (3 / 2) * (1 / 5)
              ∧ (findFaction Factions neigh.2.tag).members.length = 1))
    ∧ (tiers.Anchluss ++ tiers.Sudaten ++ tiers.EqualTargets ++ tiers.DifficultTargets).Nodup
    ∧ (∀ (getDistanceBetweenCountries : String → String → ℚ)
        (AllNeighbors : StrMap HoI4Country),
        ∀ neigh ∈ closeNeighbors getDistanceBetweenCountries Leader AllNeighbors,
          neigh ∈ AllNeighbors ∧ neigh.2.capitalProv ≠ 0
            ∧ getDistanceBetweenCountries Leader.tag neigh.2.tag ≤ 500) := by
  dsimp only
  unfold classifyNeighbors
  obtain ⟨h1, h2, h3⟩ :=
    classifyNeighbors_foldl Factions strengthOverTime GreatCountries Leader CloseNeighbors
      { Anchluss := [], Sudaten := [], EqualTargets := [], DifficultTargets := [] }
  refine ⟨?_, ?_, ?_, fun getDistanceBetweenCountries AllNeighbors neigh h =>
    closeNeighbors_mem getDistanceBetweenCountries Leader AllNeighbors neigh h⟩
  · have h := h1
    rw [List.nil_append] at h
    exact h
  · intro tag htag
    rcases h3 tag htag with h | ⟨neigh, hn, htageq, helig, hans⟩
    · simp at h
    · refine ⟨neigh, hn, htageq, ?_⟩
      have helig' := (isEligibleNeighbor_iff GreatCountries Leader neigh).mp helig
      refine ⟨helig'.1, helig'.2, ?_⟩
      intro hboth
      have ha := (isAnschlussCandidate_iff Factions strengthOverTime Leader neigh).mpr hboth
      rw [hans] at ha
      exact Bool.false_ne_true ha
  · rw [List.nodup_iff_count_le_one]
    intro tag
    have h := h2 tag
    have hcount := List.nodup_iff_count_le_one.mp hnodup tag
    simp only [List.count_append]
    simp only [List.count_nil] at h
    omega

/-- Witness of C23: for GER with the close neighbours AUS and FRA, where the
ally FRA is skipped, AUS alone in its faction is the anschluss candidate. -/
theorem classifyNeighbors_tiers_witness :
    (([("AUS", exampleCountry "AUS" "democratic" []),
        ("FRA", exampleCountry "FRA" "democratic" [])] : StrMap HoI4Country).map
        (fun neigh => neigh.2.tag)).Nodup
    ∧ (classifyNeighbors [] tierStrength [] (exampleCountry "GER" "fascism" ["FRA"])
        [("AUS", exampleCountry "AUS" "democratic" []),
         ("FRA", exampleCountry "FRA" "democratic" [])]).Anchluss
      = ["AUS"] := by
  have hnodup : (([("AUS", exampleCountry "AUS" "democratic" []),
        ("FRA", exampleCountry "FRA" "democratic" [])] : StrMap HoI4Country).map
        (fun neigh => neigh.2.tag)).Nodup := by decide
  refine ⟨hnodup, ?_⟩
  rw [(classifyNeighbors_tiers [] tierStrength [] (exampleCountry "GER" "fascism" ["FRA"])
    [("AUS", exampleCountry "AUS" "democratic" []),
     ("FRA", exampleCountry "FRA" "democratic" [])] hnodup).1]
  have h1 : ¬ ("AUS" = "GER") := by decide
  have h2 : ¬ ("FRA" = "GER") := by decide
  have hlen : (findFaction [] "AUS").members.length = 1 := by decide
  simp only [List.filter, exampleCountry, tierStrength, if_neg h1, if_neg h2, if_true, hlen]
  norm_num
  decide

/-- The monarchy loop entered with the index `i` hands to
`MonarchyWarCreator` only entries of `GCEvilnessSorted` at the indices 1 to
`i`. -/
theorem monarchyLoop_processed (strengthOverTime : String → ℚ → ℚ)
    (MonarchyWarCreator : String → List HoI4Faction) (WorldStrength : ℚ)
    (GCEvilnessSorted : List String) (i : Nat) (state : MonarchyLoopState) :
    ∃ added : List Nat,
      (monarchyLoop strengthOverTime MonarchyWarCreator WorldStrength GCEvilnessSorted i
          state).processed
        = state.processed ++ added.map (fun index => GCEvilnessSorted.getD index "")
      ∧ ∀ index ∈ added, 1 ≤ index ∧ index ≤ i := by
  induction i generalizing state with
  | zero => exact ⟨[], by simp [monarchyLoop], by simp⟩
  | succ i ih =>
    rw [monarchyLoop]
    split_ifs with hshare
    · refine ⟨[i + 1], by simp, ?_⟩
      intro index hindex
      rw [List.mem_singleton] at hindex
      omega
    · obtain ⟨added, hadded, hbound⟩ := ih
        { CountriesAtWar :=
            (MonarchyWarCreator (GCEvilnessSorted.getD (i + 1) "")).foldl
              (fun CountriesAtWar addedFactions =>
                if addedFactions ∉ CountriesAtWar then CountriesAtWar ++ [addedFactions]
                else CountriesAtWar)
              state.CountriesAtWar,
          processed := state.processed ++ [GCEvilnessSorted.getD (i + 1) ""] }
      refine ⟨(i + 1) :: added, ?_, ?_⟩
      · rw [hadded]
        simp
      · intro index hindex
        rcases List.mem_cons.mp hindex with hindex | hindex
        · omega
        · have := hbound index hindex
          omega

/-- C26, the behaviour of the code: the monarchy loop never hands the entry
0 of `GCEvilnessSorted`, the candidate of the lowest rank, to
`MonarchyWarCreator`: the countries processed are entries at indices from 1
on. With the single candidate RUS, a world strength of 10 and one faction of
strength 1 at war, the share stays at 1/10, below 0.8, and no candidate is
processed; with the candidates RUS and JAP only JAP is processed. -/
theorem monarchyRecruitment_skips_lowest :
    (∀ (strengthOverTime : String → ℚ → ℚ) (MonarchyWarCreator : String → List HoI4Faction)
        (WorldStrength : ℚ) (GCEvilnessSorted : List String)
        (CountriesAtWar : List HoI4Faction),
      ∃ added : List Nat,
        (monarchyRecruitment strengthOverTime MonarchyWarCreator WorldStrength
            GCEvilnessSorted CountriesAtWar).processed
          = added.map (fun index => GCEvilnessSorted.getD index "")
        ∧ ∀ index ∈ added, 1 ≤ index ∧ index < GCEvilnessSorted.length)
    ∧ countriesAtWarStrength unitStrength [{ leader := "GER", members := ["GER"] }] / 10
        < 4 / 5
    ∧ monarchyRecruitment unitStrength noNewWars 10 ["RUS"]
        [{ leader := "GER", members := ["GER"] }]
      = { CountriesAtWar := [{ leader := "GER", members := ["GER"] }], processed := [] }
    ∧ monarchyRecruitment unitStrength noNewWars 10 ["RUS", "JAP"]
        [{ leader := "GER", members := ["GER"] }]
      = { CountriesAtWar := [{ leader := "GER", members := ["GER"] }],
          processed := ["JAP"] } := by
  have hstrength :
      countriesAtWarStrength unitStrength [{ leader := "GER", members := ["GER"] }] = 1 := by
    simp [countriesAtWarStrength, GetFactionStrength, unitStrength]
  refine ⟨?_, ?_, ?_, ?_⟩
  · intro strengthOverTime MonarchyWarCreator WorldStrength GCEvilnessSorted CountriesAtWar
    unfold monarchyRecruitment
    simp only []
    split_ifs with hshare
    · obtain ⟨added, hadded, hbound⟩ :=
        monarchyLoop_processed strengthOverTime MonarchyWarCreator WorldStrength
          GCEvilnessSorted (GCEvilnessSorted.length - 1)
          { CountriesAtWar := CountriesAtWar, processed := [] }
      refine ⟨added, by simpa using hadded, ?_⟩
      intro index hindex
      have := hbound index hindex
      omega
    · exact ⟨[], by simp, by simp⟩
  · rw [hstrength]
    norm_num
  · unfold monarchyRecruitment
    simp only [hstrength]
    norm_num [monarchyLoop]
  · unfold monarchyRecruitment
    simp only [hstrength]
    norm_num [monarchyLoop, noNewWars, hstrength]

/-- C29, the behaviour of the code: the completion reward of every anschluss
focus names the event 0, while the event of its target gets the id
`nfEventNumber + 3 * i`. For the single target AUS with `nfEventNumber = 3`
the focus names `NFEvents.0` and the event made for AUS is `NFEvents.3`; with
`nfEventNumber = 0` and the targets AUS and CZE the focus of CZE names
`NFEvents.0` and the event made for CZE is `NFEvents.3`. -/
theorem anschlussFocuses_event_number :
    (∀ (target : String) (nfEventNumber : Int),
      anschlussFocuses [target] nfEventNumber
        = ([{ target := target, rewardEventNumber := 0, annexEventNumber := nfEventNumber }],
           nfEventNumber + 3))
    ∧ (∀ (target1 target2 : String) (rest : List String) (nfEventNumber : Int),
      anschlussFocuses (target1 :: target2 :: rest) nfEventNumber
        = ([{ target := target1, rewardEventNumber := 0, annexEventNumber := nfEventNumber },
            { target := target2, rewardEventNumber := 0,
              annexEventNumber := nfEventNumber + 3 }],
           nfEventNumber + 3 + 3))
    ∧ (anschlussFocuses ["AUS"] 3).1.map
        (fun focus => (focus.target, focus.rewardLine, focus.annexEventIdLine))
      = [("AUS", "\t\t\t\t\tcountry_event = NFEvents.0\n", "\tid = NFEvents.3\n")]
    ∧ (anschlussFocuses ["AUS", "CZE"] 0).1.map
        (fun focus => (focus.target, focus.rewardLine, focus.annexEventIdLine))
      = [("AUS", "\t\t\t\t\tcountry_event = NFEvents.0\n", "\tid = NFEvents.0\n"),
         ("CZE", "\t\t\t\t\tcountry_event = NFEvents.0\n", "\tid = NFEvents.3\n")] := by
  refine ⟨?_, ?_, by decide, by decide⟩
  · intro target nfEventNumber
    rfl
  · intro target1 target2 rest nfEventNumber
    rfl

/-- C30, the behaviour of the code: with a non-empty list of new allies the
loop of the prerequisite line reads the indices 0 and 1 whatever the length.
`GetMorePossibleAllies` returns the single ally AUS for the fascist GER with
the neighbours AUS (fascist) and FRA (democratic); for this list the index 1
is not below the length 1, and the line is not built, while a list of two
allies gives the line. -/
theorem warFocusPrereq_out_of_bounds :
    GetMorePossibleAllies singleAllyCountries [] exampleDistance singleAllyRequester
      = some ["AUS"]
    ∧ warFocusPrereqIndices ["AUS"] = [0, 1]
    ∧ ["AUS"].length ≤ 1
    ∧ warFocusPrereq ["AUS"] "GER" = none
    ∧ (∀ (ally leaderTag : String), warFocusPrereq [ally] leaderTag = none)
    ∧ (∀ (ally1 ally2 leaderTag : String),
        warFocusPrereq [ally1, ally2] leaderTag
          = some (" \tprerequisite = \x7b " ++ (" focus = Alliance_" ++ ally1 ++ leaderTag)
              ++ (" focus = Alliance_" ++ ally2 ++ leaderTag) ++ "\x7d\n")) := by
  refine ⟨?_, by decide, by decide, by decide, ?_, ?_⟩
  · have h500 : (400 : ℚ) ≤ 500 := by norm_num
    simp only [GetMorePossibleAllies, CountriesWithin500Miles, singleAllyCountries,
      singleAllyRequester, exampleCountry, exampleDistance, List.foldl, h500, if_true]
    decide
  · intro ally leaderTag
    rfl
  · intro ally1 ally2 leaderTag
    rfl

/-- The category set by `determineCategory`, by the range of the slot count
computed from the population and the factory count. -/
theorem determineCategory_category (s : HoI4State) (f : Int) :
    (s.determineCategory f).category
      = if 12 ≤ stateSlots s.sourceState.population (if s.capitalState then f + 1 else f)
          then "megalopolis"
        else if 10 ≤ stateSlots s.sourceState.population (if s.capitalState then f + 1 else f)
          then "metropolis"
        else if 8 ≤ stateSlots s.sourceState.population (if s.capitalState then f + 1 else f)
          then "large_city"
        else if 6 ≤ stateSlots s.sourceState.population (if s.capitalState then f + 1 else f)
          then "city"
        else if 5 ≤ stateSlots s.sourceState.population (if s.capitalState then f + 1 else f)
          then "large_town"
        else if 4 ≤ stateSlots s.sourceState.population (if s.capitalState then f + 1 else f)
          then "town"
        else if 2 ≤ stateSlots s.sourceState.population (if s.capitalState then f + 1 else f)
          then "rural"
        else if 1 ≤ stateSlots s.sourceState.population (if s.capitalState then f + 1 else f)
          then "pastoral"
        else if 0 ≤ stateSlots s.sourceState.population (if s.capitalState then f + 1 else f)
          then "enclave"
        else s.category := by
  show List.foldl _ _ _ = _
  rw [category_fold]

/-- The slot count exceeds the factory count it is computed from. -/
theorem stateSlots_gt (population factories : Int) :
    factories < stateSlots population factories := by
  unfold stateSlots
  simp only []
  split_ifs <;> omega

/-- The method `setIndustry` raises the sum of the three factory counts by
the factory count it is given, when this is not negative, and leaves the
category as it is. -/
theorem setIndustry_total (s : HoI4State) (coastalProvinces : List (Int × Int))
    (randomNumbers : Nat → Int) (factories : Int) (h : 0 ≤ factories) :
    (s.setIndustry coastalProvinces randomNumbers factories).civFactories
        + (s.setIndustry coastalProvinces randomNumbers factories).milFactories
        + (s.setIndustry coastalProvinces randomNumbers factories).dockyards
      = s.civFactories + s.milFactories + s.dockyards + factories
    ∧ (s.setIndustry coastalProvinces randomNumbers factories).category = s.category := by
  have hcoastal : ∀ (l : List Nat) (s : HoI4State),
      (l.foldl (fun s i => s.placeCoastalFactory (randomNumbers i)) s).civFactories
          + (l.foldl (fun s i => s.placeCoastalFactory (randomNumbers i)) s).milFactories
          + (l.foldl (fun s i => s.placeCoastalFactory (randomNumbers i)) s).dockyards
        = s.civFactories + s.milFactories + s.dockyards + l.length
      ∧ (l.foldl (fun s i => s.placeCoastalFactory (randomNumbers i)) s).category
        = s.category := by
    intro l
    induction l with
    | nil => intro s; simp
    | cons i rest ih =>
      intro s
      rw [List.foldl]
      obtain ⟨h1, h2⟩ := ih (s.placeCoastalFactory (randomNumbers i))
      rw [h1, h2]
      unfold HoI4State.placeCoastalFactory
      split_ifs <;> refine ⟨?_, rfl⟩ <;> simp only [List.length_cons] <;> push_cast <;> ring
  have hinland : ∀ (l : List Nat) (s : HoI4State),
      (l.foldl (fun s i => s.placeInlandFactory (randomNumbers i)) s).civFactories
          + (l.foldl (fun s i => s.placeInlandFactory (randomNumbers i)) s).milFactories
          + (l.foldl (fun s i => s.placeInlandFactory (randomNumbers i)) s).dockyards
        = s.civFactories + s.milFactories + s.dockyards + l.length
      ∧ (l.foldl (fun s i => s.placeInlandFactory (randomNumbers i)) s).category
        = s.category := by
    intro l
    induction l with
    | nil => intro s; simp
    | cons i rest ih =>
      intro s
      rw [List.foldl]
      obtain ⟨h1, h2⟩ := ih (s.placeInlandFactory (randomNumbers i))
      rw [h1, h2]
      unfold HoI4State.placeInlandFactory
      split_ifs <;> refine ⟨?_, rfl⟩ <;> simp only [List.length_cons] <;> push_cast <;> ring
  have hlen : (((List.range factories.toNat).length : Nat) : Int) = factories := by
    rw [List.length_range]
    exact Int.toNat_of_nonneg h
  unfold HoI4State.setIndustry
  split_ifs
  · obtain ⟨h1, h2⟩ := hcoastal (List.range factories.toNat) s
    rw [h1, h2, hlen]
    exact ⟨rfl, rfl⟩
  · obtain ⟨h1, h2⟩ := hinland (List.range factories.toNat) s
    rw [h1, h2, hlen]
    exact ⟨rfl, rfl⟩

/-- C27: for every population and every factory count f from 0 to 12, or from
0 to 11 in the capital state, the category that `determineCategory` sets is
an entry of the table other than enclave whose threshold is at least the
factory count that the method works on, which is f, or f + 1 in the capital
state; and the factories that `setIndustry` then places for the count f, with
any coastal provinces and any draws, number f and do not exceed the
threshold of the category of the state. -/
theorem determineCategory_threshold (s : HoI4State) (f : Int) (h0 : 0 ≤ f)
    (hupper : f ≤ (if s.capitalState then 11 else 12)) :
    (s.determineCategory f).category ≠ "enclave"
    ∧ ∃ entry ∈ stateCategoryInsertions,
        entry.2 = (s.determineCategory f).category
        ∧ (if s.capitalState then f + 1 else f) ≤ entry.1
        ∧ ∀ (coastalProvinces : List (Int × Int)) (randomNumbers : Nat → Int),
            (((s.determineCategory f).setInfrastructure f).setIndustry coastalProvinces
                randomNumbers f).category = entry.2
            ∧ (((s.determineCategory f).setInfrastructure f).setIndustry coastalProvinces
                  randomNumbers f).civFactories
                + (((s.determineCategory f).setInfrastructure f).setIndustry coastalProvinces
                  randomNumbers f).milFactories
                + (((s.determineCategory f).setInfrastructure f).setIndustry coastalProvinces
                  randomNumbers f).dockyards
                - (s.civFactories + s.milFactories + s.dockyards) = f
            ∧ f ≤ entry.1 := by
  have hgt := stateSlots_gt s.sourceState.population (if s.capitalState then f + 1 else f)
  have hf : 0 ≤ (if s.capitalState then f + 1 else f)
      ∧ (if s.capitalState then f + 1 else f) ≤ 12
      ∧ f ≤ (if s.capitalState then f + 1 else f) := by
    split_ifs at hupper ⊢ <;> omega
  have hplaced : ∀ (coastalProvinces : List (Int × Int)) (randomNumbers : Nat → Int),
      (((s.determineCategory f).setInfrastructure f).setIndustry coastalProvinces
          randomNumbers f).category = (s.determineCategory f).category
      ∧ (((s.determineCategory f).setInfrastructure f).setIndustry coastalProvinces
            randomNumbers f).civFactories
          + (((s.determineCategory f).setInfrastructure f).setIndustry coastalProvinces
            randomNumbers f).milFactories
          + (((s.determineCategory f).setInfrastructure f).setIndustry coastalProvinces
            randomNumbers f).dockyards
          - (s.civFactories + s.milFactories + s.dockyards) = f := by
    intro coastalProvinces randomNumbers
    obtain ⟨h1, h2⟩ :=
      setIndustry_total ((s.determineCategory f).setInfrastructure f) coastalProvinces
        randomNumbers f h0
    rw [h1, h2]
    refine ⟨rfl, ?_⟩
    show s.civFactories + s.milFactories + s.dockyards + f
      - (s.civFactories + s.milFactories + s.dockyards) = f
    ring
  have hmain : (s.determineCategory f).category ≠ "enclave"
      ∧ ∃ entry ∈ stateCategoryInsertions,
          entry.2 = (s.determineCategory f).category
          ∧ (if s.capitalState then f + 1 else f) ≤ entry.1
          ∧ f ≤ entry.1 := by
    rw [determineCategory_category]
    generalize stateSlots s.sourceState.population (if s.capitalState then f + 1 else f)
      = slots at hgt ⊢
    generalize (if s.capitalState then f + 1 else f) = factories at hgt hf ⊢
    obtain ⟨hf0, hf12, hff⟩ := hf
    by_cases c12 : 12 ≤ slots
    · rw [if_pos c12]
      exact ⟨by decide, (12, "megalopolis"), by simp [stateCategoryInsertions], rfl,
        by simp only; omega, by simp only; omega⟩
    rw [if_neg c12]
    by_cases c10 : 10 ≤ slots
    · rw [if_pos c10]
      exact ⟨by decide, (10, "metropolis"), by simp [stateCategoryInsertions], rfl,
        by simp only; omega, by simp only; omega⟩
    rw [if_neg c10]
    by_cases c8 : 8 ≤ slots
    · rw [if_pos c8]
      exact ⟨by decide, (8, "large_city"), by simp [stateCategoryInsertions], rfl,
        by simp only; omega, by simp only; omega⟩
    rw [if_neg c8]
    by_cases c6 : 6 ≤ slots
    · rw [if_pos c6]
      exact ⟨by decide, (6, "city"), by simp [stateCategoryInsertions], rfl,
        by simp only; omega, by simp only; omega⟩
    rw [if_neg c6]
    by_cases c5 : 5 ≤ slots
    · rw [if_pos c5]
      exact ⟨by decide, (5, "large_town"), by simp [stateCategoryInsertions], rfl,
        by simp only; omega, by simp only; omega⟩
    rw [if_neg c5]
    by_cases c4 : 4 ≤ slots
    · rw [if_pos c4]
      exact ⟨by decide, (4, "town"), by simp [stateCategoryInsertions], rfl,
        by simp only; omega, by simp only; omega⟩
    rw [if_neg c4]
    by_cases c2 : 2 ≤ slots
    · rw [if_pos c2]
      exact ⟨by decide, (2, "rural"), by simp [stateCategoryInsertions], rfl,
        by simp only; omega, by simp only; omega⟩
    rw [if_neg c2]
    by_cases c1 : 1 ≤ slots
    · rw [if_pos c1]
      exact ⟨by decide, (1, "pastoral"), by simp [stateCategoryInsertions], rfl,
        by simp only; omega, by simp only; omega⟩
    · omega
  obtain ⟨hne, entry, hmem, hcat, hcap, hle⟩ := hmain
  refine ⟨hne, entry, hmem, hcat, hcap, ?_⟩
  intro coastalProvinces randomNumbers
  obtain ⟨hc, hsum⟩ := hplaced coastalProvinces randomNumbers
  exact ⟨hc.trans hcat.symm, hsum, hle⟩

/-- Witness of C27: in the example state, which is not the capital, 3
factories lead to a category other than enclave. -/
theorem determineCategory_threshold_witness :
    (0 : Int) ≤ 3 ∧ (3 : Int) ≤ (if exampleState.capitalState then 11 else 12)
    ∧ (exampleState.determineCategory 3).category ≠ "enclave" :=
  ⟨by decide, by decide, (determineCategory_threshold exampleState 3 (by decide) (by decide)).1⟩

/-- An insertion with a key above all keys present appends the entry. -/
theorem StrMap.insert_last {α : Type} (k : String) (v : α) (m : StrMap α)
    (h : ∀ e ∈ m, e.1 < k) : StrMap.insert k v m = m ++ [(k, v)] := by
  induction m with
  | nil => rfl
  | cons head rest ih =>
    obtain ⟨k', v'⟩ := head
    have hk : k' < k := h (k', v') (List.mem_cons_self _ _)
    unfold StrMap.insert
    rw [if_neg (lt_asymm hk), if_neg (ne_of_gt hk),
      ih (fun e he => h e (List.mem_cons_of_mem _ he))]
    rfl

/-- A loop that inserts one entry per element of a list in ascending key
order, into a map whose keys lie below, appends the entries in order. -/
theorem foldl_insert_sorted {α β : Type} (g : String × α → β)
    (f : StrMap β → String × α → StrMap β) (l : List (String × α))
    (hsorted : l.Pairwise (fun a b => a.1 < b.1))
    (hf : ∀ c ∈ l, ∀ acc, f acc c = StrMap.insert c.1 (g c) acc)
    (acc : StrMap β) (hacc : ∀ e ∈ acc, ∀ c ∈ l, e.1 < c.1) :
    l.foldl f acc = acc ++ l.map (fun c => (c.1, g c)) := by
  induction l generalizing acc with
  | nil => simp
  | cons c rest ih =>
    rw [List.pairwise_cons] at hsorted
    rw [List.foldl, hf c (List.mem_cons_self _ _),
      StrMap.insert_last _ _ _ (fun e he => hacc e he c (List.mem_cons_self _ _)),
      ih hsorted.2 (fun d hd => hf d (List.mem_cons_of_mem _ hd))]
    · simp
    · intro e he d hd
      rcases List.mem_append.mp he with he | he
      · exact hacc e he d (List.mem_cons_of_mem _ hd)
      · rw [List.mem_singleton] at he
        rw [he]
        exact hsorted.1 d hd

/-- In a map built from a list in ascending key order, the key of an element
finds the value of that element. -/
theorem find_map_sorted {α β : Type} (g : String × α → β) (l : List (String × α))
    (hsorted : l.Pairwise (fun a b => a.1 < b.1)) (c : String × α) (hc : c ∈ l) :
    StrMap.find c.1 (l.map (fun c => (c.1, g c))) = some (g c) := by
  induction l with
  | nil => exact absurd hc (List.not_mem_nil _)
  | cons d rest ih =>
    rw [List.pairwise_cons] at hsorted
    rw [List.map_cons, StrMap.find]
    rcases List.mem_cons.mp hc with hc | hc
    · subst hc
      rw [if_pos rfl]
    · rw [if_neg (ne_of_gt (hsorted.1 c hc)), ih hsorted.2 hc]

/-- The sum of the adjusted worker counts over a list. -/
theorem sum_adjusted {α : Type} (a : α → ℚ) (shape mean : ℚ) (l : List α) :
    (l.map (fun c => a c - shape * (a c - mean))).sum
      = (l.map a).sum - shape * ((l.map a).sum - l.length * mean) := by
  induction l with
  | nil => simp
  | cons c rest ih =>
    rw [List.map_cons, List.sum_cons, ih, List.map_cons, List.sum_cons, List.length_cons]
    push_cast
    ring

/-- A common factor leaves a sum of products. -/
theorem sum_mul_const {α : Type} (a : α → ℚ) (r : ℚ) (l : List α) :
    (l.map (fun c => a c * r)).sum = (l.map a).sum * r := by
  induction l with
  | nil => simp
  | cons c rest ih =>
    rw [List.map_cons, List.sum_cons, ih, List.map_cons, List.sum_cons]
    ring

/-- The sum of positive whole numbers over a list that is not empty is
positive. -/
theorem sum_workers_pos (l : LandedCountries) (hne : l ≠ []) (hpos : ∀ c ∈ l, 0 < c.2) :
    0 < (l.map (fun c => (c.2 : ℚ))).sum := by
  induction l with
  | nil => exact absurd rfl hne
  | cons c rest ih =>
    rw [List.map_cons, List.sum_cons]
    have hc : (0 : ℚ) < (c.2 : ℚ) := by exact_mod_cast hpos c (List.mem_cons_self _ _)
    by_cases hrest : rest = []
    · subst hrest
      simpa using hc
    · have := ih hrest (fun d hd => hpos d (List.mem_cons_of_mem _ hd))
      linarith

/-- The map of the workers per country, when every landed country has
workers: one entry per landed country. -/
theorem getIndustrialWorkersPerCountry_eq (l : LandedCountries)
    (hsorted : l.Pairwise (fun a b => a.1 < b.1)) (hpos : ∀ c ∈ l, 0 < c.2) :
    getIndustrialWorkersPerCountry l = l.map (fun c => (c.1, (c.2 : ℚ))) := by
  unfold getIndustrialWorkersPerCountry
  rw [foldl_insert_sorted (fun (c : String × Int) => (c.2 : ℚ)) _ l hsorted _ [] (by simp)]
  · simp
  · intro c hc acc
    simp only []
    rw [if_pos (hpos c hc)]

/-- The map of the adjusted workers over workers in ascending key order. -/
theorem adjustWorkers_eq (config : Configuration) (workers : StrMap ℚ)
    (hsorted : workers.Pairwise (fun a b => a.1 < b.1)) (totalWorldWorkers : ℚ) :
    adjustWorkers config workers totalWorldWorkers
      = workers.map (fun w =>
          (w.1, w.2 - config.industrialShapeFactor
            * (w.2 - totalWorldWorkers / workers.length))) := by
  unfold adjustWorkers
  simp only []
  rw [foldl_insert_sorted (fun w => w.2 - totalWorldWorkers / workers.length) _ workers hsorted
    (fun w _ acc => rfl) [] (by simp), List.nil_append]
  rw [foldl_insert_sorted
    (fun w => w.2 - config.industrialShapeFactor * (w.2 - totalWorldWorkers / workers.length))
    _ workers hsorted _ [] (by simp), List.nil_append]
  intro w hw acc
  rw [find_map_sorted (fun w => w.2 - totalWorldWorkers / workers.length) workers hsorted w hw]
  rfl

/-- The adjusted workers and the ratios of `calculateFactoryWorkerRatios`
over landed countries in ascending tag order that all have workers: the
adjusted counts sum to the total of the workers, and the ratios times the
workers sum to the value of `newIndustry`. -/
theorem calculateFactoryWorkerRatios_sum (config : Configuration) (l : LandedCountries)
    (hsorted : l.Pairwise (fun a b => a.1 < b.1)) (hne : l ≠ [])
    (hpos : ∀ c ∈ l, 0 < c.2) :
    ((adjustWorkers config (getIndustrialWorkersPerCountry l)
        (getTotalWorldWorkers (getIndustrialWorkersPerCountry l))).map Prod.snd).sum
      = (l.map (fun c => (c.2 : ℚ))).sum
    ∧ (calculateFactoryWorkerRatios config l).map Prod.fst = l.map Prod.fst
    ∧ (l.map (fun c =>
          (StrMap.find c.1 (calculateFactoryWorkerRatios config l)).getD 0 * (c.2 : ℚ))).sum
      = 19 / 1000000 * (l.map (fun c => (c.2 : ℚ))).sum
        - config.icFactor
          * (19 / 1000000 * (l.map (fun c => (c.2 : ℚ))).sum
            - (((1189 - (l.length : Int)) % 2 ^ 64 : Int) : ℚ)) := by
  have hT := sum_workers_pos l hne hpos
  have hN : (l.length : ℚ) ≠ 0 := by
    have : l.length ≠ 0 := fun h => hne (List.length_eq_zero.mp h)
    exact_mod_cast this
  have hW := getIndustrialWorkersPerCountry_eq l hsorted hpos
  have hWs : (l.map (fun c => (c.1, (c.2 : ℚ)))).Pairwise (fun a b => a.1 < b.1) := by
    rw [List.pairwise_map]
    exact hsorted
  have htotal : getTotalWorldWorkers (l.map (fun c => (c.1, (c.2 : ℚ))))
      = (l.map (fun c => (c.2 : ℚ))).sum := by
    unfold getTotalWorldWorkers
    rw [foldl_add_eq_sum (fun (w : String × ℚ) => w.2), List.map_map, zero_add]
    rfl
  have hadj : adjustWorkers config (l.map (fun c => (c.1, (c.2 : ℚ))))
        ((l.map (fun c => (c.2 : ℚ))).sum)
      = l.map (fun c => (c.1, (c.2 : ℚ) - config.industrialShapeFactor
          * ((c.2 : ℚ) - (l.map (fun c => (c.2 : ℚ))).sum / l.length))) := by
    rw [adjustWorkers_eq config _ hWs, List.map_map, List.length_map]
    rfl
  have hadjsum : (l.map (fun c => (c.2 : ℚ) - config.industrialShapeFactor
          * ((c.2 : ℚ) - (l.map (fun c => (c.2 : ℚ))).sum / l.length))).sum
      = (l.map (fun c => (c.2 : ℚ))).sum := by
    rw [sum_adjusted (fun (c : String × Int) => (c.2 : ℚ))]
    field_simp
  have hratio : getWorldwideWorkerFactoryRatio config l
        (l.map (fun c => (c.1, (c.2 : ℚ) - config.industrialShapeFactor
          * ((c.2 : ℚ) - (l.map (fun c => (c.2 : ℚ))).sum / l.length))))
        ((l.map (fun c => (c.2 : ℚ))).sum)
      = (19 / 1000000 * (l.map (fun c => (c.2 : ℚ))).sum
          - config.icFactor
            * (19 / 1000000 * (l.map (fun c => (c.2 : ℚ))).sum
              - (((1189 - (l.length : Int)) % 2 ^ 64 : Int) : ℚ)))
        / (l.map (fun c => (c.2 : ℚ))).sum := by
    unfold getWorldwideWorkerFactoryRatio
    simp only []
    rw [foldl_add_eq_sum (fun (w : String × ℚ) => w.2 * (19 / 1000000)), List.map_map,
      zero_add]
    have hbase : (l.map ((fun (w : String × ℚ) => w.2 * (19 / 1000000))
          ∘ (fun (c : String × Int) => (c.1, (c.2 : ℚ) - config.industrialShapeFactor
            * ((c.2 : ℚ) - (l.map (fun c => (c.2 : ℚ))).sum / l.length))))).sum
        = 19 / 1000000 * (l.map (fun c => (c.2 : ℚ))).sum := by
      have := sum_mul_const (fun (c : String × Int) =>
        (c.2 : ℚ) - config.industrialShapeFactor
          * ((c.2 : ℚ) - (l.map (fun c => (c.2 : ℚ))).sum / l.length)) (19 / 1000000) l
      rw [hadjsum] at this
      rw [mul_comm, ← this]
      rfl
    rw [hbase]
  have hratios : calculateFactoryWorkerRatios config l
      = l.map (fun c => (c.1,
          ((c.2 : ℚ) - config.industrialShapeFactor
            * ((c.2 : ℚ) - (l.map (fun c => (c.2 : ℚ))).sum / l.length))
          * ((19 / 1000000 * (l.map (fun c => (c.2 : ℚ))).sum
              - config.icFactor
                * (19 / 1000000 * (l.map (fun c => (c.2 : ℚ))).sum
                  - (((1189 - (l.length : Int)) % 2 ^ 64 : Int) : ℚ)))
            / (l.map (fun c => (c.2 : ℚ))).sum)
          / (c.2 : ℚ))) := by
    unfold calculateFactoryWorkerRatios
    simp only []
    rw [hW, htotal, hadj, hratio]
    rw [foldl_insert_sorted _ _ l hsorted _ [] (by simp), List.nil_append]
    intro c hc acc
    rw [if_pos (hpos c hc),
      find_map_sorted (fun (c : String × Int) => (c.2 : ℚ) - config.industrialShapeFactor
          * ((c.2 : ℚ) - (l.map (fun c => (c.2 : ℚ))).sum / l.length)) l hsorted c hc]
    rfl
  refine ⟨?_, ?_, ?_⟩
  · rw [hW, htotal, hadj, List.map_map]
    exact hadjsum
  · rw [hratios, List.map_map]
    rfl
  · rw [hratios]
    have hterm : ∀ c ∈ l,
        (StrMap.find c.1 (l.map (fun (c : String × Int) => (c.1,
          ((c.2 : ℚ) - config.industrialShapeFactor
            * ((c.2 : ℚ) - (l.map (fun c => (c.2 : ℚ))).sum / l.length))
          * ((19 / 1000000 * (l.map (fun c => (c.2 : ℚ))).sum
              - config.icFactor
                * (19 / 1000000 * (l.map (fun c => (c.2 : ℚ))).sum
                  - (((1189 - (l.length : Int)) % 2 ^ 64 : Int) : ℚ)))
            / (l.map (fun c => (c.2 : ℚ))).sum)
          / (c.2 : ℚ))))).getD 0 * (c.2 : ℚ)
        = ((c.2 : ℚ) - config.industrialShapeFactor
            * ((c.2 : ℚ) - (l.map (fun c => (c.2 : ℚ))).sum / l.length))
          * ((19 / 1000000 * (l.map (fun c => (c.2 : ℚ))).sum
              - config.icFactor
                * (19 / 1000000 * (l.map (fun c => (c.2 : ℚ))).sum
                  - (((1189 - (l.length : Int)) % 2 ^ 64 : Int) : ℚ)))
            / (l.map (fun c => (c.2 : ℚ))).sum) := by
      intro c hc
      rw [find_map_sorted _ l hsorted c hc, Option.getD_some]
      have hc0 : (c.2 : ℚ) ≠ 0 := by
        have := hpos c hc
        have h' : (0 : ℚ) < (c.2 : ℚ) := by exact_mod_cast this
        exact ne_of_gt h'
      exact div_mul_cancel₀ _ hc0
    have hT0 : (l.map (fun c => (c.2 : ℚ))).sum ≠ 0 := ne_of_gt hT
    rw [List.map_congr_left hterm, sum_mul_const, hadjsum]
    field_simp
    ring

/-- A shorter list of copies of a character is below a longer one. -/
theorem replicate_lt (n m : Nat) (h : n < m) :
    List.replicate n 'a' < List.replicate m 'a' := by
  induction n generalizing m with
  | zero =>
    obtain ⟨k, rfl⟩ : ∃ k, m = k + 1 := ⟨m - 1, by omega⟩
    exact List.Lex.nil
  | succ n ih =>
    obtain ⟨k, rfl⟩ : ∃ k, m = k + 1 := ⟨m - 1, by omega⟩
    exact List.Lex.cons (ih k (by omega))

/-- The tags of the example of the many countries ascend. -/
theorem manyLandedCountries_sorted :
    manyLandedCountries.Pairwise (fun a b => a.1 < b.1) := by
  unfold manyLandedCountries
  rw [List.pairwise_map]
  refine List.Pairwise.imp ?_ (List.pairwise_lt_range 1190)
  intro i j hij
  show String.mk (List.replicate (i + 1) 'a') < String.mk (List.replicate (j + 1) 'a')
  rw [String.lt_iff_toList_lt]
  exact replicate_lt (i + 1) (j + 1) (by omega)

/-- Counterexample to C28: with 1190 landed countries of one worker each,
shape factor 0 and IC factor 1, the difference `1189 - landedCountries.size()`
wraps around in the unsigned type and the ratios times the workers sum to
2 ^ 64 - 1, not to 1189 - 1190. -/
theorem calculateFactoryWorkerRatios_counterexample :
    manyLandedCountries ≠ []
    ∧ (∀ c ∈ manyLandedCountries, 0 < c.2)
    ∧ manyLandedCountries.length = 1190
    ∧ (manyLandedCountries.map (fun c =>
          (StrMap.find c.1
            (calculateFactoryWorkerRatios { industrialShapeFactor := 0, icFactor := 1 }
              manyLandedCountries)).getD 0 * (c.2 : ℚ))).sum
        = 18446744073709551615
    ∧ (18446744073709551615 : ℚ)
        ≠ 19 / 1000000 * (manyLandedCountries.map (fun c => (c.2 : ℚ))).sum
          - 1 * (19 / 1000000 * (manyLandedCountries.map (fun c => (c.2 : ℚ))).sum
            - (1189 - (manyLandedCountries.length : ℚ))) := by
  have hlen : manyLandedCountries.length = 1190 := by
    simp [manyLandedCountries]
  have hne : manyLandedCountries ≠ [] := by
    intro h
    rw [h] at hlen
    exact absurd hlen (by decide)
  have hpos : ∀ c ∈ manyLandedCountries, 0 < c.2 := by
    intro c hc
    unfold manyLandedCountries at hc
    obtain ⟨i, _, rfl⟩ := List.mem_map.mp hc
    exact Int.one_pos
  refine ⟨hne, hpos, hlen, ?_, ?_⟩
  · rw [(calculateFactoryWorkerRatios_sum _ manyLandedCountries manyLandedCountries_sorted hne
      hpos).2.2, hlen]
    norm_num
  · rw [hlen]
    norm_num

/-- C28, amended: for landed countries in ascending tag order, at least one
and at most 1189, that all have employed workers, and for every shape factor
and IC factor, the adjusted worker counts sum to the total of the workers,
and the ratios of `calculateFactoryWorkerRatios` times the workers sum to
B - icFactor * (B - (1189 - N)), where B is 0.000019 times the total and N
the number of landed countries; with the IC factor 1 the sum is 1189 - N. -/
theorem calculateFactoryWorkerRatios_total (config : Configuration)
    (landedCountries : LandedCountries)
    (hsorted : landedCountries.Pairwise (fun a b => a.1 < b.1))
    (hne : landedCountries ≠ []) (hpos : ∀ c ∈ landedCountries, 0 < c.2)
    (hmost : landedCountries.length ≤ 1189) :
    let W := (landedCountries.map (fun c => (c.2 : ℚ))).sum
    let B := 19 / 1000000 * W
    let N : ℚ := landedCountries.length
    let workers := getIndustrialWorkersPerCountry landedCountries
    let ratios := calculateFactoryWorkerRatios config landedCountries
    let factories :=
      (landedCountries.map (fun c => (StrMap.find c.1 ratios).getD 0 * (c.2 : ℚ))).sum
    ((adjustWorkers config workers (getTotalWorldWorkers workers)).map Prod.snd).sum = W
    ∧ ratios.map Prod.fst = landedCountries.map Prod.fst
    ∧ factories = B - config.icFactor * (B - (1189 - N))
    ∧ (config.icFactor = 1 → factories = 1189 - N) := by
  intro W B N workers ratios factories
  obtain ⟨h1, h2, h3⟩ :=
    calculateFactoryWorkerRatios_sum config landedCountries hsorted hne hpos
  have hwrap : (((1189 - (landedCountries.length : Int)) % 2 ^ 64 : Int) : ℚ) = 1189 - N := by
    rw [Int.emod_eq_of_lt (by omega) (by omega)]
    push_cast
    rfl
  rw [hwrap] at h3
  refine ⟨h1, h2, h3, ?_⟩
  intro hic
  show (landedCountries.map (fun c =>
    (StrMap.find c.1 (calculateFactoryWorkerRatios config landedCountries)).getD 0
      * (c.2 : ℚ))).sum = 1189 - N
  rw [h3, hic]
  ring

/-- Witness of C28: for ENG with 100 and FRA with 300 workers, shape factor
1/2 and IC factor 1, the ratios times the workers sum to 1187. -/
theorem calculateFactoryWorkerRatios_total_witness :
    twoLandedCountries.Pairwise (fun a b => a.1 < b.1)
    ∧ (twoLandedCountries.map (fun c =>
          (StrMap.find c.1
            (calculateFactoryWorkerRatios { industrialShapeFactor := 1 / 2, icFactor := 1 }
              twoLandedCountries)).getD 0 * (c.2 : ℚ))).sum
        = 1189 - ((twoLandedCountries.length : Nat) : ℚ) := by
  have hsorted : twoLandedCountries.Pairwise (fun a b => a.1 < b.1) := by
    unfold twoLandedCountries
    rw [List.pairwise_cons]
    refine ⟨?_, List.pairwise_singleton _ _⟩
    intro b hb
    rw [List.mem_singleton] at hb
    rw [hb, String.lt_iff_toList_lt]
    decide
  exact ⟨hsorted,
    (calculateFactoryWorkerRatios_total { industrialShapeFactor := 1 / 2, icFactor := 1 }
      twoLandedCountries hsorted (by decide) (by decide) (by decide)).2.2.2 rfl⟩

/-- The search in a map that starts with an entry. -/
theorem IntMap.find_cons {α : Type} (q k : Int) (v : α) (rest : List (Int × α)) :
    IntMap.find q ((k, v) :: rest) = if q = k then some v else IntMap.find q rest :=
  rfl

/-- A search for a key other than the erased one is not changed by the
erasure. -/
theorem IntMap.find_erase_ne {α : Type} (p q : Int) (m : List (Int × α)) (h : q ≠ p) :
    IntMap.find q (IntMap.erase p m) = IntMap.find q m := by
  induction m with
  | nil => rfl
  | cons head rest ih =>
    obtain ⟨k, v⟩ := head
    unfold IntMap.erase
    by_cases hp : p = k
    · rw [if_pos hp, IntMap.find_cons, if_neg (fun hq => h (hq.trans hp.symm))]
    · rw [if_neg hp, IntMap.find_cons, IntMap.find_cons, ih]

/-- A key that is not found is no key of an entry. -/
theorem IntMap.find_none {α : Type} (p : Int) (m : List (Int × α))
    (h : IntMap.find p m = none) : ∀ e ∈ m, e.1 ≠ p := by
  induction m with
  | nil => intro e he; exact absurd he (List.not_mem_nil _)
  | cons head rest ih =>
    obtain ⟨k, v⟩ := head
    rw [IntMap.find_cons] at h
    by_cases hp : p = k
    · rw [if_pos hp] at h
      exact absurd h (by simp)
    · rw [if_neg hp] at h
      intro e he
      rcases List.mem_cons.mp he with he | he
      · rw [he]
        exact fun hk => hp hk.symm
      · exact ih h e he

/-- A value found for a key belongs to an entry of the map. -/
theorem IntMap.find_some_mem {α : Type} (p : Int) (v : α) (m : List (Int × α))
    (h : IntMap.find p m = some v) : (p, v) ∈ m := by
  induction m with
  | nil => exact absurd h (by simp [IntMap.find])
  | cons head rest ih =>
    obtain ⟨k, w⟩ := head
    rw [IntMap.find_cons] at h
    by_cases hp : p = k
    · rw [if_pos hp] at h
      rw [hp, ← Option.some.inj h]
      exact List.mem_cons_self _ _
    · rw [if_neg hp] at h
      exact List.mem_cons_of_mem _ (ih h)

/-- In a map with distinct keys every entry is found by its key. -/
theorem IntMap.find_of_mem {α : Type} (m : List (Int × α)) (hkeys : (m.map Prod.fst).Nodup)
    (e : Int × α) (he : e ∈ m) : IntMap.find e.1 m = some e.2 := by
  induction m with
  | nil => exact absurd he (List.not_mem_nil _)
  | cons head rest ih =>
    obtain ⟨k, w⟩ := head
    rw [List.map_cons, List.nodup_cons] at hkeys
    rw [IntMap.find_cons]
    rcases List.mem_cons.mp he with he | he
    · rw [he, if_pos rfl]
    · have hne : e.1 ≠ k := by
        intro hk
        apply hkeys.1
        exact List.mem_map.mpr ⟨e, he, hk⟩
      rw [if_neg hne]
      exact ih hkeys.2 he

/-- In a map with distinct keys the erasure of a key removes the entries of
that key. -/
theorem IntMap.erase_eq_filter {α : Type} (p : Int) (m : List (Int × α))
    (hkeys : (m.map Prod.fst).Nodup) :
    IntMap.erase p m = m.filter (fun e => decide (e.1 ≠ p)) := by
  induction m with
  | nil => rfl
  | cons head rest ih =>
    obtain ⟨k, w⟩ := head
    rw [List.map_cons, List.nodup_cons] at hkeys
    unfold IntMap.erase
    by_cases hp : p = k
    · rw [if_pos hp, List.filter_cons]
      have h1 : decide ((k, w).1 ≠ p) = false := by
        rw [decide_eq_false_iff_not, not_not]
        exact hp.symm
      rw [h1]
      symm
      rw [if_neg Bool.false_ne_true, List.filter_eq_self]
      intro e he
      rw [decide_eq_true_iff]
      intro hk
      apply hkeys.1
      exact List.mem_map.mpr ⟨e, he, hk.trans hp⟩
    · rw [if_neg hp, List.filter_cons]
      have h1 : decide ((k, w).1 ≠ p) = true := by
        rw [decide_eq_true_iff]
        exact fun hk => hp hk.symm
      rw [h1, if_pos rfl, ih hkeys.2]

/-- A filter on the keys that keeps a key does not change what is found for
it. -/
theorem IntMap.find_filter {α : Type} (P : Int → Bool) (q : Int) (m : List (Int × α))
    (h : P q = true) : IntMap.find q (m.filter (fun e => P e.1)) = IntMap.find q m := by
  induction m with
  | nil => rfl
  | cons head rest ih =>
    obtain ⟨k, w⟩ := head
    rw [List.filter_cons]
    by_cases hq : q = k
    · have hk : P (k, w).1 = true := by rw [← hq]; exact h
      rw [if_pos hk, IntMap.find_cons, IntMap.find_cons, if_pos hq, if_pos hq]
    · by_cases hk : P (k, w).1 = true
      · rw [if_pos hk, IntMap.find_cons, IntMap.find_cons, if_neg hq, if_neg hq, ih]
      · rw [if_neg hk, IntMap.find_cons, if_neg hq, ih]

/-- An entry of a map after an insertion is the entry inserted or was there
before. -/
theorem IntMap.mem_of_mem_insert {α : Type} (k : Int) (v : α) (m : List (Int × α))
    (entry : Int × α) (h : entry ∈ IntMap.insert k v m) : entry = (k, v) ∨ entry ∈ m := by
  induction m with
  | nil =>
    simp only [IntMap.insert, List.mem_singleton] at h
    exact Or.inl h
  | cons head rest ih =>
    obtain ⟨k', v'⟩ := head
    unfold IntMap.insert at h
    split_ifs at h with h1 h2
    · rcases List.mem_cons.mp h with h | h
      · exact Or.inl h
      · exact Or.inr h
    · exact Or.inr h
    · rcases List.mem_cons.mp h with h | h
      · exact Or.inr (List.mem_cons.mpr (Or.inl h))
      · rcases ih h with h | h
        · exact Or.inl h
        · exact Or.inr (List.mem_cons.mpr (Or.inr h))

/-- An insertion keeps the ascending key order. -/
theorem IntMap.insert_sorted {α : Type} (k : Int) (v : α) (m : List (Int × α))
    (h : m.Pairwise (fun a b => a.1 < b.1)) :
    (IntMap.insert k v m).Pairwise (fun a b => a.1 < b.1) := by
  induction m with
  | nil => exact List.pairwise_singleton _ _
  | cons head rest ih =>
    obtain ⟨k', v'⟩ := head
    have h' := List.pairwise_cons.mp h
    unfold IntMap.insert
    split_ifs with h1 h2
    · refine List.pairwise_cons.mpr ⟨?_, h⟩
      intro e he
      rcases List.mem_cons.mp he with he | he
      · rw [he]
        exact h1
      · exact lt_trans h1 (h'.1 e he)
    · exact h
    · refine List.pairwise_cons.mpr ⟨?_, ih h'.2⟩
      intro e he
      rcases IntMap.mem_of_mem_insert k v rest e he with he | he
      · rw [he]
        show k' < k
        omega
      · exact h'.1 e he

/-- After an insertion of a key that was absent the key holds the value
inserted and the other keys hold what they held. -/
theorem IntMap.find_insert {α : Type} (k : Int) (v : α) (m : List (Int × α)) (r : Int)
    (h : IntMap.find k m = none) :
    IntMap.find r (IntMap.insert k v m) = if r = k then some v else IntMap.find r m := by
  induction m with
  | nil => rfl
  | cons head rest ih =>
    obtain ⟨k', v'⟩ := head
    rw [IntMap.find_cons] at h
    have hk : ¬ k = k' := by
      intro hk
      rw [if_pos hk] at h
      exact absurd h (by simp)
    rw [if_neg hk] at h
    unfold IntMap.insert
    by_cases h1 : k < k'
    · rw [if_pos h1, IntMap.find_cons]
    · rw [if_neg h1, if_neg hk, IntMap.find_cons, IntMap.find_cons, ih h]
      by_cases hr : r = k
      · have hr' : ¬ r = k' := fun h3 => hk (hr.symm.trans h3)
        simp only [if_pos hr, if_neg hr']
      · simp only [if_neg hr]

/-- After the increment at a key the key holds one more and the other keys
hold what they held. -/
theorem IntMap.find_increment (k : Int) (m : List (Int × Int)) (r : Int) :
    IntMap.find r (IntMap.increment k m)
      = if r = k then (IntMap.find k m).map (fun v => v + 1) else IntMap.find r m := by
  induction m with
  | nil =>
    show (none : Option Int) = _
    split_ifs <;> rfl
  | cons head rest ih =>
    obtain ⟨k', v'⟩ := head
    unfold IntMap.increment
    by_cases hk : k = k'
    · rw [if_pos hk, IntMap.find_cons, IntMap.find_cons, IntMap.find_cons, if_pos hk]
      by_cases hr : r = k
      · simp only [if_pos hr, if_pos (hr.trans hk), Option.map_some']
      · have hr' : ¬ r = k' := fun h3 => hr (h3.trans hk.symm)
        simp only [if_neg hr, if_neg hr']
    · rw [if_neg hk, IntMap.find_cons, IntMap.find_cons, IntMap.find_cons, if_neg hk, ih]
      by_cases hr : r = k
      · have hr' : ¬ r = k' := fun h3 => hk (hr.symm.trans h3)
        simp only [if_pos hr, if_neg hr']
      · simp only [if_neg hr]

/-- An increment leaves the keys as they are. -/
theorem IntMap.increment_keys (k : Int) (m : List (Int × Int)) :
    (IntMap.increment k m).map Prod.fst = m.map Prod.fst := by
  induction m with
  | nil => rfl
  | cons head rest ih =>
    obtain ⟨k', v'⟩ := head
    unfold IntMap.increment
    split_ifs
    · rfl
    · rw [List.map_cons, List.map_cons, ih]

/-- The ascending key order of a map is that of its list of keys. -/
theorem IntMap.sorted_iff_keys {α : Type} (m : List (Int × α)) :
    m.Pairwise (fun a b => a.1 < b.1) ↔ (m.map Prod.fst).Pairwise (fun a b => a < b) := by
  rw [List.pairwise_map]

/-- Ascending keys are distinct. -/
theorem IntMap.sorted_nodup {α : Type} (m : List (Int × α))
    (h : m.Pairwise (fun a b => a.1 < b.1)) : (m.map Prod.fst).Nodup := by
  rw [IntMap.sorted_iff_keys] at h
  exact h.imp (fun hab => ne_of_lt hab)

/-- The update of `usedRegions` for a region: the region holds one more than
its count before, and the other regions hold what they held. -/
theorem addUsedRegion_find (usedRegions : List (Int × Int)) (region r : Int) :
    IntMap.find r (addUsedRegion usedRegions region)
      = if r = region then some (IntMap.count usedRegions region + 1)
        else IntMap.find r usedRegions := by
  unfold addUsedRegion IntMap.count
  cases hfind : IntMap.find region usedRegions with
  | none =>
    show IntMap.find r (IntMap.insert region 1 usedRegions) = _
    rw [IntMap.find_insert region 1 usedRegions r hfind]
    rfl
  | some v =>
    show IntMap.find r (IntMap.increment region usedRegions) = _
    rw [IntMap.find_increment, hfind]
    rfl

/-- The update of `usedRegions` keeps the ascending key order. -/
theorem addUsedRegion_sorted (usedRegions : List (Int × Int)) (region : Int)
    (h : usedRegions.Pairwise (fun a b => a.1 < b.1)) :
    (addUsedRegion usedRegions region).Pairwise (fun a b => a.1 < b.1) := by
  unfold addUsedRegion
  cases IntMap.find region usedRegions with
  | none => exact IntMap.insert_sorted region 1 usedRegions h
  | some v =>
    show (IntMap.increment region usedRegions).Pairwise (fun a b => a.1 < b.1)
    rw [IntMap.sorted_iff_keys, IntMap.increment_keys, ← IntMap.sorted_iff_keys]
    exact h

/-- The count of a region in `usedRegions` after the regions of a list have
been counted, the ascending key order, and the positive counts. -/
theorem addUsedRegion_foldl (regions : List Int) (usedRegions : List (Int × Int))
    (hsorted : usedRegions.Pairwise (fun a b => a.1 < b.1))
    (hpos : ∀ e ∈ usedRegions, 0 < e.2) :
    (regions.foldl addUsedRegion usedRegions).Pairwise (fun a b => a.1 < b.1)
    ∧ (∀ e ∈ regions.foldl addUsedRegion usedRegions, 0 < e.2)
    ∧ ∀ r, IntMap.count (regions.foldl addUsedRegion usedRegions) r
        = IntMap.count usedRegions r + (regions.count r : Int) := by
  induction regions generalizing usedRegions with
  | nil =>
    refine ⟨hsorted, hpos, ?_⟩
    intro r
    simp
  | cons region rest ih =>
    rw [List.foldl]
    have hsorted' := addUsedRegion_sorted usedRegions region hsorted
    have hcount0 : 0 ≤ IntMap.count usedRegions region := by
      unfold IntMap.count
      cases hfind : IntMap.find region usedRegions with
      | none => exact le_refl _
      | some v => exact le_of_lt (hpos _ (IntMap.find_some_mem region v usedRegions hfind))
    have hpos' : ∀ e ∈ addUsedRegion usedRegions region, 0 < e.2 := by
      intro e he
      have hfound := IntMap.find_of_mem _ (IntMap.sorted_nodup _ hsorted') e he
      rw [addUsedRegion_find] at hfound
      split_ifs at hfound with hr
      · have := Option.some.inj hfound
        omega
      · exact hpos _ (IntMap.find_some_mem e.1 e.2 usedRegions hfound)
    obtain ⟨h1, h2, h3⟩ := ih (addUsedRegion usedRegions region) hsorted' hpos'
    refine ⟨h1, h2, ?_⟩
    intro r
    rw [h3 r, List.count_cons]
    have hstep : IntMap.count (addUsedRegion usedRegions region) r
        = IntMap.count usedRegions r + (if r = region then 1 else 0) := by
      conv_lhs => unfold IntMap.count
      rw [addUsedRegion_find]
      by_cases hr : r = region
      · rw [if_pos hr, if_pos hr, hr]
        rfl
      · rw [if_neg hr, if_neg hr, add_zero]
        rfl
    rw [hstep]
    by_cases hr : r = region
    · have hb : (region == r) = true := by rw [hr]; exact beq_self_eq_true _
      rw [if_pos hr, hb, if_pos rfl]
      push_cast
      ring
    · have hb : ¬ ((region == r) = true) := by
        intro hb
        exact hr (eq_of_beq hb).symm
      rw [if_neg hr, if_neg hb]
      push_cast
      ring

/-- The loop that picks the best region, from any start: the count kept does
not fall, no entry has a greater count, and the start is kept, or else an
entry with a greater count than the start is chosen that has a greater count
than every entry with a lesser key. -/
theorem pickBest_foldl (l : List (Int × Int)) (init : Int × Int)
    (hsorted : l.Pairwise (fun a b => a.1 < b.1)) :
    init.2 ≤ (l.foldl
        (fun best region => if region.2 > best.2 then (region.1, region.2) else best) init).2
    ∧ (∀ e ∈ l, e.2 ≤ (l.foldl
        (fun best region => if region.2 > best.2 then (region.1, region.2) else best) init).2)
    ∧ (l.foldl (fun best region => if region.2 > best.2 then (region.1, region.2) else best)
          init = init
      ∨ (l.foldl (fun best region => if region.2 > best.2 then (region.1, region.2) else best)
            init ∈ l
        ∧ init.2 < (l.foldl
            (fun best region => if region.2 > best.2 then (region.1, region.2) else best)
            init).2
        ∧ ∀ e ∈ l, e.1 < (l.foldl
            (fun best region => if region.2 > best.2 then (region.1, region.2) else best)
            init).1 →
          e.2 < (l.foldl
            (fun best region => if region.2 > best.2 then (region.1, region.2) else best)
            init).2)) := by
  induction l generalizing init with
  | nil => exact ⟨le_refl _, fun e he => absurd he (List.not_mem_nil _), Or.inl rfl⟩
  | cons e rest ih =>
    rw [List.foldl]
    have hs := List.pairwise_cons.mp hsorted
    by_cases hgt : e.2 > init.2
    · rw [if_pos hgt]
      obtain ⟨h1, h2, h3⟩ := ih (e.1, e.2) hs.2
      refine ⟨le_trans (le_of_lt hgt) h1, ?_, ?_⟩
      · intro x hx
        rcases List.mem_cons.mp hx with hx | hx
        · rw [hx]
          exact h1
        · exact h2 x hx
      · right
        rcases h3 with h3 | ⟨h3, h4, h5⟩
        · rw [h3]
          refine ⟨List.mem_cons_self _ _, hgt, ?_⟩
          intro x hx hlt
          rcases List.mem_cons.mp hx with hx | hx
          · rw [hx] at hlt
            exact absurd hlt (lt_irrefl _)
          · exact absurd (lt_trans (hs.1 x hx) hlt) (lt_irrefl _)
        · refine ⟨List.mem_cons_of_mem _ h3, lt_trans hgt h4, ?_⟩
          intro x hx hlt
          rcases List.mem_cons.mp hx with hx | hx
          · rw [hx]
            exact h4
          · exact h5 x hx hlt
    · rw [if_neg hgt]
      obtain ⟨h1, h2, h3⟩ := ih init hs.2
      refine ⟨h1, ?_, ?_⟩
      · intro x hx
        rcases List.mem_cons.mp hx with hx | hx
        · rw [hx]
          exact le_trans (not_lt.mp hgt) h1
        · exact h2 x hx
      · rcases h3 with h3 | ⟨h3, h4, h5⟩
        · exact Or.inl h3
        · right
          refine ⟨List.mem_cons_of_mem _ h3, h4, ?_⟩
          intro x hx hlt
          rcases List.mem_cons.mp hx with hx | hx
          · rw [hx]
            exact lt_of_le_of_lt (not_lt.mp hgt) h4
          · exact h5 x hx hlt

/-- The first inner loop of `convertStrategicRegions` over provinces without
repetition, on a map with distinct keys: the regions found for the provinces
are counted in order, and the mappings of the provinces are removed. -/
theorem countProvince_foldl (provinces : List Int) (hnodup : provinces.Nodup)
    (usedRegions m : List (Int × Int)) (hkeys : (m.map Prod.fst).Nodup) :
    provinces.foldl countProvince (usedRegions, m)
      = ((provinces.filterMap (fun p => IntMap.find p m)).foldl addUsedRegion usedRegions,
         m.filter (fun e => decide (e.1 ∉ provinces))) := by
  induction provinces generalizing usedRegions m with
  | nil =>
    show (usedRegions, m) = (usedRegions, _)
    have : m.filter (fun e => decide (e.1 ∉ ([] : List Int))) = m := by
      rw [List.filter_eq_self]
      intro e _
      exact decide_eq_true (List.not_mem_nil _)
    rw [this]
  | cons p rest ih =>
    rw [List.nodup_cons] at hnodup
    rw [List.foldl]
    cases hfind : IntMap.find p m with
    | none =>
      have hstep : countProvince (usedRegions, m) p = (usedRegions, m) := by
        unfold countProvince
        simp only [hfind]
      have hfm : (p :: rest).filterMap (fun q => IntMap.find q m)
          = rest.filterMap (fun q => IntMap.find q m) := List.filterMap_cons_none hfind
      rw [hstep, ih hnodup.2 usedRegions m hkeys, hfm]
      congr 1
      apply List.filter_congr
      intro e he
      have hne := IntMap.find_none p m hfind e he
      by_cases hrest : e.1 ∈ rest
      · rw [decide_eq_false (not_not.mpr hrest),
          decide_eq_false (not_not.mpr (List.mem_cons_of_mem _ hrest))]
      · rw [decide_eq_true hrest, decide_eq_true]
        intro hmem
        rcases List.mem_cons.mp hmem with h | h
        · exact hne h
        · exact hrest h
    | some region =>
      have hstep : countProvince (usedRegions, m) p
          = (addUsedRegion usedRegions region, IntMap.erase p m) := by
        unfold countProvince
        simp only [hfind]
      have hkeys' : ((IntMap.erase p m).map Prod.fst).Nodup := by
        rw [IntMap.erase_eq_filter p m hkeys]
        exact hkeys.sublist ((List.filter_sublist _).map Prod.fst)
      have hfm : (p :: rest).filterMap (fun q => IntMap.find q m)
          = region :: rest.filterMap (fun q => IntMap.find q m) :=
        List.filterMap_cons_some hfind
      rw [hstep, ih hnodup.2 _ _ hkeys', hfm, List.foldl]
      have hregions : rest.filterMap (fun q => IntMap.find q (IntMap.erase p m))
          = rest.filterMap (fun q => IntMap.find q m) := by
        apply List.filterMap_congr
        intro q hq
        exact IntMap.find_erase_ne p q m (fun h => hnodup.1 (h ▸ hq))
      rw [hregions, IntMap.erase_eq_filter p m hkeys, List.filter_filter]
      congr 1
      apply List.filter_congr
      intro e _
      by_cases hp : e.1 = p
      · rw [decide_eq_false (not_not.mpr hp), Bool.and_false, decide_eq_false]
        rw [not_not, hp]
        exact List.mem_cons_self _ _
      · by_cases hrest : e.1 ∈ rest
        · rw [decide_eq_false (not_not.mpr hrest), Bool.false_and,
            decide_eq_false (not_not.mpr (List.mem_cons_of_mem _ hrest))]
        · rw [decide_eq_true hrest, decide_eq_true hp, Bool.and_true, decide_eq_true]
          intro hmem
          rcases List.mem_cons.mp hmem with h | h
          · exact hp h
          · exact hrest h

/-- The region picked for a state depends on the map only through what it
holds for the provinces of the state. -/
theorem bestRegionOf_congr (provinces : List Int) (hnodup : provinces.Nodup)
    (m1 m2 : List (Int × Int)) (hkeys1 : (m1.map Prod.fst).Nodup)
    (hkeys2 : (m2.map Prod.fst).Nodup)
    (h : ∀ p ∈ provinces, IntMap.find p m1 = IntMap.find p m2) :
    bestRegionOf m1 provinces = bestRegionOf m2 provinces := by
  unfold bestRegionOf
  rw [countProvince_foldl provinces hnodup [] m1 hkeys1,
    countProvince_foldl provinces hnodup [] m2 hkeys2, List.filterMap_congr h]

/-- One round of the loop over the states: the calls for the state are
appended and the mappings of its provinces are removed. -/
theorem assignState_eq (strategicRegions : List Int) (calls m : List (Int × Int))
    (hkeys : (m.map Prod.fst).Nodup) (hoi4State : Int × List Int)
    (hnodup : hoi4State.2.Nodup) :
    assignState strategicRegions (calls, m) hoi4State
      = (calls ++ callsOfState strategicRegions m hoi4State,
         m.filter (fun e => decide (e.1 ∉ hoi4State.2))) := by
  have hmap : (hoi4State.2.foldl countProvince ([], m)).2
      = m.filter (fun e => decide (e.1 ∉ hoi4State.2)) := by
    rw [countProvince_foldl hoi4State.2 hnodup [] m hkeys]
  unfold assignState callsOfState
  simp only []
  rw [hmap]
  by_cases hbest : bestRegionOf m hoi4State.2 ∈ strategicRegions
  · rw [if_pos hbest]
    exact if_pos hbest
  · rw [if_neg hbest, List.append_nil]
    exact if_neg hbest

/-- The loop over states without a common province: the calls for each state
are those from the map at the start, and the mappings of all their provinces
are removed. -/
theorem assignState_foldl (strategicRegions : List Int) (states : List (Int × List Int))
    (calls m : List (Int × Int)) (hkeys : (m.map Prod.fst).Nodup)
    (hprov : ∀ s ∈ states, s.2.Nodup)
    (hdisj : states.Pairwise (fun s t => ∀ p ∈ s.2, p ∉ t.2)) :
    states.foldl (assignState strategicRegions) (calls, m)
      = (calls ++ states.flatMap (callsOfState strategicRegions m),
         m.filter (fun e => decide (e.1 ∉ states.flatMap Prod.snd))) := by
  induction states generalizing calls m with
  | nil =>
    show (calls, m) = _
    have : m.filter (fun e => decide (e.1 ∉ ([] : List (Int × List Int)).flatMap Prod.snd))
        = m := by
      rw [List.filter_eq_self]
      intro e _
      exact decide_eq_true (List.not_mem_nil _)
    rw [this]
    simp
  | cons s rest ih =>
    have hd := List.pairwise_cons.mp hdisj
    have hs : s.2.Nodup := hprov s (List.mem_cons_self _ _)
    have hkeys' : ((m.filter (fun e => decide (e.1 ∉ s.2))).map Prod.fst).Nodup :=
      hkeys.sublist ((List.filter_sublist _).map Prod.fst)
    rw [List.foldl, assignState_eq strategicRegions calls m hkeys s hs,
      ih _ _ hkeys' (fun t ht => hprov t (List.mem_cons_of_mem _ ht)) hd.2]
    have hcalls : rest.flatMap
          (callsOfState strategicRegions (m.filter (fun e => decide (e.1 ∉ s.2))))
        = rest.flatMap (callsOfState strategicRegions m) := by
      apply List.flatMap_congr
      intro t ht
      have hbest : bestRegionOf (m.filter (fun e => decide (e.1 ∉ s.2))) t.2
          = bestRegionOf m t.2 := by
        apply bestRegionOf_congr t.2 (hprov t (List.mem_cons_of_mem _ ht)) _ _ hkeys' hkeys
        intro p hp
        exact IntMap.find_filter (fun q => decide (q ∉ s.2)) p m
          (decide_eq_true (fun hps => hd.1 t ht p hps hp))
      unfold callsOfState
      rw [hbest]
    rw [hcalls, List.flatMap_cons, List.append_assoc, List.filter_filter]
    congr 1
    apply List.filter_congr
    intro e _
    rw [List.flatMap_cons]
    by_cases h1 : e.1 ∈ s.2
    · rw [decide_eq_false (not_not.mpr h1), Bool.and_false, decide_eq_false]
      rw [not_not]
      exact List.mem_append_left _ h1
    · by_cases h2 : e.1 ∈ rest.flatMap Prod.snd
      · rw [decide_eq_false (not_not.mpr h2), Bool.false_and, decide_eq_false]
        rw [not_not]
        exact List.mem_append_right _ h2
      · rw [decide_eq_true h1, decide_eq_true h2, Bool.and_true, decide_eq_true]
        intro hmem
        rcases List.mem_append.mp hmem with h | h
        · exact h1 h
        · exact h2 h

/-- The last loop of `convertStrategicRegions`: a call for each mapping left
whose region is a strategic region. -/
theorem leftover_foldl (strategicRegions : List Int) (l calls : List (Int × Int)) :
    l.foldl
        (fun calls mapping =>
          if mapping.2 ∈ strategicRegions then calls ++ [(mapping.2, mapping.1)] else calls)
        calls
      = calls ++ (l.filter (fun e => decide (e.2 ∈ strategicRegions))).map
          (fun e => (e.2, e.1)) := by
  induction l generalizing calls with
  | nil => simp
  | cons e rest ih =>
    rw [List.foldl, ih, List.filter_cons]
    by_cases h : e.2 ∈ strategicRegions
    · rw [if_pos h, if_pos (decide_eq_true h), List.map_cons, List.append_assoc]
      rfl
    · rw [if_neg h, if_neg (by rw [decide_eq_true_iff]; exact h)]

/-- The calls of `convertStrategicRegions` for states without a common
province, on a map with distinct keys. -/
theorem convertStrategicRegions_eq (strategicRegions : List Int) (m : List (Int × Int))
    (states : List (Int × List Int)) (hkeys : (m.map Prod.fst).Nodup)
    (hprov : ∀ s ∈ states, s.2.Nodup)
    (hdisj : states.Pairwise (fun s t => ∀ p ∈ s.2, p ∉ t.2)) :
    convertStrategicRegions strategicRegions m states
      = states.flatMap (callsOfState strategicRegions m)
        ++ ((m.filter (fun e => decide (e.1 ∉ states.flatMap Prod.snd))).filter
              (fun e => decide (e.2 ∈ strategicRegions))).map (fun e => (e.2, e.1)) := by
  unfold convertStrategicRegions
  simp only []
  rw [assignState_foldl strategicRegions states [] m hkeys hprov hdisj, leftover_foldl,
    List.nil_append]

/-- The region picked from `usedRegions` in ascending key order: no entry has
a greater count, and the start is kept, or else the entry chosen has a greater
count than every entry with a lesser key. -/
theorem pickBestRegion_spec (usedRegions : List (Int × Int))
    (hsorted : usedRegions.Pairwise (fun a b => a.1 < b.1)) :
    (∀ e ∈ usedRegions, e.2 ≤ (pickBestRegion usedRegions).2)
    ∧ (pickBestRegion usedRegions = (0, 0)
      ∨ (pickBestRegion usedRegions ∈ usedRegions
        ∧ ∀ e ∈ usedRegions, e.1 < (pickBestRegion usedRegions).1 →
            e.2 < (pickBestRegion usedRegions).2)) := by
  obtain ⟨_, h2, h3⟩ := pickBest_foldl usedRegions (0, 0) hsorted
  refine ⟨h2, ?_⟩
  rcases h3 with h | ⟨h, _, h'⟩
  · exact Or.inl h
  · exact Or.inr ⟨h, h'⟩

/-- The number of times a region is found for the provinces of a list is the
number of provinces that the map sends to the region. -/
theorem count_filterMap_find (m : List (Int × Int)) (provinces : List Int) (r : Int) :
    (provinces.filterMap (fun p => IntMap.find p m)).count r
      = provincesInRegion m provinces r := by
  unfold provincesInRegion
  induction provinces with
  | nil => rfl
  | cons p rest ih =>
    cases hfind : IntMap.find p m with
    | none =>
      have hfm : (p :: rest).filterMap (fun q => IntMap.find q m)
          = rest.filterMap (fun q => IntMap.find q m) := List.filterMap_cons_none hfind
      rw [hfm, ih, List.filter_cons, hfind]
      rfl
    | some v =>
      have hfm : (p :: rest).filterMap (fun q => IntMap.find q m)
          = v :: rest.filterMap (fun q => IntMap.find q m) := List.filterMap_cons_some hfind
      rw [hfm, List.count_cons, ih, List.filter_cons, hfind]
      by_cases hv : v = r
      · have h1 : (v == r) = true := by rw [hv]; exact beq_self_eq_true _
        have h2 : (some v == some r) = true := by rw [hv]; exact beq_self_eq_true _
        rw [if_pos h1, if_pos h2, List.length_cons]
      · have h1 : ¬ ((v == r) = true) := fun h => hv (eq_of_beq h)
        have h2 : ¬ ((some v == some r) = true) := fun h => hv (Option.some.inj (eq_of_beq h))
        rw [if_neg h1, if_neg h2, add_zero]

/-- The region picked for a state whose provinces, at least one, each have a
mapping: a region with the largest number of provinces of the state, and the
one with the least id among these. -/
theorem bestRegionOf_spec (m : List (Int × Int)) (provinces : List Int)
    (hnodup : provinces.Nodup) (hkeys : (m.map Prod.fst).Nodup) (hne : provinces ≠ [])
    (hmapped : ∀ p ∈ provinces, (IntMap.find p m).isSome = true) :
    0 < provincesInRegion m provinces (bestRegionOf m provinces)
    ∧ (∀ r, provincesInRegion m provinces r
        ≤ provincesInRegion m provinces (bestRegionOf m provinces))
    ∧ (∀ r, r < bestRegionOf m provinces →
        provincesInRegion m provinces r
          < provincesInRegion m provinces (bestRegionOf m provinces)) := by
  obtain ⟨hsorted, hpos, hcount⟩ :=
    addUsedRegion_foldl (provinces.filterMap (fun p => IntMap.find p m)) []
      List.Pairwise.nil (fun e he => absurd he (List.not_mem_nil _))
  have hbest : bestRegionOf m provinces
      = (pickBestRegion
          ((provinces.filterMap (fun p => IntMap.find p m)).foldl addUsedRegion [])).1 := by
    unfold bestRegionOf
    rw [countProvince_foldl provinces hnodup [] m hkeys]
  have hcount' : ∀ r, IntMap.count
        ((provinces.filterMap (fun p => IntMap.find p m)).foldl addUsedRegion []) r
      = (provincesInRegion m provinces r : Int) := by
    intro r
    rw [hcount r, count_filterMap_find]
    show (0 : Int) + _ = _
    rw [zero_add]
  have hmem : ∀ r, 0 < provincesInRegion m provinces r →
      (r, (provincesInRegion m provinces r : Int))
        ∈ (provinces.filterMap (fun p => IntMap.find p m)).foldl addUsedRegion [] := by
    intro r hr
    have h := hcount' r
    unfold IntMap.count at h
    cases hfind : IntMap.find r
        ((provinces.filterMap (fun p => IntMap.find p m)).foldl addUsedRegion []) with
    | none =>
      rw [hfind] at h
      have h0 : (0 : Int) = (provincesInRegion m provinces r : Int) := h
      omega
    | some v =>
      rw [hfind] at h
      have hv : v = (provincesInRegion m provinces r : Int) := h
      rw [← hv]
      exact IntMap.find_some_mem r v _ hfind
  obtain ⟨h2, h3⟩ :=
    pickBestRegion_spec
      ((provinces.filterMap (fun p => IntMap.find p m)).foldl addUsedRegion []) hsorted
  rw [hbest]
  generalize hb : pickBestRegion
    ((provinces.filterMap (fun p => IntMap.find p m)).foldl addUsedRegion []) = b at h2 h3 ⊢
  obtain ⟨p0, rest0, hp0⟩ : ∃ p0 rest0, provinces = p0 :: rest0 := by
    cases provinces with
    | nil => exact absurd rfl hne
    | cons p0 rest0 => exact ⟨p0, rest0, rfl⟩
  have hp0mem : p0 ∈ provinces := by rw [hp0]; exact List.mem_cons_self _ _
  obtain ⟨r0, hr0⟩ := Option.isSome_iff_exists.mp (hmapped p0 hp0mem)
  have hr0pos : 0 < provincesInRegion m provinces r0 := by
    rw [← count_filterMap_find, List.count_pos_iff, List.mem_filterMap]
    exact ⟨p0, hp0mem, hr0⟩
  have hbpos : 0 < b.2 := by
    have := h2 _ (hmem r0 hr0pos)
    have h' : (provincesInRegion m provinces r0 : Int) ≤ b.2 := this
    omega
  have hright : b ∈ (provinces.filterMap (fun p => IntMap.find p m)).foldl addUsedRegion []
      ∧ ∀ e ∈ (provinces.filterMap (fun p => IntMap.find p m)).foldl addUsedRegion [],
          e.1 < b.1 → e.2 < b.2 := by
    rcases h3 with h | h
    · rw [h] at hbpos
      exact absurd hbpos (lt_irrefl _)
    · exact h
  have hbcount : (provincesInRegion m provinces b.1 : Int) = b.2 := by
    have hfound := IntMap.find_of_mem _ (IntMap.sorted_nodup _ hsorted) b hright.1
    rw [← hcount' b.1]
    unfold IntMap.count
    rw [hfound]
    rfl
  refine ⟨by omega, ?_, ?_⟩
  · intro r
    by_cases hr : 0 < provincesInRegion m provinces r
    · have := h2 _ (hmem r hr)
      have h' : (provincesInRegion m provinces r : Int) ≤ b.2 := this
      omega
    · omega
  · intro r hlt
    by_cases hr : 0 < provincesInRegion m provinces r
    · have := hright.2 _ (hmem r hr) hlt
      have h' : (provincesInRegion m provinces r : Int) < b.2 := this
      omega
    · omega

/-- C21: for a province-to-region map with distinct keys and states, each
without a repeated province, that share no province and whose provinces all
map to strategic regions, `convertStrategicRegions` adds all provinces of
each state with a province to one region, which holds the largest number of
provinces of the state in the map as it was at the start and has the least id
among the regions that do; it adds each province of the map that belongs to
no state to its region, when this is a strategic region; and every province
of the map that belongs to a state or whose region is a strategic region is
added exactly once. -/
theorem convertStrategicRegions_majority (strategicRegions : List Int)
    (provinceToStratRegionMap : List (Int × Int)) (states : List (Int × List Int))
    (hkeys : (provinceToStratRegionMap.map Prod.fst).Nodup)
    (hprov : ∀ s ∈ states, s.2.Nodup)
    (hdisj : states.Pairwise (fun s t => ∀ p ∈ s.2, p ∉ t.2))
    (hmapped : ∀ s ∈ states, ∀ p ∈ s.2,
      ∃ r ∈ strategicRegions, IntMap.find p provinceToStratRegionMap = some r) :
    let calls := convertStrategicRegions strategicRegions provinceToStratRegionMap states
    (∀ s ∈ states, s.2 ≠ [] →
      ∃ best ∈ strategicRegions,
        (∀ p ∈ s.2, (best, p) ∈ calls)
        ∧ 0 < provincesInRegion provinceToStratRegionMap s.2 best
        ∧ (∀ r, provincesInRegion provinceToStratRegionMap s.2 r
            ≤ provincesInRegion provinceToStratRegionMap s.2 best)
        ∧ (∀ r, r < best →
            provincesInRegion provinceToStratRegionMap s.2 r
              < provincesInRegion provinceToStratRegionMap s.2 best))
    ∧ (∀ mapping ∈ provinceToStratRegionMap,
        (∀ s ∈ states, mapping.1 ∉ s.2) → mapping.2 ∈ strategicRegions →
        (mapping.2, mapping.1) ∈ calls)
    ∧ (∀ mapping ∈ provinceToStratRegionMap,
        ((∃ s ∈ states, mapping.1 ∈ s.2) ∨ mapping.2 ∈ strategicRegions) →
        (calls.map Prod.snd).count mapping.1 = 1) := by
  intro calls
  have hcalls : calls
      = states.flatMap (callsOfState strategicRegions provinceToStratRegionMap)
        ++ ((provinceToStratRegionMap.filter
              (fun e => decide (e.1 ∉ states.flatMap Prod.snd))).filter
              (fun e => decide (e.2 ∈ strategicRegions))).map (fun e => (e.2, e.1)) :=
    convertStrategicRegions_eq strategicRegions provinceToStratRegionMap states hkeys hprov
      hdisj
  have hsome : ∀ s ∈ states, ∀ p ∈ s.2,
      (IntMap.find p provinceToStratRegionMap).isSome = true := by
    intro s hs p hp
    obtain ⟨r, _, hr⟩ := hmapped s hs p hp
    rw [hr]
    rfl
  have hbestIn : ∀ s ∈ states, s.2 ≠ [] →
      bestRegionOf provinceToStratRegionMap s.2 ∈ strategicRegions := by
    intro s hs hne
    have hpos := (bestRegionOf_spec provinceToStratRegionMap s.2 (hprov s hs) hkeys hne
      (hsome s hs)).1
    rw [← count_filterMap_find, List.count_pos_iff, List.mem_filterMap] at hpos
    obtain ⟨p, hp, hfind⟩ := hpos
    obtain ⟨r, hr, hfind'⟩ := hmapped s hs p hp
    rw [hfind'] at hfind
    rw [← Option.some.inj hfind]
    exact hr
  have hsnd : ∀ s ∈ states,
      (callsOfState strategicRegions provinceToStratRegionMap s).map Prod.snd = s.2 := by
    intro s hs
    unfold callsOfState
    by_cases hne : s.2 = []
    · rw [hne]
      split_ifs <;> rfl
    · rw [if_pos (hbestIn s hs hne), List.map_map]
      exact List.map_id _
  have hmemleft : ∀ mapping ∈ provinceToStratRegionMap,
      (∀ s ∈ states, mapping.1 ∉ s.2) → mapping.2 ∈ strategicRegions →
      mapping ∈ (provinceToStratRegionMap.filter
          (fun e => decide (e.1 ∉ states.flatMap Prod.snd))).filter
          (fun e => decide (e.2 ∈ strategicRegions)) := by
    intro mapping hmem hno hregion
    rw [List.mem_filter, List.mem_filter]
    refine ⟨⟨hmem, decide_eq_true ?_⟩, decide_eq_true hregion⟩
    intro h
    obtain ⟨s, hs, hp⟩ := List.mem_flatMap.mp h
    exact hno s hs hp
  have hprovinces : calls.map Prod.snd
      = states.flatMap Prod.snd
        ++ ((provinceToStratRegionMap.filter
              (fun e => decide (e.1 ∉ states.flatMap Prod.snd))).filter
              (fun e => decide (e.2 ∈ strategicRegions))).map Prod.fst := by
    rw [hcalls, List.map_append, List.map_flatMap, List.flatMap_congr hsnd, List.map_map]
    rfl
  have hnodup : (calls.map Prod.snd).Nodup := by
    rw [hprovinces, List.nodup_append]
    refine ⟨?_, ?_, ?_⟩
    · rw [List.nodup_flatMap]
      refine ⟨hprov, hdisj.imp ?_⟩
      intro s t hst p hps hpt
      exact hst p hps hpt
    · exact hkeys.sublist
        (((List.filter_sublist _).trans (List.filter_sublist _)).map Prod.fst)
    · intro p hp1 hp2
      obtain ⟨e, he, hep⟩ := List.mem_map.mp hp2
      have he' := (List.mem_filter.mp (List.mem_filter.mp he).1).2
      rw [decide_eq_true_iff] at he'
      rw [hep] at he'
      exact he' hp1
  refine ⟨?_, ?_, ?_⟩
  · intro s hs hne
    obtain ⟨h1, h2, h3⟩ := bestRegionOf_spec provinceToStratRegionMap s.2 (hprov s hs) hkeys
      hne (hsome s hs)
    refine ⟨bestRegionOf provinceToStratRegionMap s.2, hbestIn s hs hne, ?_, h1, h2, h3⟩
    intro p hp
    rw [hcalls]
    apply List.mem_append_left
    rw [List.mem_flatMap]
    refine ⟨s, hs, ?_⟩
    unfold callsOfState
    rw [if_pos (hbestIn s hs hne)]
    exact List.mem_map.mpr ⟨p, hp, rfl⟩
  · intro mapping hmem hno hregion
    rw [hcalls]
    apply List.mem_append_right
    exact List.mem_map.mpr ⟨mapping, hmemleft mapping hmem hno hregion, rfl⟩
  · intro mapping hmem hcase
    apply List.count_eq_one_of_mem hnodup
    rw [hprovinces]
    by_cases hstate : ∃ s ∈ states, mapping.1 ∈ s.2
    · obtain ⟨s, hs, hp⟩ := hstate
      exact List.mem_append_left _ (List.mem_flatMap.mpr ⟨s, hs, hp⟩)
    · have hregion : mapping.2 ∈ strategicRegions := by
        rcases hcase with h | h
        · exact absurd h hstate
        · exact h
      apply List.mem_append_right
      refine List.mem_map.mpr ⟨mapping, hmemleft mapping hmem ?_ hregion, rfl⟩
      intro s hs hp
      exact hstate ⟨s, hs, hp⟩

/-- Witness of C21: in the worked example the state 1, with one province in
the region 1 and two in the region 2, goes to the region 2; the state 2, with
one province in each region, goes to the region 1; the province 15 goes back
to the region 1; and the province 15 is added once. -/
theorem convertStrategicRegions_majority_witness :
    convertStrategicRegions [1, 2] exampleStratRegionMap exampleRegionStates
      = [(2, 10), (2, 12), (2, 13), (1, 11), (1, 14), (1, 15)]
    ∧ ((convertStrategicRegions [1, 2] exampleStratRegionMap exampleRegionStates).map
        Prod.snd).count 15 = 1 :=
  ⟨by decide,
    (convertStrategicRegions_majority [1, 2] exampleStratRegionMap exampleRegionStates
      (by decide) (by decide) (by decide) (by decide)).2.2 (15, 1) (by decide)
      (Or.inr (by decide))⟩

end Vic2ToHoI4
